import Mathlib

/-!
# gofortune: loading the tree of fortune files (`pkg/fortune/files.go`)

A shallow embedding of `LoadPaths` and of the functions it calls.

* Go pointers (`*FileSystemNodeDescriptor`) are addresses into an explicit `Heap`;
  every local descriptor whose address is taken is one allocated cell.
* `Children` is a slice of struct values, so a node holds copies of its children.
* The operating system and the `pkg` package are read through an `Env` record that is
  constant during one call (the code only reads the filesystem).
* `populateFileAmounts` is a loop over `Parent` pointers; it carries a fuel argument that
  counts loop iterations, and `none` stands for a walk that did not end within the fuel.
* `uint32` values are `Fin 2^32`; the `uint64` counter `NumEntries` is a `Nat` updated
  modulo `2^64`; `float32` values are only stored and copied and are carried as IEEE-754
  bit patterns.
* `NumFiles` is an `Int` and `NumFiles++` is `+ 1`. That is the increment of Go's `int` as
  long as the counter is below the largest `int` (at the largest `int` Go wraps to the
  smallest, which `+ 1` does not show). Inside `LoadPaths` every counter starts at 0 and is
  incremented once per descriptor appended to the tree, so it stays below that value while
  the tree fits in memory; a statement about `populateFileAmounts` on an arbitrary heap
  assumes it (`maxInt`).
-/

namespace Fortune

/-! ## The embedding of `files.go` -/

/-- Go `uint32`. -/
abbrev uint32 := Fin 4294967296

/-- Go `float32`, carried as its IEEE-754 bit pattern (the code only copies such values). -/
abbrev float32 := Fin 4294967296

/-- The bit pattern of the `float32` constant `100`. -/
def float32_100 : float32 := 0x42C80000

/-- An address of a `FileSystemNodeDescriptor` variable; `Option Ptr` is a Go pointer
(`none` is `nil`). -/
abbrev Ptr := Nat

/-- Go `error` values that are not `nil`: the ones built by `errors.New` in this file, and the
ones handed back by `os`, `ioutil` and `pkg`. -/
inductive Error where
  | New (text : String)
  | foreign (code : Nat)
deriving DecidableEq, Repr

/-- Modelled from the spec: the type `pkg.DataTable` is declared outside `files.go`. It is the
decoded index summary "exposing at minimum: number of entries, shortest entry length, longest
entry length"; these are the three fields `files.go` reads. The two lengths are compared with
`uint32` thresholds, so they are `uint32`; the count is the unsigned 32-bit count of the index
header, which `populateFileAmounts` converts with `uint64(...)`. -/
structure DataTable where
  NumberOfStrings : uint32
  LongestLength : uint32
  ShortestLength : uint32
deriving DecidableEq, Repr

/-- Modelled from the spec: the result type of `pkg.LoadDataTableVersionFromPath` is declared
outside `files.go`; the code reads its `Version` field, the "version identifier" of the index,
and compares it with `pkg.DefaultVersion`. -/
structure DataTableVersion where
  Version : uint32
deriving DecidableEq, Repr

/-- The part of `os.FileInfo` the code uses. -/
structure FileInfo where
  Name : String
  IsDir : Bool
deriving DecidableEq, Repr

/-- What the code reads from outside: the filesystem (`os.Stat`, `ioutil.ReadDir`), the `pkg`
package (`FileExists`, the two index decoders, `DefaultVersion`) and `filepath.Join`. -/
structure Env where
  Stat : String → Except Error FileInfo
  ReadDir : String → Except Error (List FileInfo)
  FileExists : String → Bool
  LoadDataTableVersionFromPath : String → Except Error DataTableVersion
  LoadDataTableFromPath : String → Except Error DataTable
  DefaultVersion : uint32
  Join : String → String → String

/-- A requested path with the percentage the requester gave it. -/
structure ProbabilityPath where
  Path : String
  Percentage : float32
deriving DecidableEq, Repr

/-- A node of the tree: the root, a directory or a fortune file. `Children` holds values
(copies made by `append`), `Parent` an address. -/
structure FileSystemNodeDescriptor where
  Percent : float32
  UndefinedChildrenPercent : float32
  UndefinedNumEntries : Nat
  NumEntries : Nat
  NumFiles : Int
  Path : String
  IndexPath : String
  Table : DataTable
  isUtf8 : Bool
  Children : List FileSystemNodeDescriptor
  Parent : Option Ptr

/-- The zero value of `pkg.DataTable`. -/
def DataTable.zero : DataTable := ⟨0, 0, 0⟩

/-- The zero value `FileSystemNodeDescriptor{}`. -/
def FileSystemNodeDescriptor.zero : FileSystemNodeDescriptor where
  Percent := 0
  UndefinedChildrenPercent := 0
  UndefinedNumEntries := 0
  NumEntries := 0
  NumFiles := 0
  Path := ""
  IndexPath := ""
  Table := DataTable.zero
  isUtf8 := false
  Children := []
  Parent := none

/-- The descriptor variables of a run: `cells p` is the value stored at address `p`, and
`next` is the first address not yet handed out. -/
structure Heap where
  cells : Ptr → FileSystemNodeDescriptor
  next : Ptr

/-- The heap before any variable is declared. -/
def Heap.empty : Heap := ⟨fun _ => FileSystemNodeDescriptor.zero, 0⟩

/-- The value `*p`. -/
def Heap.read (h : Heap) (p : Ptr) : FileSystemNodeDescriptor := h.cells p

/-- The assignment `*p = v`. -/
def Heap.write (h : Heap) (p : Ptr) (v : FileSystemNodeDescriptor) : Heap :=
  ⟨Function.update h.cells p v, h.next⟩

/-- A new variable initialised to `v`; returns its address. -/
def Heap.alloc (h : Heap) (v : FileSystemNodeDescriptor) : Ptr × Heap :=
  (h.next, ⟨Function.update h.cells h.next v, h.next + 1⟩)

/-- `populateFileAmounts`; the first argument bounds the number of loop iterations.
`current.NumFiles++` is written `+ 1` on `Int`: the value Go computes whenever the counter is
below the largest `int`. -/
def populateFileAmounts : Nat → Heap → Ptr → DataTable → Option Heap
  | 0, _, _, _ => none
  | fuel + 1, h, current, table =>
    let h1 := h.write current
      { h.read current with
        NumEntries := ((h.read current).NumEntries + table.NumberOfStrings.val) % 2 ^ 64 }
    let h2 := h1.write current
      { h1.read current with NumFiles := (h1.read current).NumFiles + 1 }
    match (h2.read current).Parent with
    | none => some h2
    | some parent => populateFileAmounts fuel h2 parent table

/-- `isFortuneFile`: the file exists (the comment above it in `files.go` speaks of a fortune
index file; the body only asks `pkg.FileExists`). -/
def isFortuneFile (env : Env) (path : String) : Bool :=
  env.FileExists path

/-- `isFortuneIndexFile`: the index file exists and decodes to the supported version. -/
def isFortuneIndexFile (env : Env) (path : String) : Bool :=
  if !env.FileExists path then false
  else
    match env.LoadDataTableVersionFromPath path with
    | .error _ => false
    | .ok version => if version.Version != env.DefaultVersion then false else true

/-- `loadFilePath`; returns the heap after the call and the returned `error` (`none` is
`nil`). -/
def loadFilePath (fuel : Nat) (env : Env) (h : Heap) (fsDescriptor parent : Ptr)
    (shorterThan longerThan : uint32) : Option (Heap × Option Error) :=
  if !isFortuneFile env (h.read fsDescriptor).Path then
    some (h, some (Error.New "file is not a valid fortune file"))
  else
    let indexPath := (h.read fsDescriptor).Path ++ ".dat"
    if !isFortuneIndexFile env indexPath then
      some (h, some (Error.New "file is not a valid fortune index file"))
    else
      let h1 := h.write fsDescriptor { h.read fsDescriptor with IndexPath := indexPath }
      match env.LoadDataTableFromPath (h1.read fsDescriptor).IndexPath with
      | .error err => some (h1, some err)
      | .ok table =>
        if table.LongestLength < longerThan || table.ShortestLength > shorterThan then
          some (h1, some (Error.New "file do not honor the length filter"))
        else
          let h2 := h1.write fsDescriptor { h1.read fsDescriptor with Table := table }
          let h3 := h2.write fsDescriptor { h2.read fsDescriptor with Parent := some parent }
          match populateFileAmounts fuel h3 fsDescriptor table with
          | none => none
          | some h4 =>
            some (h4.write parent
              { h4.read parent with
                Children := (h4.read parent).Children ++ [h4.read fsDescriptor] }, none)

/-- The `for i := range fsNodes` loop of `loadDirPath`. -/
def loadDirEntries (fuel : Nat) (env : Env) (fsDescriptor : Ptr)
    (shorterThan longerThan : uint32) : List FileInfo → Heap → Option Heap
  | [], h => some h
  | node :: rest, h =>
    if !node.IsDir then
      let (childFsDescriptor, h1) := h.alloc
        { FileSystemNodeDescriptor.zero with
          Path := env.Join (h.read fsDescriptor).Path node.Name
          Parent := some fsDescriptor }
      match loadFilePath fuel env h1 childFsDescriptor fsDescriptor shorterThan longerThan with
      | none => none
      | some (h2, _) => loadDirEntries fuel env fsDescriptor shorterThan longerThan rest h2
    else
      loadDirEntries fuel env fsDescriptor shorterThan longerThan rest h

/-- `loadDirPath`: enumerate the directory, try every entry that is not a directory, then
append the directory's descriptor to the parent. -/
def loadDirPath (fuel : Nat) (env : Env) (h : Heap) (fsDescriptor parent : Ptr)
    (shorterThan longerThan : uint32) : Option (Heap × Option Error) :=
  match env.ReadDir (h.read fsDescriptor).Path with
  | .error err => some (h, some err)
  | .ok fsNodes =>
    match loadDirEntries fuel env fsDescriptor shorterThan longerThan fsNodes h with
    | none => none
    | some h1 =>
      let h2 := h1.write fsDescriptor { h1.read fsDescriptor with Parent := some parent }
      some (h2.write parent
        { h2.read parent with
          Children := (h2.read parent).Children ++ [h2.read fsDescriptor] }, none)

/-- `loadPath`: declare the descriptor of the path, then dispatch on `os.Stat`. -/
def loadPath (fuel : Nat) (env : Env) (h : Heap) (path : ProbabilityPath) (parent : Ptr)
    (shorterThan longerThan : uint32) : Option (Heap × Option Error) :=
  let (fsDescriptor, h1) := h.alloc
    { FileSystemNodeDescriptor.zero with
      Path := path.Path
      Percent := path.Percentage
      Parent := some parent }
  match env.Stat path.Path with
  | .error err => some (h1, some err)
  | .ok stat =>
    if stat.IsDir then
      match loadDirPath fuel env h1 fsDescriptor parent shorterThan longerThan with
      | none => none
      | some (h2, some err) => some (h2, some err)
      | some (h2, none) => some (h2, none)
    else
      match loadFilePath fuel env h1 fsDescriptor parent shorterThan longerThan with
      | none => none
      | some (h2, some err) => some (h2, some err)
      | some (h2, none) => some (h2, none)

/-- The `for i := range paths` loop of `LoadPaths`, on the variable `rootFsDescriptor`. -/
def loadPathsFrom (fuel : Nat) (env : Env) (rootFsDescriptor : Ptr)
    (shorterThan longerThan : uint32) : List ProbabilityPath → Heap → Option (Heap × Option Error)
  | [], h => some (h, none)
  | path :: rest, h =>
    match loadPath fuel env h path rootFsDescriptor shorterThan longerThan with
    | none => none
    | some (h1, some err) => some (h1, some err)
    | some (h1, none) => loadPathsFrom fuel env rootFsDescriptor shorterThan longerThan rest h1

/-- `LoadPaths`: the returned descriptor is the value of `rootFsDescriptor` at the return. -/
def LoadPaths (fuel : Nat) (env : Env) (paths : List ProbabilityPath)
    (shorterThan longerThan : uint32) : Option (FileSystemNodeDescriptor × Option Error) :=
  let (rootFsDescriptor, h) := Heap.empty.alloc
    { FileSystemNodeDescriptor.zero with Percent := float32_100 }
  match loadPathsFrom fuel env rootFsDescriptor shorterThan longerThan paths h with
  | none => none
  | some (h1, err) => some (h1.read rootFsDescriptor, err)

/-! ## The scenario of the specification -/

/-- A filesystem with directory `A` holding `a1` (index: 3 entries, lengths 10 to 50) and
`a2` (no index), and a file `b` (index: 5 entries, lengths 5 to 20). -/
def scenarioEnv : Env where
  Stat := fun p =>
    if p = "A" then .ok ⟨"A", true⟩
    else if p = "A/a1" then .ok ⟨"a1", false⟩
    else if p = "A/a2" then .ok ⟨"a2", false⟩
    else if p = "b" then .ok ⟨"b", false⟩
    else .error (Error.foreign 2)
  ReadDir := fun p =>
    if p = "A" then .ok [⟨"a1", false⟩, ⟨"a2", false⟩] else .error (Error.foreign 20)
  FileExists := fun p => p = "A/a1" || p = "A/a1.dat" || p = "A/a2" || p = "b" || p = "b.dat"
  LoadDataTableVersionFromPath := fun p =>
    if p = "A/a1.dat" || p = "b.dat" then .ok ⟨2⟩ else .error (Error.foreign 5)
  LoadDataTableFromPath := fun p =>
    if p = "A/a1.dat" then .ok ⟨3, 50, 10⟩
    else if p = "b.dat" then .ok ⟨5, 20, 5⟩
    else .error (Error.foreign 5)
  DefaultVersion := 2
  Join := fun d n => d ++ "/" ++ n

/-- The two requested paths of the scenario. -/
def scenarioPaths : List ProbabilityPath := [⟨"A", 0⟩, ⟨"b", 0⟩]

/-- The descriptor of `A/a1` in the scenario (its directory variable is at address 1). -/
def scenarioA1 : FileSystemNodeDescriptor :=
  { FileSystemNodeDescriptor.zero with
    Path := "A/a1", IndexPath := "A/a1.dat", Table := ⟨3, 50, 10⟩,
    NumEntries := 3, NumFiles := 1, Parent := some 1 }

/-- The descriptor of the directory `A` in the scenario. -/
def scenarioA : FileSystemNodeDescriptor :=
  { FileSystemNodeDescriptor.zero with
    Path := "A", NumEntries := 3, NumFiles := 1, Children := [scenarioA1], Parent := some 0 }

/-- The descriptor of the file `b` in the scenario. -/
def scenarioB : FileSystemNodeDescriptor :=
  { FileSystemNodeDescriptor.zero with
    Path := "b", IndexPath := "b.dat", Table := ⟨5, 20, 5⟩,
    NumEntries := 5, NumFiles := 1, Parent := some 0 }

/-- The root `LoadPaths` returns in the scenario. -/
def scenarioRoot : FileSystemNodeDescriptor :=
  { FileSystemNodeDescriptor.zero with
    Percent := float32_100, NumEntries := 8, NumFiles := 2, Children := [scenarioA, scenarioB] }

/-! ## Definitions used to state and prove the properties -/

/-- What `populateFileAmounts` does to one node. -/
def addAmounts (entries : Nat) (files : Int) (n : FileSystemNodeDescriptor) :
    FileSystemNodeDescriptor :=
  { n with NumEntries := (n.NumEntries + entries) % 2 ^ 64, NumFiles := n.NumFiles + files }

/-- The checks of `loadFilePath` on the file at `path`, in the order of the code: the decoded
table when the file is kept, the returned error otherwise. -/
def checkFile (env : Env) (shorterThan longerThan : uint32) (path : String) :
    Except Error DataTable :=
  if !isFortuneFile env path then .error (Error.New "file is not a valid fortune file")
  else if !isFortuneIndexFile env (path ++ ".dat") then
    .error (Error.New "file is not a valid fortune index file")
  else
    match env.LoadDataTableFromPath (path ++ ".dat") with
    | .error err => .error err
    | .ok table =>
      if table.LongestLength < longerThan || table.ShortestLength > shorterThan then
        .error (Error.New "file do not honor the length filter")
      else .ok table

/-- The initial value of the descriptor variable declared in `loadPath` and `loadDirPath`. -/
def freshNode (path : String) (percent : float32) (parent : Ptr) : FileSystemNodeDescriptor :=
  { FileSystemNodeDescriptor.zero with Path := path, Percent := percent, Parent := some parent }

/-- The descriptor `loadFilePath` appends for a kept file with decoded table `t`. -/
def fileNode (path : String) (percent : float32) (parent : Ptr) (t : DataTable) :
    FileSystemNodeDescriptor :=
  { FileSystemNodeDescriptor.zero with
    Path := path, Percent := percent, Parent := some parent,
    IndexPath := path ++ ".dat", Table := t,
    NumEntries := t.NumberOfStrings.val, NumFiles := 1 }

/-- Node `n` after child `c` was appended and the counts of `c` were added to it. -/
def attach (n c : FileSystemNodeDescriptor) : FileSystemNodeDescriptor :=
  { n with
    NumEntries := (n.NumEntries + c.NumEntries) % 2 ^ 64
    NumFiles := n.NumFiles + c.NumFiles
    Children := n.Children ++ [c] }

/-- The descriptors the loop of `loadDirPath` appends to the directory variable at address
`dir`, whose path is `dirPath`, for the enumerated entries `fsNodes`. -/
def dirChildren (env : Env) (s l : uint32) (dirPath : String) (dir : Ptr)
    (fsNodes : List FileInfo) : List FileSystemNodeDescriptor :=
  fsNodes.filterMap fun node =>
    if node.IsDir then none
    else
      match checkFile env s l (env.Join dirPath node.Name) with
      | .ok t => some (fileNode (env.Join dirPath node.Name) 0 dir t)
      | .error _ => none

/-- The number of descriptor variables the loop of `loadDirPath` declares. -/
def dirCells (fsNodes : List FileInfo) : Nat :=
  (fsNodes.filter fun node => !node.IsDir).length

/-- The `uint64` counter after the `NumEntries` of the nodes `cs` were added to it, one
after the other. -/
def sumEntries (cs : List FileSystemNodeDescriptor) (start : Nat) : Nat :=
  cs.foldl (fun x c => (x + c.NumEntries) % 2 ^ 64) start

/-- The descriptor `loadDirPath` appends for a directory: the variable declared in `loadPath`
at address `addr` after the loop over the enumerated entries. -/
def dirNode (env : Env) (s l : uint32) (path : String) (pct : float32) (addr root : Ptr)
    (fsNodes : List FileInfo) : FileSystemNodeDescriptor :=
  (dirChildren env s l path addr fsNodes).foldl attach (freshNode path pct root)

/-- The outcome of `loadPath` for one requested path when its descriptor variable is declared
at address `addr`: the descriptor appended to the node at `root`, or the returned error. -/
def pathNode (env : Env) (s l : uint32) (addr root : Ptr) (path : ProbabilityPath) :
    Except Error FileSystemNodeDescriptor :=
  match env.Stat path.Path with
  | .error err => .error err
  | .ok stat =>
    if stat.IsDir then
      match env.ReadDir path.Path with
      | .error err => .error err
      | .ok fsNodes => .ok (dirNode env s l path.Path path.Percentage addr root fsNodes)
    else
      match checkFile env s l path.Path with
      | .error err => .error err
      | .ok t => .ok (fileNode path.Path path.Percentage root t)

/-- The number of descriptor variables one call of `loadPath` declares. -/
def pathCells (env : Env) (path : ProbabilityPath) : Nat :=
  match env.Stat path.Path with
  | .error _ => 1
  | .ok stat =>
    if stat.IsDir then
      match env.ReadDir path.Path with
      | .error _ => 1
      | .ok fsNodes => 1 + dirCells fsNodes
    else 1

/-- The parent node and the returned error after one path was processed. -/
def rootStep (root : FileSystemNodeDescriptor) :
    Except Error FileSystemNodeDescriptor → FileSystemNodeDescriptor × Option Error
  | .ok c => (attach root c, none)
  | .error err => (root, some err)

/-- The loop of `LoadPaths` as a function of the parent node: the node after the loop and the
returned error, when the next descriptor variable is declared at address `next`. -/
def treeFrom (env : Env) (s l : uint32) (root : Ptr) :
    List ProbabilityPath → Nat → FileSystemNodeDescriptor →
      FileSystemNodeDescriptor × Option Error
  | [], _, n => (n, none)
  | path :: rest, next, n =>
    match pathNode env s l next root path with
    | .error err => (n, some err)
    | .ok c => treeFrom env s l root rest (next + pathCells env path) (attach n c)

/-- The initial value of `rootFsDescriptor`. -/
def rootNode : FileSystemNodeDescriptor :=
  { FileSystemNodeDescriptor.zero with Percent := float32_100 }

/-- The descriptors the loop of `LoadPaths` appends to the root, in order. -/
def loadedNodes (env : Env) (s l : uint32) (root : Ptr) :
    List ProbabilityPath → Nat → List FileSystemNodeDescriptor
  | [], _ => []
  | path :: rest, next =>
    match pathNode env s l next root path with
    | .error _ => []
    | .ok c => c :: loadedNodes env s l root rest (next + pathCells env path)

/-- The heap at the call `loadFilePath(&fsDescriptor, parent, ...)` made by `loadPath` for the
path `b` of the scenario: `rootFsDescriptor` at address 0, `fsDescriptor` at address 1. -/
def scenarioHeapB : Heap :=
  ((Heap.empty.alloc rootNode).2.alloc (freshNode "b" 0 0)).2

/-- The error `loadFilePath` returns when the length filter rejects a file. -/
def lengthFilterError : Error := Error.New "file do not honor the length filter"

/-- The nodes met when following `Parent` from `p`: `parentChain h d p = some ps` says that a
parentless node is reached after exactly `d` steps, and `ps` lists the `d + 1` nodes visited
(`p` first, the parentless one last). -/
def parentChain (h : Heap) : Nat → Ptr → Option (List Ptr)
  | 0, p =>
    match (h.read p).Parent with
    | none => some [p]
    | some _ => none
  | d + 1, p =>
    match (h.read p).Parent with
    | none => none
    | some q => (parentChain h d q).map (p :: ·)

/-- The table decoded from `b.dat` in the scenario. -/
def scenarioTableB : DataTable := ⟨5, 20, 5⟩

/-- The file nodes of a tree returned by `LoadPaths` for `paths`: for each child of the root,
the child itself when its requested path is a file, its children when the path is a
directory. -/
def fileNodesOf (env : Env) (paths : List ProbabilityPath) (root : FileSystemNodeDescriptor) :
    List FileSystemNodeDescriptor :=
  (paths.zip root.Children).flatMap fun pc =>
    match env.Stat pc.1.Path with
    | .ok stat => if stat.IsDir then pc.2.Children else [pc.2]
    | .error _ => []

/-- The enumerated entries of the directory `dirPath` for which `loadDirPath` appends a
node: those that are not directories and pass every check of `loadFilePath`. -/
def validEntries (env : Env) (s l : uint32) (dirPath : String) (fsNodes : List FileInfo) :
    List FileInfo :=
  fsNodes.filter fun node =>
    !node.IsDir && (checkFile env s l (env.Join dirPath node.Name)).isOk

/-- Whether `loadPath` returns a nil error for a requested path: `os.Stat` succeeds and, for a
directory, `ioutil.ReadDir` succeeds; for a file, every check of `loadFilePath` passes. -/
def pathLoads (env : Env) (s l : uint32) (path : ProbabilityPath) : Bool :=
  match env.Stat path.Path with
  | .error _ => false
  | .ok stat =>
    if stat.IsDir then (env.ReadDir path.Path).isOk
    else (checkFile env s l path.Path).isOk

/-- Two requested files that both exist; the first one has no index. -/
def unindexedFirst : List ProbabilityPath := [⟨"A/a2", 0⟩, ⟨"b", 0⟩]

/-- The number of descriptor variables declared while the paths `paths` are processed. -/
def pathsCells (env : Env) (paths : List ProbabilityPath) : Nat :=
  (paths.map (pathCells env)).sum

/-- The root `LoadPaths` returns for the single path `b` of the scenario. -/
def scenarioRootB : FileSystemNodeDescriptor :=
  { FileSystemNodeDescriptor.zero with
    Percent := float32_100, NumEntries := 5, NumFiles := 1, Children := [scenarioB] }

/-- What the checks of `loadFilePath` establish about a kept file. -/
def Indexed (env : Env) (c : FileSystemNodeDescriptor) : Prop :=
  env.FileExists c.Path = true ∧
  c.IndexPath = c.Path ++ ".dat" ∧
  env.FileExists c.IndexPath = true ∧
  (∃ version, env.LoadDataTableVersionFromPath c.IndexPath = .ok version ∧
    version.Version = env.DefaultVersion) ∧
  env.LoadDataTableFromPath c.IndexPath = .ok c.Table

/-- The heap after `loadFilePath` rejected `b` in the scenario for its lengths: only the
`IndexPath` of the descriptor variable was assigned. -/
def scenarioHeapBRejected : Heap :=
  scenarioHeapB.write 1 { scenarioHeapB.read 1 with IndexPath := "b.dat" }

/-- The heap in which `LoadPaths` makes its first call of `loadPath`: only
`rootFsDescriptor` is declared, at address 0. -/
def initialHeap : Heap := (Heap.empty.alloc rootNode).2

/-- The descriptor of the directory `A` when none of its entries is kept. -/
def scenarioAEmpty : FileSystemNodeDescriptor :=
  { FileSystemNodeDescriptor.zero with Path := "A", Parent := some 0 }

/-- The root `LoadPaths` returns for the single path `A` when none of its entries is kept. -/
def scenarioRootAEmpty : FileSystemNodeDescriptor :=
  { FileSystemNodeDescriptor.zero with Percent := float32_100, Children := [scenarioAEmpty] }

/-- A filesystem with a directory `D` that holds a sub-directory `sub` and a valid file `f`
(index: 7 entries, lengths 4 to 30); `sub` even has a companion `sub.dat`. -/
def nestedEnv : Env where
  Stat := fun p =>
    if p = "D" then .ok ⟨"D", true⟩
    else if p = "D/sub" then .ok ⟨"sub", true⟩
    else if p = "D/f" then .ok ⟨"f", false⟩
    else .error (Error.foreign 2)
  ReadDir := fun p =>
    if p = "D" then .ok [⟨"sub", true⟩, ⟨"f", false⟩]
    else if p = "D/sub" then .ok []
    else .error (Error.foreign 20)
  FileExists := fun p => p = "D/sub" || p = "D/sub.dat" || p = "D/f" || p = "D/f.dat"
  LoadDataTableVersionFromPath := fun p =>
    if p = "D/sub.dat" || p = "D/f.dat" then .ok ⟨2⟩ else .error (Error.foreign 5)
  LoadDataTableFromPath := fun p =>
    if p = "D/sub.dat" || p = "D/f.dat" then .ok ⟨7, 30, 4⟩ else .error (Error.foreign 5)
  DefaultVersion := 2
  Join := fun d n => d ++ "/" ++ n

/-- The descriptor of `D/f` (the variable of `D` is at address 1). -/
def nestedF : FileSystemNodeDescriptor :=
  { FileSystemNodeDescriptor.zero with
    Path := "D/f", IndexPath := "D/f.dat", Table := ⟨7, 30, 4⟩,
    NumEntries := 7, NumFiles := 1, Parent := some 1 }

/-- The descriptor of the directory `D`. -/
def nestedD : FileSystemNodeDescriptor :=
  { FileSystemNodeDescriptor.zero with
    Path := "D", NumEntries := 7, NumFiles := 1, Children := [nestedF], Parent := some 0 }

/-- The root `LoadPaths` returns for the single path `D`. -/
def nestedRoot : FileSystemNodeDescriptor :=
  { FileSystemNodeDescriptor.zero with
    Percent := float32_100, NumEntries := 7, NumFiles := 1, Children := [nestedD] }

/-- The heap inside `loadDirPath` for `D`, before the loop: `rootFsDescriptor` at address 0,
the descriptor of `D` at address 1. -/
def nestedHeap : Heap := (initialHeap.alloc (freshNode "D" 0 0)).2

mutual
/-- A node with every `Parent` address, its own and those of its descendants, replaced by
nil: what is left is the shape of the tree with the paths, percents, index paths, tables and
counts of its nodes. -/
def forgetParents : FileSystemNodeDescriptor → FileSystemNodeDescriptor
  | ⟨pct, ucp, une, ne, nf, path, idx, t, u, cs, _⟩ =>
    ⟨pct, ucp, une, ne, nf, path, idx, t, u, forgetParentsAll cs, none⟩
/-- The nodes of a list, each with its `Parent` addresses forgotten. -/
def forgetParentsAll : List FileSystemNodeDescriptor → List FileSystemNodeDescriptor
  | [] => []
  | c :: cs => forgetParents c :: forgetParentsAll cs
end

/-- A heap in which two other variables were declared before `rootFsDescriptor`, which is
at address 2. -/
def shiftedHeap : Heap :=
  (((Heap.empty.alloc FileSystemNodeDescriptor.zero).2.alloc
    FileSystemNodeDescriptor.zero).2.alloc rootNode).2

/-- The largest value of Go's `int` (64 bits): a `NumFiles` below it is incremented by
`NumFiles++` without wrapping. -/
def maxInt : Int := 9223372036854775807

/-- The heap inside the loop of `loadDirPath` for `D`, at the call of `loadFilePath` for the
entry `f`: `rootFsDescriptor` at address 0, the descriptor of `D` at address 1, the one of
`D/f` at address 2. -/
def nestedHeapF : Heap := (nestedHeap.alloc (freshNode "D/f" 0 1)).2

/-- The root `LoadPaths` returns for the single path `A` of the scenario. -/
def scenarioRootA : FileSystemNodeDescriptor :=
  { FileSystemNodeDescriptor.zero with
    Percent := float32_100, NumEntries := 3, NumFiles := 1, Children := [scenarioA] }

/-- The descriptor of the directory `A` when it is loaded after `b`: the variable of `A` is
then at address 2, and that is the `Parent` of its child. -/
def scenarioAAfterB : FileSystemNodeDescriptor :=
  { scenarioA with Children := [{ scenarioA1 with Parent := some 2 }] }

/-- The root `LoadPaths` returns for the paths `b`, `A` of the scenario. -/
def scenarioRootBA : FileSystemNodeDescriptor :=
  { FileSystemNodeDescriptor.zero with
    Percent := float32_100, NumEntries := 8, NumFiles := 2,
    Children := [scenarioB, scenarioAAfterB] }

/-- A heap whose descriptor variable at address 2 holds the path `A/a2` (and the root as its
parent), as `loadPath` declares it for a requested path. -/
def scenarioHeapA2 : Heap := (scenarioHeapB.alloc (freshNode "A/a2" 0 0)).2

/-! ## Lemmas -/

/-! ## Reading and writing cells -/

@[simp] theorem Heap.read_write_same (h : Heap) (p : Ptr) (v : FileSystemNodeDescriptor) :
    (h.write p v).read p = v := by
  simp [Heap.read, Heap.write]

@[simp] theorem Heap.read_write_ne (h : Heap) {p q : Ptr} (v : FileSystemNodeDescriptor)
    (hne : q ≠ p) : (h.write p v).read q = h.read q := by
  simp [Heap.read, Heap.write, Function.update_noteq hne]

@[simp] theorem Heap.next_write (h : Heap) (p : Ptr) (v : FileSystemNodeDescriptor) :
    (h.write p v).next = h.next := rfl

@[simp] theorem Heap.write_write (h : Heap) (p : Ptr) (v w : FileSystemNodeDescriptor) :
    (h.write p v).write p w = h.write p w := by
  simp [Heap.write]

@[simp] theorem Heap.alloc_fst (h : Heap) (v : FileSystemNodeDescriptor) :
    (h.alloc v).1 = h.next := rfl

@[simp] theorem Heap.next_alloc (h : Heap) (v : FileSystemNodeDescriptor) :
    (h.alloc v).2.next = h.next + 1 := rfl

@[simp] theorem Heap.read_alloc_same (h : Heap) (v : FileSystemNodeDescriptor) :
    (h.alloc v).2.read h.next = v := by
  simp [Heap.read, Heap.alloc]

@[simp] theorem Heap.read_alloc_ne (h : Heap) {q : Ptr} (v : FileSystemNodeDescriptor)
    (hne : q ≠ h.next) : (h.alloc v).2.read q = h.read q := by
  simp [Heap.read, Heap.alloc, Function.update_noteq hne]

theorem populateFileAmounts_root (fuel : Nat) (h : Heap) (p : Ptr) (t : DataTable)
    (hp : (h.read p).Parent = none) :
    populateFileAmounts (fuel + 1) h p t
      = some (h.write p (addAmounts t.NumberOfStrings.val 1 (h.read p))) := by
  simp [populateFileAmounts, hp, addAmounts]

theorem populateFileAmounts_step (fuel : Nat) (h : Heap) (p q : Ptr) (t : DataTable)
    (hp : (h.read p).Parent = some q) :
    populateFileAmounts (fuel + 1) h p t
      = populateFileAmounts fuel (h.write p (addAmounts t.NumberOfStrings.val 1 (h.read p))) q t := by
  simp [populateFileAmounts, hp, addAmounts]

theorem loadFilePath_of_checkFile_error (env : Env) (h : Heap) (p : Ptr)
    (s l : uint32) (e : Error) (hc : checkFile env s l (h.read p).Path = .error e) :
    ∃ h1, (∀ fuel q, loadFilePath fuel env h p q s l = some (h1, some e)) ∧ h1.next = h.next ∧
      (∀ x, x ≠ p → h1.read x = h.read x) ∧
      (h1.read p = h.read p ∨
        h1.read p = { h.read p with IndexPath := (h.read p).Path ++ ".dat" }) := by
  unfold checkFile at hc
  cases hA : isFortuneFile env (h.read p).Path
  · simp only [hA, Bool.not_false, if_true] at hc
    injection hc with hc
    refine ⟨h, fun fuel q => ?_, rfl, fun _ _ => rfl, Or.inl rfl⟩
    unfold loadFilePath
    simp [hA, hc]
  · simp only [hA, Bool.not_true, Bool.false_eq_true, if_false] at hc
    cases hB : isFortuneIndexFile env ((h.read p).Path ++ ".dat")
    · simp only [hB, Bool.not_false, if_true] at hc
      injection hc with hc
      refine ⟨h, fun fuel q => ?_, rfl, fun _ _ => rfl, Or.inl rfl⟩
      unfold loadFilePath
      simp [hA, hB, hc]
    · simp only [hB, Bool.not_true, Bool.false_eq_true, if_false] at hc
      cases hC : env.LoadDataTableFromPath ((h.read p).Path ++ ".dat") with
      | error err =>
        simp only [hC] at hc
        injection hc with hc
        refine ⟨h.write p { h.read p with IndexPath := (h.read p).Path ++ ".dat" },
          fun fuel q => ?_, rfl, fun x hx => by simp [hx], Or.inr (by simp)⟩
        unfold loadFilePath
        simp [hA, hB, hC, hc]
      | ok t =>
        simp only [hC] at hc
        cases hD : (decide (t.LongestLength < l) || decide (t.ShortestLength > s))
        · simp [hD] at hc
        · simp only [hD, if_true] at hc
          injection hc with hc
          refine ⟨h.write p { h.read p with IndexPath := (h.read p).Path ++ ".dat" },
            fun fuel q => ?_, rfl, fun x hx => by simp [hx], Or.inr (by simp)⟩
          unfold loadFilePath
          simp only [hA, hB, Bool.not_true, Bool.false_eq_true, if_false, Heap.read_write_same,
            hC, hD, if_true, hc]

theorem loadFilePath_of_checkFile_ok (fuel : Nat) (env : Env) (h : Heap) (p q : Ptr)
    (s l : uint32) (t : DataTable) (hc : checkFile env s l (h.read p).Path = .ok t) :
    loadFilePath fuel env h p q s l =
      (populateFileAmounts fuel
        (h.write p { h.read p with
          IndexPath := (h.read p).Path ++ ".dat", Table := t, Parent := some q }) p t).map
        (fun h4 => (h4.write q
          { h4.read q with Children := (h4.read q).Children ++ [h4.read p] }, none)) := by
  unfold checkFile at hc
  unfold loadFilePath
  cases hA : isFortuneFile env (h.read p).Path
  · simp [hA] at hc
  · simp only [hA, Bool.not_true, Bool.false_eq_true, if_false] at hc ⊢
    cases hB : isFortuneIndexFile env ((h.read p).Path ++ ".dat")
    · simp [hB] at hc
    · simp only [hB, Bool.not_true, Bool.false_eq_true, if_false, Heap.read_write_same] at hc ⊢
      cases hC : env.LoadDataTableFromPath ((h.read p).Path ++ ".dat") with
      | error err => simp [hC] at hc
      | ok t1 =>
        simp only [hC] at hc ⊢
        cases hD : (decide (t1.LongestLength < l) || decide (t1.ShortestLength > s))
        · simp only [hD, Bool.false_eq_true, if_false] at hc ⊢
          injection hc with hc
          subst hc
          simp only [Heap.write_write, Heap.read_write_same]
          cases populateFileAmounts fuel _ p t1 <;> simp
        · simp [hD] at hc

/-! ## The descriptors the code builds -/

theorem uint32_lt (x : uint32) : x.val < 18446744073709551616 :=
  lt_trans x.isLt (by norm_num)

/-- A kept file directly under a parentless node `r`. -/
theorem loadFilePath_under_root (fuel : Nat) (env : Env) (h : Heap) (p r : Ptr)
    (s l : uint32) (t : DataTable) (path : String) (pct : float32) (q : Ptr)
    (hpr : p ≠ r) (hr : (h.read r).Parent = none) (hp : h.read p = freshNode path pct q)
    (hc : checkFile env s l path = .ok t) :
    ∃ h1, loadFilePath (fuel + 2) env h p r s l = some (h1, none) ∧ h1.next = h.next ∧
      h1.read r = attach (h.read r) (fileNode path pct r t) ∧
      (∀ x, x ≠ p → x ≠ r → h1.read x = h.read x) := by
  have hpath : (h.read p).Path = path := by rw [hp]; rfl
  rw [← hpath] at hc
  rw [loadFilePath_of_checkFile_ok _ _ _ _ _ _ _ _ hc]
  rw [populateFileAmounts_step _ _ p r _ (by simp)]
  rw [populateFileAmounts_root _ _ r _ (by simp [Ne.symm hpr, hr])]
  refine ⟨_, rfl, rfl, ?_, ?_⟩
  · simp [Ne.symm hpr, hpr, hp, attach, fileNode, addAmounts, freshNode,
      FileSystemNodeDescriptor.zero, uint32_lt]
  · intro x hxp hxr
    simp [hxp, hxr]

/-- A kept file under a node `p` whose parent `r` is parentless. -/
theorem loadFilePath_under_dir (fuel : Nat) (env : Env) (h : Heap) (c p r : Ptr)
    (s l : uint32) (t : DataTable) (path : String) (pct : float32) (q : Ptr)
    (hcp : c ≠ p) (hcr : c ≠ r) (hpr : p ≠ r)
    (hpp : (h.read p).Parent = some r) (hr : (h.read r).Parent = none)
    (hp : h.read c = freshNode path pct q)
    (hc : checkFile env s l path = .ok t) :
    ∃ h1, loadFilePath (fuel + 3) env h c p s l = some (h1, none) ∧ h1.next = h.next ∧
      h1.read p = attach (h.read p) (fileNode path pct p t) ∧
      h1.read r = addAmounts t.NumberOfStrings.val 1 (h.read r) ∧
      (∀ x, x ≠ c → x ≠ p → x ≠ r → h1.read x = h.read x) := by
  have hpath : (h.read c).Path = path := by rw [hp]; rfl
  rw [← hpath] at hc
  rw [loadFilePath_of_checkFile_ok _ _ _ _ _ _ _ _ hc]
  rw [populateFileAmounts_step _ _ c p _ (by simp)]
  rw [populateFileAmounts_step _ _ p r _ (by simp [Ne.symm hcp, hpp, addAmounts])]
  rw [populateFileAmounts_root _ _ r _ (by simp [Ne.symm hpr, Ne.symm hcr, hr])]
  refine ⟨_, rfl, rfl, ?_, ?_, ?_⟩
  · simp [Ne.symm hpr, hpr, hcp, Ne.symm hcp, hcr, Ne.symm hcr, hp, attach, fileNode,
      addAmounts, freshNode, FileSystemNodeDescriptor.zero, uint32_lt]
  · simp [Ne.symm hpr, hpr, hcp, Ne.symm hcp, hcr, Ne.symm hcr]
  · intro x hxc hxp hxr
    simp [hxp, hxr, hxc]

@[simp] theorem attach_Path (n c : FileSystemNodeDescriptor) : (attach n c).Path = n.Path := rfl

@[simp] theorem attach_Parent (n c : FileSystemNodeDescriptor) :
    (attach n c).Parent = n.Parent := rfl

@[simp] theorem addAmounts_Parent (e : Nat) (k : Int) (n : FileSystemNodeDescriptor) :
    (addAmounts e k n).Parent = n.Parent := rfl

theorem foldl_attach_Path (cs : List FileSystemNodeDescriptor) (n : FileSystemNodeDescriptor) :
    (cs.foldl attach n).Path = n.Path := by
  induction cs generalizing n with
  | nil => rfl
  | cons c cs ih => simp [ih]

theorem foldl_attach_Parent (cs : List FileSystemNodeDescriptor) (n : FileSystemNodeDescriptor) :
    (cs.foldl attach n).Parent = n.Parent := by
  induction cs generalizing n with
  | nil => rfl
  | cons c cs ih => simp [ih]

theorem foldl_addAmounts_Parent (cs : List FileSystemNodeDescriptor)
    (n : FileSystemNodeDescriptor) :
    (cs.foldl (fun m c => addAmounts c.NumEntries c.NumFiles m) n).Parent = n.Parent := by
  induction cs generalizing n with
  | nil => rfl
  | cons c cs ih => simp [ih]

/-- The loop of `loadDirPath` on a directory variable `p` whose parent `r` is parentless:
it ends, appends the kept files to `p` and adds their counts to `p` and `r`. -/
theorem loadDirEntries_spec (fuel : Nat) (env : Env) (p r : Ptr) (s l : uint32)
    (fsNodes : List FileInfo) (h : Heap)
    (hpr : p ≠ r) (hpn : p < h.next) (hrn : r < h.next)
    (hpp : (h.read p).Parent = some r) (hr : (h.read r).Parent = none) :
    ∃ h1, loadDirEntries (fuel + 3) env p s l fsNodes h = some h1 ∧
      h1.next = h.next + dirCells fsNodes ∧
      h1.read p = (dirChildren env s l (h.read p).Path p fsNodes).foldl attach (h.read p) ∧
      h1.read r = (dirChildren env s l (h.read p).Path p fsNodes).foldl
        (fun m c => addAmounts c.NumEntries c.NumFiles m) (h.read r) ∧
      (∀ x, x < h.next → x ≠ p → x ≠ r → h1.read x = h.read x) := by
  induction fsNodes generalizing h with
  | nil => exact ⟨h, rfl, rfl, rfl, rfl, fun _ _ _ _ => rfl⟩
  | cons node rest ih =>
    unfold loadDirEntries
    cases hd : node.IsDir
    · -- a file entry: a child variable is declared at address `h.next`
      simp only [Bool.not_false, if_true]
      have hcp : h.next ≠ p := Nat.ne_of_gt hpn
      have hcr : h.next ≠ r := Nat.ne_of_gt hrn
      generalize hv : ({ FileSystemNodeDescriptor.zero with
          Path := env.Join (h.read p).Path node.Name, Parent := some p } :
          FileSystemNodeDescriptor) = v
      have hfresh : v = freshNode (env.Join (h.read p).Path node.Name) 0 p := by
        rw [← hv]; rfl
      have hk0 : (h.alloc v).2.read h.next = freshNode (env.Join (h.read p).Path node.Name) 0 p := by
        rw [Heap.read_alloc_same, hfresh]
      have hk1 : (h.alloc v).2.read p = h.read p := Heap.read_alloc_ne h v (Ne.symm hcp)
      have hk2 : (h.alloc v).2.read r = h.read r := Heap.read_alloc_ne h v (Ne.symm hcr)
      show ∃ h1, (match loadFilePath (fuel + 3) env (h.alloc v).2 h.next p s l with
          | none => none
          | some (h2, _) => loadDirEntries (fuel + 3) env p s l rest h2) = some h1 ∧ _
      cases hc : checkFile env s l (env.Join (h.read p).Path node.Name) with
      | error e =>
        obtain ⟨h2, he, hn2, hfr, -⟩ := loadFilePath_of_checkFile_error env
          (h.alloc v).2 h.next s l e (by rw [hk0]; exact hc)
        rw [he]
        have h2p : h2.read p = h.read p := by rw [hfr p (Ne.symm hcp), hk1]
        have h2r : h2.read r = h.read r := by rw [hfr r (Ne.symm hcr), hk2]
        replace hn2 : h2.next = h.next + 1 := hn2
        obtain ⟨h3, e3, n3, p3, r3, f3⟩ := ih h2 (by rw [hn2]; exact Nat.lt_succ_of_lt hpn)
          (by rw [hn2]; exact Nat.lt_succ_of_lt hrn) (by rw [h2p]; exact hpp)
          (by rw [h2r]; exact hr)
        refine ⟨h3, e3, ?_, ?_, ?_, ?_⟩
        · rw [n3, hn2]; simp [dirCells, hd, Nat.add_assoc, Nat.add_comm]
        · rw [p3, h2p]; simp [dirChildren, hd, hc]
        · rw [r3, h2p, h2r]; simp [dirChildren, hd, hc]
        · intro x hx hxp hxr
          have hxc : x ≠ h.next := Nat.ne_of_lt hx
          rw [f3 x (by rw [hn2]; exact Nat.lt_succ_of_lt hx) hxp hxr, hfr x hxc, Heap.read_alloc_ne h v hxc]
      | ok t =>
        obtain ⟨h2, he, hn2, h2p, h2r, hfr⟩ := loadFilePath_under_dir fuel env (h.alloc v).2
          h.next p r s l t _ 0 p hcp hcr hpr (by rw [hk1]; exact hpp) (by rw [hk2]; exact hr)
          hk0 hc
        rw [he]
        rw [hk1] at h2p
        rw [hk2] at h2r
        replace hn2 : h2.next = h.next + 1 := hn2
        obtain ⟨h3, e3, n3, p3, r3, f3⟩ := ih h2 (by rw [hn2]; exact Nat.lt_succ_of_lt hpn)
          (by rw [hn2]; exact Nat.lt_succ_of_lt hrn) (by rw [h2p]; simpa using hpp)
          (by rw [h2r]; simpa using hr)
        refine ⟨h3, e3, ?_, ?_, ?_, ?_⟩
        · rw [n3, hn2]; simp [dirCells, hd, Nat.add_assoc, Nat.add_comm]
        · rw [p3, h2p]; simp [dirChildren, hd, hc]
        · rw [r3, h2p, h2r]; simp [dirChildren, hd, hc, fileNode]
        · intro x hx hxp hxr
          have hxc : x ≠ h.next := Nat.ne_of_lt hx
          rw [f3 x (by rw [hn2]; exact Nat.lt_succ_of_lt hx) hxp hxr, hfr x hxc hxp hxr,
            Heap.read_alloc_ne h v hxc]
    · -- a sub-directory entry is skipped
      simp only [Bool.not_true, Bool.false_eq_true, if_false]
      obtain ⟨h3, e3, n3, p3, r3, f3⟩ := ih h hpn hrn hpp hr
      refine ⟨h3, e3, ?_, ?_, ?_, f3⟩
      · rw [n3]; simp [dirCells, hd]
      · rw [p3]; simp [dirChildren, hd]
      · rw [r3]; simp [dirChildren, hd]

/-! ## Counts accumulated over a list of children -/

theorem sumEntries_mod (cs : List FileSystemNodeDescriptor) (start : Nat) :
    sumEntries cs start % 2 ^ 64 = (start + (cs.map (·.NumEntries)).sum) % 2 ^ 64 := by
  induction cs generalizing start with
  | nil => simp [sumEntries]
  | cons c cs ih =>
    have h1 : sumEntries (c :: cs) start = sumEntries cs ((start + c.NumEntries) % 2 ^ 64) := rfl
    rw [h1, ih, List.map_cons, List.sum_cons, Nat.add_mod, Nat.mod_mod, ← Nat.add_mod,
      Nat.add_assoc]

theorem sumEntries_lt (cs : List FileSystemNodeDescriptor) (start : Nat)
    (hs : start < 2 ^ 64) : sumEntries cs start < 2 ^ 64 := by
  induction cs generalizing start with
  | nil => exact hs
  | cons c cs ih => exact ih _ (Nat.mod_lt _ (by norm_num))

theorem sumEntries_eq (cs : List FileSystemNodeDescriptor) (start : Nat)
    (hs : start < 2 ^ 64) :
    sumEntries cs start = (start + (cs.map (·.NumEntries)).sum) % 2 ^ 64 := by
  rw [← sumEntries_mod, Nat.mod_eq_of_lt (sumEntries_lt cs start hs)]

theorem sumEntries_shift (cs : List FileSystemNodeDescriptor) (start : Nat)
    (hs : start < 2 ^ 64) :
    sumEntries cs start = (start + sumEntries cs 0) % 2 ^ 64 := by
  rw [sumEntries_eq cs start hs, sumEntries_eq cs 0 (by norm_num), Nat.zero_add,
    Nat.add_mod_mod]

theorem foldl_addAmounts_eq (cs : List FileSystemNodeDescriptor)
    (n : FileSystemNodeDescriptor) :
    cs.foldl (fun m c => addAmounts c.NumEntries c.NumFiles m) n =
      { n with
        NumEntries := sumEntries cs n.NumEntries
        NumFiles := n.NumFiles + (cs.map (·.NumFiles)).sum } := by
  induction cs generalizing n with
  | nil => cases n; simp [sumEntries]
  | cons c cs ih =>
    rw [List.foldl_cons, ih]
    simp [addAmounts, sumEntries, add_assoc]

theorem foldl_attach_eq (cs : List FileSystemNodeDescriptor) (n : FileSystemNodeDescriptor) :
    cs.foldl attach n =
      { n with
        NumEntries := sumEntries cs n.NumEntries
        NumFiles := n.NumFiles + (cs.map (·.NumFiles)).sum
        Children := n.Children ++ cs } := by
  induction cs generalizing n with
  | nil => cases n; simp [sumEntries]
  | cons c cs ih =>
    rw [List.foldl_cons, ih]
    simp [attach, sumEntries, add_assoc]

/-! ## The descriptor of one requested path -/

theorem loadDirPath_spec (fuel : Nat) (env : Env) (h : Heap) (p r : Ptr) (s l : uint32)
    (path : String) (pct : float32) (fsNodes : List FileInfo)
    (hpr : p ≠ r) (hpn : p < h.next) (hrn : r < h.next)
    (hp : h.read p = freshNode path pct r) (hr : (h.read r).Parent = none)
    (hlt : (h.read r).NumEntries < 2 ^ 64)
    (hd : env.ReadDir path = .ok fsNodes) :
    ∃ h1, loadDirPath (fuel + 3) env h p r s l = some (h1, none) ∧
      h1.next = h.next + dirCells fsNodes ∧
      h1.read r = attach (h.read r) (dirNode env s l path pct p r fsNodes) := by
  have hpath : (h.read p).Path = path := by rw [hp]; rfl
  obtain ⟨h1, e1, n1, p1, r1, -⟩ := loadDirEntries_spec fuel env p r s l fsNodes h hpr hpn hrn
    (by rw [hp]; rfl) hr
  unfold loadDirPath
  simp only [hpath, hd, e1]
  refine ⟨_, rfl, n1, ?_⟩
  rw [hpath, hp] at p1
  rw [hpath] at r1
  have hq : (h1.read p).Parent = some r := by
    rw [p1, foldl_attach_Parent]; rfl
  have hsame : ({ h1.read p with Parent := some r } : FileSystemNodeDescriptor) = h1.read p := by
    rw [← hq]; cases h1.read p; rfl
  simp only [Heap.read_write_same, Heap.read_write_ne _ _ (Ne.symm hpr), hsame]
  rw [r1, foldl_addAmounts_eq, p1]
  have hs := sumEntries_shift (dirChildren env s l path p fsNodes) _ hlt
  simp only [attach, dirNode, foldl_attach_eq, freshNode, FileSystemNodeDescriptor.zero]
  simp [hs]

theorem loadPath_spec (fuel : Nat) (env : Env) (h : Heap) (path : ProbabilityPath) (r : Ptr)
    (s l : uint32) (hrn : r < h.next) (hr : (h.read r).Parent = none)
    (hlt : (h.read r).NumEntries < 2 ^ 64) :
    ∃ h1, loadPath (fuel + 3) env h path r s l
        = some (h1, (rootStep (h.read r) (pathNode env s l h.next r path)).2) ∧
      h1.next = h.next + pathCells env path ∧
      h1.read r = (rootStep (h.read r) (pathNode env s l h.next r path)).1 := by
  have hpr : h.next ≠ r := Nat.ne_of_gt hrn
  generalize hv : ({ FileSystemNodeDescriptor.zero with
      Path := path.Path, Percent := path.Percentage, Parent := some r } :
      FileSystemNodeDescriptor) = v
  have hfresh : v = freshNode path.Path path.Percentage r := by rw [← hv]; rfl
  have hk0 : (h.alloc v).2.read h.next = freshNode path.Path path.Percentage r := by
    rw [Heap.read_alloc_same, hfresh]
  have hk2 : (h.alloc v).2.read r = h.read r := Heap.read_alloc_ne h v (Ne.symm hpr)
  have hn : (h.alloc v).2.next = h.next + 1 := rfl
  unfold loadPath pathNode pathCells
  simp only [hv]
  show ∃ h1, (match env.Stat path.Path with
      | .error err => some ((h.alloc v).2, some err)
      | .ok stat =>
        if stat.IsDir then
          match loadDirPath (fuel + 3) env (h.alloc v).2 h.next r s l with
          | none => none
          | some (h2, some err) => some (h2, some err)
          | some (h2, none) => some (h2, none)
        else
          match loadFilePath (fuel + 3) env (h.alloc v).2 h.next r s l with
          | none => none
          | some (h2, some err) => some (h2, some err)
          | some (h2, none) => some (h2, none)) = _ ∧ _
  cases hst : env.Stat path.Path with
  | error err => exact ⟨(h.alloc v).2, rfl, rfl, hk2⟩
  | ok stat =>
    cases hd : stat.IsDir
    · -- a file
      simp only [hd, Bool.false_eq_true, if_false]
      cases hc : checkFile env s l path.Path with
      | error e =>
        obtain ⟨h2, he, hn2, hfr, -⟩ := loadFilePath_of_checkFile_error env
          (h.alloc v).2 h.next s l e (by rw [hk0]; exact hc)
        rw [he]
        exact ⟨h2, rfl, by rw [hn2, hn], by rw [hfr r (Ne.symm hpr), hk2]; rfl⟩
      | ok t =>
        obtain ⟨h2, he, hn2, h2r, -⟩ := loadFilePath_under_root (fuel + 1) env (h.alloc v).2
          h.next r s l t path.Path path.Percentage r hpr (by rw [hk2]; exact hr) hk0 hc
        rw [he]
        exact ⟨h2, rfl, by rw [hn2, hn], by rw [h2r, hk2]; rfl⟩
    · -- a directory
      simp only [hd, if_true]
      cases hrd : env.ReadDir path.Path with
      | error e =>
        have he : loadDirPath (fuel + 3) env (h.alloc v).2 h.next r s l
            = some ((h.alloc v).2, some e) := by
          unfold loadDirPath
          rw [hk0]
          simp [freshNode, hrd]
        rw [he]
        exact ⟨(h.alloc v).2, rfl, rfl, hk2⟩
      | ok fsNodes =>
        obtain ⟨h2, he, hn2, h2r⟩ := loadDirPath_spec fuel env (h.alloc v).2 h.next r s l
          path.Path path.Percentage fsNodes hpr (Nat.lt_succ_self _) (Nat.lt_succ_of_lt hrn)
          hk0 (by rw [hk2]; exact hr) (by rw [hk2]; exact hlt) hrd
        rw [he]
        exact ⟨h2, rfl, by rw [hn2, hn, Nat.add_assoc], by rw [h2r, hk2]; rfl⟩

theorem loadPathsFrom_spec (fuel : Nat) (env : Env) (r : Ptr) (s l : uint32)
    (paths : List ProbabilityPath) (h : Heap) (hrn : r < h.next)
    (hr : (h.read r).Parent = none) (hlt : (h.read r).NumEntries < 2 ^ 64) :
    ∃ h1, loadPathsFrom (fuel + 3) env r s l paths h
        = some (h1, (treeFrom env s l r paths h.next (h.read r)).2) ∧
      h1.read r = (treeFrom env s l r paths h.next (h.read r)).1 := by
  induction paths generalizing h with
  | nil => exact ⟨h, rfl, rfl⟩
  | cons path rest ih =>
    obtain ⟨h1, e1, n1, r1⟩ := loadPath_spec fuel env h path r s l hrn hr hlt
    unfold loadPathsFrom treeFrom
    rw [e1]
    cases hp : pathNode env s l h.next r path with
    | error err =>
      rw [hp] at r1
      exact ⟨h1, rfl, r1⟩
    | ok c =>
      rw [hp] at r1
      simp only [rootStep] at r1 ⊢
      obtain ⟨h2, e2, r2⟩ := ih h1 (by rw [n1]; exact Nat.lt_add_right _ hrn)
        (by rw [r1]; exact hr) (by rw [r1]; exact Nat.mod_lt _ (by norm_num))
      rw [n1, r1] at e2 r2
      exact ⟨h2, e2, r2⟩

/-- With fuel for three loop iterations, `LoadPaths` returns, and what it returns is the
root built by `treeFrom` (the root variable is at address 0, the next one at address 1). -/
theorem LoadPaths_eq (fuel : Nat) (env : Env) (paths : List ProbabilityPath) (s l : uint32) :
    LoadPaths (fuel + 3) env paths s l = some (treeFrom env s l 0 paths 1 rootNode) := by
  obtain ⟨h1, e1, r1⟩ := loadPathsFrom_spec fuel env 0 s l paths (Heap.empty.alloc rootNode).2
    (by decide) (by rfl)
    (by
      have h0 : ((Heap.empty.alloc rootNode).2.read 0).NumEntries = 0 := rfl
      rw [h0]; norm_num)
  unfold LoadPaths
  show (match loadPathsFrom (fuel + 3) env 0 s l paths (Heap.empty.alloc rootNode).2 with
    | none => none
    | some (h1, err) => some (h1.read 0, err)) = _
  rw [e1]
  show some (h1.read 0, _) = _
  rw [r1]
  rfl

/-! ## More fuel does not change a result -/

theorem populateFileAmounts_mono (fuel : Nat) (h : Heap) (p : Ptr) (t : DataTable) (h1 : Heap)
    (he : populateFileAmounts fuel h p t = some h1) :
    populateFileAmounts (fuel + 1) h p t = some h1 := by
  induction fuel generalizing h p with
  | zero => simp [populateFileAmounts] at he
  | succ k ih =>
    cases hq : (h.read p).Parent with
    | none =>
      rw [populateFileAmounts_root _ _ _ _ hq] at he ⊢
      exact he
    | some q =>
      rw [populateFileAmounts_step _ _ _ q _ hq] at he ⊢
      exact ih _ _ he

theorem loadFilePath_mono (fuel : Nat) (env : Env) (h : Heap) (p q : Ptr) (s l : uint32)
    (x : Heap × Option Error) (he : loadFilePath fuel env h p q s l = some x) :
    loadFilePath (fuel + 1) env h p q s l = some x := by
  cases hc : checkFile env s l (h.read p).Path with
  | error e =>
    obtain ⟨h1, e1, -⟩ := loadFilePath_of_checkFile_error env h p s l e hc
    rw [e1] at he ⊢
    exact he
  | ok t =>
    rw [loadFilePath_of_checkFile_ok _ _ _ _ _ _ _ _ hc] at he ⊢
    cases hp : populateFileAmounts fuel (h.write p { h.read p with
          IndexPath := (h.read p).Path ++ ".dat", Table := t, Parent := some q }) p t with
    | none => rw [hp] at he; cases he
    | some h4 =>
      rw [hp] at he
      rw [populateFileAmounts_mono _ _ _ _ _ hp]
      exact he

theorem loadDirEntries_mono (fuel : Nat) (env : Env) (p : Ptr) (s l : uint32)
    (fsNodes : List FileInfo) (h h1 : Heap)
    (he : loadDirEntries fuel env p s l fsNodes h = some h1) :
    loadDirEntries (fuel + 1) env p s l fsNodes h = some h1 := by
  induction fsNodes generalizing h with
  | nil => exact he
  | cons node rest ih =>
    unfold loadDirEntries at he ⊢
    cases hd : node.IsDir
    · simp only [hd, Bool.not_false, if_true] at he ⊢
      generalize (h.alloc _) = a at he ⊢
      obtain ⟨c, h2⟩ := a
      simp only at he ⊢
      cases hf : loadFilePath fuel env h2 c p s l with
      | none => rw [hf] at he; cases he
      | some x =>
        rw [hf] at he
        rw [loadFilePath_mono _ _ _ _ _ _ _ _ hf]
        exact ih _ he
    · simp only [hd, Bool.not_true, Bool.false_eq_true, if_false] at he ⊢
      exact ih _ he

theorem loadDirPath_mono (fuel : Nat) (env : Env) (h : Heap) (p q : Ptr) (s l : uint32)
    (x : Heap × Option Error) (he : loadDirPath fuel env h p q s l = some x) :
    loadDirPath (fuel + 1) env h p q s l = some x := by
  unfold loadDirPath at he ⊢
  cases hr : env.ReadDir (h.read p).Path with
  | error err => rw [hr] at he; exact he
  | ok fsNodes =>
    rw [hr] at he
    simp only at he ⊢
    cases hl : loadDirEntries fuel env p s l fsNodes h with
    | none => rw [hl] at he; cases he
    | some h1 =>
      rw [hl] at he
      rw [loadDirEntries_mono _ _ _ _ _ _ _ _ hl]
      exact he

theorem loadPath_mono (fuel : Nat) (env : Env) (h : Heap) (path : ProbabilityPath) (r : Ptr)
    (s l : uint32) (x : Heap × Option Error)
    (he : loadPath fuel env h path r s l = some x) :
    loadPath (fuel + 1) env h path r s l = some x := by
  unfold loadPath at he ⊢
  generalize (h.alloc _) = a at he ⊢
  obtain ⟨c, h2⟩ := a
  simp only at he ⊢
  cases hst : env.Stat path.Path with
  | error err => rw [hst] at he; exact he
  | ok stat =>
    rw [hst] at he
    simp only at he ⊢
    cases hd : stat.IsDir
    · simp only [hd, Bool.false_eq_true, if_false] at he ⊢
      cases hf : loadFilePath fuel env h2 c r s l with
      | none => rw [hf] at he; cases he
      | some y =>
        rw [hf] at he
        rw [loadFilePath_mono _ _ _ _ _ _ _ _ hf]
        exact he
    · simp only [hd, if_true] at he ⊢
      cases hf : loadDirPath fuel env h2 c r s l with
      | none => rw [hf] at he; cases he
      | some y =>
        rw [hf] at he
        rw [loadDirPath_mono _ _ _ _ _ _ _ _ hf]
        exact he

theorem loadPathsFrom_mono (fuel : Nat) (env : Env) (r : Ptr) (s l : uint32)
    (paths : List ProbabilityPath) (h : Heap) (x : Heap × Option Error)
    (he : loadPathsFrom fuel env r s l paths h = some x) :
    loadPathsFrom (fuel + 1) env r s l paths h = some x := by
  induction paths generalizing h with
  | nil => exact he
  | cons path rest ih =>
    unfold loadPathsFrom at he ⊢
    cases hf : loadPath fuel env h path r s l with
    | none => rw [hf] at he; cases he
    | some y =>
      rw [hf] at he
      rw [loadPath_mono _ _ _ _ _ _ _ _ hf]
      obtain ⟨h1, err⟩ := y
      cases err with
      | none => exact ih _ he
      | some e => exact he

theorem LoadPaths_mono (fuel k : Nat) (env : Env) (paths : List ProbabilityPath) (s l : uint32)
    (x : FileSystemNodeDescriptor × Option Error)
    (he : LoadPaths fuel env paths s l = some x) :
    LoadPaths (fuel + k) env paths s l = some x := by
  induction k with
  | zero => exact he
  | succ k ih =>
    unfold LoadPaths at ih ⊢
    generalize (Heap.empty.alloc _) = a at ih ⊢
    obtain ⟨c, h2⟩ := a
    simp only at ih ⊢
    cases hf : loadPathsFrom (fuel + k) env c s l paths h2 with
    | none => rw [hf] at ih; cases ih
    | some y =>
      rw [hf] at ih
      rw [← Nat.add_assoc, loadPathsFrom_mono _ _ _ _ _ _ _ _ hf]
      exact ih

/-- Whatever `LoadPaths` returns, with whatever fuel, is the root built by `treeFrom`. -/
theorem LoadPaths_some (fuel : Nat) (env : Env) (paths : List ProbabilityPath) (s l : uint32)
    (x : FileSystemNodeDescriptor × Option Error)
    (he : LoadPaths fuel env paths s l = some x) :
    x = treeFrom env s l 0 paths 1 rootNode := by
  have h1 := LoadPaths_mono fuel 3 env paths s l x he
  rw [LoadPaths_eq] at h1
  exact (Option.some.inj h1).symm

/-- With fuel for three loop iterations `LoadPaths` returns. -/
theorem LoadPaths_of_fuel (fuel : Nat) (hf : 3 ≤ fuel) (env : Env)
    (paths : List ProbabilityPath) (s l : uint32) :
    LoadPaths fuel env paths s l = some (treeFrom env s l 0 paths 1 rootNode) := by
  obtain ⟨k, rfl⟩ := Nat.exists_eq_add_of_le hf
  rw [Nat.add_comm]
  exact LoadPaths_eq k env paths s l

/-! ## The shape of the returned tree -/

theorem treeFrom_fst (env : Env) (s l : uint32) (r : Ptr) (paths : List ProbabilityPath)
    (next : Nat) (n : FileSystemNodeDescriptor) :
    (treeFrom env s l r paths next n).1 = (loadedNodes env s l r paths next).foldl attach n := by
  induction paths generalizing next n with
  | nil => rfl
  | cons path rest ih =>
    unfold treeFrom loadedNodes
    cases hp : pathNode env s l next r path with
    | error err => rfl
    | ok c => simp only [List.foldl_cons]; exact ih _ _

theorem loadedNodes_length (env : Env) (s l : uint32) (r : Ptr) (paths : List ProbabilityPath)
    (next : Nat) (n : FileSystemNodeDescriptor)
    (he : (treeFrom env s l r paths next n).2 = none) :
    (loadedNodes env s l r paths next).length = paths.length := by
  induction paths generalizing next n with
  | nil => rfl
  | cons path rest ih =>
    unfold treeFrom at he
    unfold loadedNodes
    cases hp : pathNode env s l next r path with
    | error err => rw [hp] at he; cases he
    | ok c =>
      rw [hp] at he
      simp only [List.length_cons]
      rw [ih _ _ he]

theorem loadedNodes_zip (env : Env) (s l : uint32) (r : Ptr) (paths : List ProbabilityPath)
    (next : Nat) (pc : ProbabilityPath × FileSystemNodeDescriptor)
    (hm : pc ∈ paths.zip (loadedNodes env s l r paths next)) :
    ∃ addr, pathNode env s l addr r pc.1 = .ok pc.2 := by
  induction paths generalizing next with
  | nil => simp at hm
  | cons path rest ih =>
    unfold loadedNodes at hm
    cases hp : pathNode env s l next r path with
    | error err => rw [hp] at hm; simp at hm
    | ok c =>
      rw [hp] at hm
      simp only [List.zip_cons_cons, List.mem_cons] at hm
      rcases hm with rfl | hm
      · exact ⟨next, hp⟩
      · exact ih _ hm

/-- The root returned by `LoadPaths`, in closed form. -/
theorem root_eq (env : Env) (s l : uint32) (paths : List ProbabilityPath) :
    (treeFrom env s l 0 paths 1 rootNode).1 =
      { rootNode with
        NumEntries := sumEntries (loadedNodes env s l 0 paths 1) 0
        NumFiles := ((loadedNodes env s l 0 paths 1).map (·.NumFiles)).sum
        Children := loadedNodes env s l 0 paths 1 } := by
  rw [treeFrom_fst, foldl_attach_eq]
  simp [rootNode, FileSystemNodeDescriptor.zero]

theorem pathNode_cases (env : Env) (s l : uint32) (addr r : Ptr) (path : ProbabilityPath)
    (c : FileSystemNodeDescriptor) (hp : pathNode env s l addr r path = .ok c) :
    (∃ stat t, env.Stat path.Path = .ok stat ∧ stat.IsDir = false ∧
        checkFile env s l path.Path = .ok t ∧ c = fileNode path.Path path.Percentage r t) ∨
    (∃ stat fsNodes, env.Stat path.Path = .ok stat ∧ stat.IsDir = true ∧
        env.ReadDir path.Path = .ok fsNodes ∧
        c = dirNode env s l path.Path path.Percentage addr r fsNodes) := by
  unfold pathNode at hp
  cases hst : env.Stat path.Path with
  | error err => rw [hst] at hp; cases hp
  | ok stat =>
    rw [hst] at hp
    cases hd : stat.IsDir
    · simp only [hd, Bool.false_eq_true, if_false] at hp
      cases hc : checkFile env s l path.Path with
      | error err => rw [hc] at hp; cases hp
      | ok t =>
        rw [hc] at hp
        injection hp with hp
        exact Or.inl ⟨stat, t, rfl, hd, rfl, hp.symm⟩
    · simp only [hd, if_true] at hp
      cases hr : env.ReadDir path.Path with
      | error err => rw [hr] at hp; cases hp
      | ok fsNodes =>
        rw [hr] at hp
        injection hp with hp
        exact Or.inr ⟨stat, fsNodes, rfl, hd, rfl, hp.symm⟩

theorem mem_dirChildren (env : Env) (s l : uint32) (dirPath : String) (dir : Ptr)
    (fsNodes : List FileInfo) (c : FileSystemNodeDescriptor)
    (hm : c ∈ dirChildren env s l dirPath dir fsNodes) :
    ∃ node t, node ∈ fsNodes ∧ node.IsDir = false ∧
      checkFile env s l (env.Join dirPath node.Name) = .ok t ∧
      c = fileNode (env.Join dirPath node.Name) 0 dir t := by
  unfold dirChildren at hm
  rw [List.mem_filterMap] at hm
  obtain ⟨node, hn, hc⟩ := hm
  cases hd : node.IsDir
  · simp only [hd, Bool.false_eq_true, if_false] at hc
    cases hk : checkFile env s l (env.Join dirPath node.Name) with
    | error err => rw [hk] at hc; cases hc
    | ok t =>
      rw [hk] at hc
      injection hc with hc
      exact ⟨node, t, hn, hd, hk, hc.symm⟩
  · simp [hd] at hc

theorem dirNode_eq (env : Env) (s l : uint32) (path : String) (pct : float32) (addr r : Ptr)
    (fsNodes : List FileInfo) :
    dirNode env s l path pct addr r fsNodes =
      { freshNode path pct r with
        NumEntries := sumEntries (dirChildren env s l path addr fsNodes) 0
        NumFiles := ((dirChildren env s l path addr fsNodes).map (·.NumFiles)).sum
        Children := dirChildren env s l path addr fsNodes } := by
  unfold dirNode
  rw [foldl_attach_eq]
  simp [freshNode, FileSystemNodeDescriptor.zero]

theorem checkFile_ok (env : Env) (s l : uint32) (path : String) (t : DataTable)
    (hc : checkFile env s l path = .ok t) :
    isFortuneFile env path = true ∧ isFortuneIndexFile env (path ++ ".dat") = true ∧
      env.LoadDataTableFromPath (path ++ ".dat") = .ok t ∧
      ¬ (t.LongestLength < l ∨ t.ShortestLength > s) := by
  unfold checkFile at hc
  cases hA : isFortuneFile env path
  · simp [hA] at hc
  · simp only [hA, Bool.not_true, Bool.false_eq_true, if_false] at hc
    cases hB : isFortuneIndexFile env (path ++ ".dat")
    · simp [hB] at hc
    · simp only [hB, Bool.not_true, Bool.false_eq_true, if_false] at hc
      cases hC : env.LoadDataTableFromPath (path ++ ".dat") with
      | error err => simp [hC] at hc
      | ok t1 =>
        simp only [hC] at hc
        cases hD : (decide (t1.LongestLength < l) || decide (t1.ShortestLength > s))
        · simp only [hD, Bool.false_eq_true, if_false] at hc
          injection hc with hc
          subst hc
          refine ⟨rfl, rfl, rfl, ?_⟩
          simpa using hD
        · simp [hD] at hc

theorem loadedNodes_length_le (env : Env) (s l : uint32) (r : Ptr)
    (paths : List ProbabilityPath) (next : Nat) :
    (loadedNodes env s l r paths next).length ≤ paths.length := by
  induction paths generalizing next with
  | nil => exact Nat.le_refl _
  | cons path rest ih =>
    unfold loadedNodes
    cases hp : pathNode env s l next r path with
    | error err => exact Nat.zero_le _
    | ok c => exact Nat.succ_le_succ (ih _)

/-- What is known of a child of the returned root, paired with its requested path. -/
theorem child_cases (fuel : Nat) (env : Env) (paths : List ProbabilityPath) (s l : uint32)
    (root : FileSystemNodeDescriptor) (err : Option Error)
    (hload : LoadPaths fuel env paths s l = some (root, err))
    (pc : ProbabilityPath × FileSystemNodeDescriptor) (hm : pc ∈ paths.zip root.Children) :
    (∃ stat t, env.Stat pc.1.Path = .ok stat ∧ stat.IsDir = false ∧
        checkFile env s l pc.1.Path = .ok t ∧ pc.2 = fileNode pc.1.Path pc.1.Percentage 0 t) ∨
    (∃ stat fsNodes addr, env.Stat pc.1.Path = .ok stat ∧ stat.IsDir = true ∧
        env.ReadDir pc.1.Path = .ok fsNodes ∧
        pc.2 = dirNode env s l pc.1.Path pc.1.Percentage addr 0 fsNodes) := by
  have hx := LoadPaths_some fuel env paths s l _ hload
  have hroot : root = (treeFrom env s l 0 paths 1 rootNode).1 := by rw [← hx]
  rw [root_eq] at hroot
  subst hroot
  obtain ⟨addr, hp⟩ := loadedNodes_zip _ _ _ _ _ _ pc hm
  rcases pathNode_cases _ _ _ _ _ _ _ hp with ⟨st, t, h1, h2, h3, h4⟩ | ⟨st, es, h1, h2, h3, h4⟩
  · exact Or.inl ⟨st, t, h1, h2, h3, h4⟩
  · exact Or.inr ⟨st, es, addr, h1, h2, h3, h4⟩

theorem children_length_le (fuel : Nat) (env : Env) (paths : List ProbabilityPath) (s l : uint32)
    (root : FileSystemNodeDescriptor) (err : Option Error)
    (hload : LoadPaths fuel env paths s l = some (root, err)) :
    root.Children.length ≤ paths.length := by
  have hx := LoadPaths_some fuel env paths s l _ hload
  have hroot : root = (treeFrom env s l 0 paths 1 rootNode).1 := by rw [← hx]
  rw [root_eq] at hroot
  subst hroot
  exact loadedNodes_length_le _ _ _ _ _ _

/-- With the file present, its index of the supported version and decoded to `T`, only the
length filter is left to decide. -/
theorem checkFile_of_decoded (env : Env) (s l : uint32) (path : String) (T : DataTable)
    (hfile : isFortuneFile env path = true)
    (hidx : isFortuneIndexFile env (path ++ ".dat") = true)
    (hT : env.LoadDataTableFromPath (path ++ ".dat") = .ok T) :
    checkFile env s l path =
      if T.LongestLength < l ∨ T.ShortestLength > s then .error lengthFilterError
      else .ok T := by
  unfold checkFile
  simp only [hfile, hidx, hT, Bool.not_true, Bool.false_eq_true, if_false, Bool.or_eq_true,
    decide_eq_true_eq, lengthFilterError]

theorem parentChain_zero_none (h : Heap) (p : Ptr) (hq : (h.read p).Parent = none) :
    parentChain h 0 p = some [p] := by
  simp only [parentChain, hq]

theorem parentChain_zero_some (h : Heap) (p q : Ptr) (hq : (h.read p).Parent = some q) :
    parentChain h 0 p = none := by
  simp only [parentChain, hq]

theorem parentChain_succ_none (h : Heap) (d : Nat) (p : Ptr)
    (hq : (h.read p).Parent = none) : parentChain h (d + 1) p = none := by
  simp only [parentChain, hq]

theorem parentChain_succ_some (h : Heap) (d : Nat) (p q : Ptr)
    (hq : (h.read p).Parent = some q) :
    parentChain h (d + 1) p = (parentChain h d q).map (p :: ·) := by
  simp only [parentChain, hq]

theorem parentChain_congr (h g : Heap) (hpar : ∀ x, (g.read x).Parent = (h.read x).Parent)
    (d : Nat) (p : Ptr) : parentChain g d p = parentChain h d p := by
  induction d generalizing p with
  | zero => simp only [parentChain, hpar]
  | succ d ih =>
    simp only [parentChain, hpar]
    cases (h.read p).Parent with
    | none => rfl
    | some q => simp only [ih]

theorem parentChain_cases (h : Heap) (d : Nat) (p : Ptr) (ps : List Ptr)
    (hc : parentChain h d p = some ps) :
    (d = 0 ∧ (h.read p).Parent = none ∧ ps = [p]) ∨
    (∃ e q tl, d = e + 1 ∧ (h.read p).Parent = some q ∧ parentChain h e q = some tl ∧
      ps = p :: tl) := by
  cases d with
  | zero =>
    cases hq : (h.read p).Parent with
    | none =>
      rw [parentChain_zero_none _ _ hq] at hc
      exact Or.inl ⟨rfl, rfl, (Option.some.inj hc).symm⟩
    | some q => rw [parentChain_zero_some _ _ _ hq] at hc; cases hc
  | succ d =>
    cases hq : (h.read p).Parent with
    | none => rw [parentChain_succ_none _ _ _ hq] at hc; cases hc
    | some q =>
      rw [parentChain_succ_some _ _ _ _ hq] at hc
      cases hr : parentChain h d q with
      | none => rw [hr] at hc; cases hc
      | some tl =>
        rw [hr] at hc
        exact Or.inr ⟨d, q, tl, rfl, rfl, hr, (Option.some.inj hc).symm⟩

theorem parentChain_head (h : Heap) (d : Nat) (p : Ptr) (ps : List Ptr)
    (hc : parentChain h d p = some ps) : p ∈ ps := by
  rcases parentChain_cases h d p ps hc with ⟨-, -, rfl⟩ | ⟨e, q, tl, -, -, -, rfl⟩ <;> simp

theorem parentChain_write (h : Heap) (p : Ptr) (v : FileSystemNodeDescriptor) (d : Nat)
    (q : Ptr) (ps : List Ptr) (hc : parentChain h d q = some ps) (hp : p ∉ ps) :
    parentChain (h.write p v) d q = some ps := by
  induction d generalizing q ps with
  | zero =>
    rcases parentChain_cases h 0 q ps hc with ⟨-, hq, rfl⟩ | ⟨e, q1, tl, he, -⟩
    · have hne : q ≠ p := fun e => hp (by simp [e])
      exact parentChain_zero_none _ _ (by rw [Heap.read_write_ne _ _ hne, hq])
    · cases he
  | succ d ih =>
    rcases parentChain_cases h (d + 1) q ps hc with ⟨he, -⟩ | ⟨e, q1, tl, he, hq, hr, rfl⟩
    · cases he
    · have hed : e = d := (Nat.succ.inj he).symm
      subst hed
      have hne : q ≠ p := fun e => hp (by simp [e])
      rw [parentChain_succ_some _ _ _ q1 (by rw [Heap.read_write_ne _ _ hne, hq]),
        ih q1 tl hr (fun hm => hp (List.mem_cons_of_mem _ hm))]
      rfl

/-- `populateFileAmounts` on a chain that reaches a parentless node after `d` steps ends
within `d + 1` iterations and has updated the nodes of the chain one after the other. -/
theorem populateFileAmounts_chain (h : Heap) (d : Nat) (p : Ptr) (ps : List Ptr)
    (t : DataTable) (k : Nat) (hc : parentChain h d p = some ps) :
    populateFileAmounts (d + 1 + k) h p t =
      some (ps.foldl (fun g x => g.write x (addAmounts t.NumberOfStrings.val 1 (g.read x))) h) := by
  induction d generalizing h p ps with
  | zero =>
    rcases parentChain_cases h 0 p ps hc with ⟨-, hq, rfl⟩ | ⟨e, q1, tl, he, -⟩
    · rw [show 0 + 1 + k = k + 1 by omega, populateFileAmounts_root _ _ _ _ hq]
      rfl
    · cases he
  | succ d ih =>
    rcases parentChain_cases h (d + 1) p ps hc with ⟨he, -⟩ | ⟨e, q, tl, he, hq, hr, rfl⟩
    · cases he
    · have hed : e = d := (Nat.succ.inj he).symm
      subst hed
      rw [show e + 1 + 1 + k = (e + 1 + k) + 1 by omega, populateFileAmounts_step _ _ _ q _ hq]
      have hcong : parentChain (h.write p (addAmounts t.NumberOfStrings.val 1 (h.read p))) e q
          = some tl := by
        rw [parentChain_congr h _ _ e q, hr]
        intro x
        by_cases hx : x = p
        · subst hx; simp
        · simp [hx]
      rw [ih _ q tl hcong]
      rfl

/-- Updating the counts along a chain leaves every other field of every node as it was. -/
theorem foldl_addAmounts_fields (e : Nat) (k : Int) (ps : List Ptr) (h : Heap) (x : Ptr) :
    ((ps.foldl (fun g y => g.write y (addAmounts e k (g.read y))) h).read x).Children
        = (h.read x).Children ∧
    ((ps.foldl (fun g y => g.write y (addAmounts e k (g.read y))) h).read x).Path
        = (h.read x).Path ∧
    ((ps.foldl (fun g y => g.write y (addAmounts e k (g.read y))) h).read x).Table
        = (h.read x).Table ∧
    ((ps.foldl (fun g y => g.write y (addAmounts e k (g.read y))) h).read x).IndexPath
        = (h.read x).IndexPath := by
  induction ps generalizing h with
  | nil => exact ⟨rfl, rfl, rfl, rfl⟩
  | cons y ys ih =>
    simp only [List.foldl_cons]
    obtain ⟨h1, h2, h3, h4⟩ := ih (h.write y (addAmounts e k (h.read y)))
    rw [h1, h2, h3, h4]
    by_cases hx : x = y
    · subst hx
      simp [addAmounts]
    · simp [hx]

/-- A file that passes the checks, under a parent whose chain of ancestors ends: the call
returns a nil error and has appended one node, for this file, to the parent's children. -/
theorem loadFilePath_kept (fuel : Nat) (env : Env) (h : Heap) (p q : Ptr) (s l : uint32)
    (t : DataTable) (d : Nat) (ps : List Ptr)
    (hc : checkFile env s l (h.read p).Path = .ok t)
    (hchain : parentChain h d q = some ps) (hp : p ∉ ps) (hfuel : d + 2 ≤ fuel) :
    ∃ h1 c, loadFilePath fuel env h p q s l = some (h1, none) ∧
      (h1.read q).Children = (h.read q).Children ++ [c] ∧
      c.Path = (h.read p).Path ∧ c.IndexPath = (h.read p).Path ++ ".dat" ∧ c.Table = t := by
  obtain ⟨k, rfl⟩ := Nat.exists_eq_add_of_le hfuel
  have hqp : q ≠ p := fun e => hp (e ▸ parentChain_head h d q ps hchain)
  rw [loadFilePath_of_checkFile_ok _ _ _ _ _ _ _ _ hc]
  generalize hv : ({ h.read p with
      IndexPath := (h.read p).Path ++ ".dat", Table := t, Parent := some q } :
      FileSystemNodeDescriptor) = v
  have hvP : v.Parent = some q := by rw [← hv]
  have hvPath : v.Path = (h.read p).Path := by rw [← hv]
  have hvIdx : v.IndexPath = (h.read p).Path ++ ".dat" := by rw [← hv]
  have hvT : v.Table = t := by rw [← hv]
  have hch : parentChain (h.write p v) (d + 1) p = some (p :: ps) := by
    rw [parentChain_succ_some _ _ _ q (by rw [Heap.read_write_same, hvP]),
      parentChain_write h p v d q ps hchain hp]
    rfl
  rw [show d + 2 + k = (d + 1) + 1 + k by omega,
    populateFileAmounts_chain _ _ _ _ t k hch]
  obtain ⟨f1, -, -, -⟩ := foldl_addAmounts_fields t.NumberOfStrings.val 1 (p :: ps)
    (h.write p v) q
  obtain ⟨-, f2, f3, f4⟩ := foldl_addAmounts_fields t.NumberOfStrings.val 1 (p :: ps)
    (h.write p v) p
  generalize (p :: ps).foldl
    (fun g x => g.write x (addAmounts t.NumberOfStrings.val 1 (g.read x))) (h.write p v) = g
    at f1 f2 f3 f4
  refine ⟨g.write q { g.read q with Children := (g.read q).Children ++ [g.read p] }, g.read p,
    rfl, ?_, ?_, ?_, ?_⟩
  · rw [Heap.read_write_same]
    show _ ++ [_] = _
    rw [f1, Heap.read_write_ne _ _ hqp]
  · rw [f2, Heap.read_write_same, hvPath]
  · rw [f4, Heap.read_write_same, hvIdx]
  · rw [f3, Heap.read_write_same, hvT]

theorem sum_map_mod_congr {α : Type} (xs : List α) (a b : α → Nat) (m : Nat)
    (hab : ∀ x ∈ xs, a x % m = b x % m) :
    (xs.map a).sum % m = (xs.map b).sum % m := by
  induction xs with
  | nil => rfl
  | cons x xs ih =>
    simp only [List.map_cons, List.sum_cons]
    rw [Nat.add_mod, hab x (List.mem_cons_self _ _),
      ih (fun y hy => hab y (List.mem_cons_of_mem _ hy)), ← Nat.add_mod]

theorem sum_map_flatMap {α β : Type} (xs : List α) (f : α → List β) (g : β → Nat) :
    ((xs.flatMap f).map g).sum = (xs.map fun x => ((f x).map g).sum).sum := by
  induction xs with
  | nil => rfl
  | cons x xs ih => simp [List.flatMap_cons, ih]

theorem length_flatMap_int {α β : Type} (xs : List α) (f : α → List β) :
    ((xs.flatMap f).length : Int) = (xs.map fun x => ((f x).length : Int)).sum := by
  induction xs with
  | nil => rfl
  | cons x xs ih =>
    rw [List.flatMap_cons, List.length_append, List.map_cons, List.sum_cons, ← ih]
    push_cast
    rfl

theorem dirChildren_NumFiles (env : Env) (s l : uint32) (dirPath : String) (dir : Ptr)
    (fsNodes : List FileInfo) :
    ((dirChildren env s l dirPath dir fsNodes).map (·.NumFiles)).sum
      = ((dirChildren env s l dirPath dir fsNodes).length : Int) := by
  have h1 : ∀ cs : List FileSystemNodeDescriptor, (∀ c ∈ cs, c.NumFiles = 1) →
      (cs.map (·.NumFiles)).sum = (cs.length : Int) := by
    intro cs
    induction cs with
    | nil => intro _; rfl
    | cons c cs ih =>
      intro hc
      simp only [List.map_cons, List.sum_cons, List.length_cons]
      rw [hc c (List.mem_cons_self _ _), ih (fun y hy => hc y (List.mem_cons_of_mem _ hy))]
      push_cast
      ring
  apply h1
  intro c hc
  obtain ⟨node, t, -, -, -, rfl⟩ := mem_dirChildren _ _ _ _ _ _ _ hc
  rfl

theorem dirChildren_NumEntries (env : Env) (s l : uint32) (dirPath : String) (dir : Ptr)
    (fsNodes : List FileInfo) :
    (dirChildren env s l dirPath dir fsNodes).map (·.NumEntries)
      = (dirChildren env s l dirPath dir fsNodes).map (·.Table.NumberOfStrings.val) := by
  apply List.map_congr_left
  intro c hc
  obtain ⟨node, t, -, -, -, rfl⟩ := mem_dirChildren _ _ _ _ _ _ _ hc
  rfl

theorem dirChildren_map {β : Type} (env : Env) (s l : uint32) (dirPath : String) (dir : Ptr)
    (F : FileSystemNodeDescriptor → β) (G : FileInfo → β)
    (hFG : ∀ node t, checkFile env s l (env.Join dirPath node.Name) = .ok t →
      F (fileNode (env.Join dirPath node.Name) 0 dir t) = G node)
    (fsNodes : List FileInfo) :
    (dirChildren env s l dirPath dir fsNodes).map F
      = (validEntries env s l dirPath fsNodes).map G := by
  induction fsNodes with
  | nil => rfl
  | cons node rest ih =>
    have ih1 : (dirChildren env s l dirPath dir rest).map F
        = (List.filter (fun node =>
            !node.IsDir && (checkFile env s l (env.Join dirPath node.Name)).isOk) rest).map G :=
      ih
    unfold dirChildren validEntries
    cases hd : node.IsDir
    · cases hc : checkFile env s l (env.Join dirPath node.Name) with
      | error e =>
        simp only [List.filterMap_cons, List.filter_cons, hd, hc, Except.isOk, Except.toBool,
          Bool.false_eq_true, if_false, Bool.not_false, Bool.and_false]
        exact ih1
      | ok t =>
        simp only [List.filterMap_cons, List.filter_cons, hd, hc, Except.isOk, Except.toBool,
          Bool.false_eq_true, if_false, Bool.not_false, Bool.and_true, if_true, List.map_cons]
        rw [hFG node t hc]
        exact congrArg _ ih1
    · simp only [List.filterMap_cons, List.filter_cons, hd, if_true, Bool.not_true,
        Bool.false_and, Bool.false_eq_true, if_false]
      exact ih1

theorem pathNode_isOk (env : Env) (s l : uint32) (addr r : Ptr) (path : ProbabilityPath) :
    (pathNode env s l addr r path).isOk = pathLoads env s l path := by
  unfold pathNode pathLoads
  cases env.Stat path.Path with
  | error e => rfl
  | ok stat =>
    cases hd : stat.IsDir
    · simp only [hd, Bool.false_eq_true, if_false]
      cases checkFile env s l path.Path <;> rfl
    · simp only [hd, if_true]
      cases env.ReadDir path.Path <;> rfl

theorem treeFrom_error_none_iff (env : Env) (s l : uint32) (r : Ptr)
    (paths : List ProbabilityPath) (next : Nat) (n : FileSystemNodeDescriptor) :
    (treeFrom env s l r paths next n).2 = none ↔ ∀ p ∈ paths, pathLoads env s l p = true := by
  induction paths generalizing next n with
  | nil => simp [treeFrom]
  | cons path rest ih =>
    unfold treeFrom
    have hk := pathNode_isOk env s l next r path
    cases hp : pathNode env s l next r path with
    | error e =>
      rw [hp] at hk
      simp only [List.mem_cons, forall_eq_or_imp, ← hk]
      simp [Except.isOk, Except.toBool]
    | ok c =>
      rw [hp] at hk
      simp only [List.mem_cons, forall_eq_or_imp, ← hk, ih]
      simp [Except.isOk, Except.toBool]

theorem treeFrom_cons_ok (env : Env) (s l : uint32) (r : Ptr) (path : ProbabilityPath)
    (rest : List ProbabilityPath) (next : Nat) (n c : FileSystemNodeDescriptor)
    (hp : pathNode env s l next r path = .ok c) :
    treeFrom env s l r (path :: rest) next n
      = treeFrom env s l r rest (next + pathCells env path) (attach n c) := by
  rw [treeFrom, hp]

theorem treeFrom_cons_error (env : Env) (s l : uint32) (r : Ptr) (path : ProbabilityPath)
    (rest : List ProbabilityPath) (next : Nat) (n : FileSystemNodeDescriptor) (e : Error)
    (hp : pathNode env s l next r path = .error e) :
    treeFrom env s l r (path :: rest) next n = (n, some e) := by
  rw [treeFrom, hp]

theorem treeFrom_append_ok (env : Env) (s l : uint32) (r : Ptr)
    (pre rest : List ProbabilityPath) (next : Nat) (n n1 : FileSystemNodeDescriptor)
    (hpre : treeFrom env s l r pre next n = (n1, none)) :
    treeFrom env s l r (pre ++ rest) next n
      = treeFrom env s l r rest (next + pathsCells env pre) n1 := by
  induction pre generalizing next n with
  | nil =>
    simp only [treeFrom, Prod.mk.injEq, and_true] at hpre
    subst hpre
    rfl
  | cons path pre ih =>
    rw [List.cons_append]
    cases hp : pathNode env s l next r path with
    | error e => rw [treeFrom_cons_error _ _ _ _ _ _ _ _ _ hp] at hpre; cases hpre
    | ok c =>
      rw [treeFrom_cons_ok _ _ _ _ _ _ _ _ _ hp] at hpre ⊢
      rw [ih _ _ hpre]
      simp [pathsCells, Nat.add_assoc]

theorem treeFrom_stat_error (env : Env) (s l : uint32) (r : Ptr) (path : ProbabilityPath)
    (rest : List ProbabilityPath) (next : Nat) (n : FileSystemNodeDescriptor) (e : Error)
    (hst : env.Stat path.Path = .error e) :
    treeFrom env s l r (path :: rest) next n = (n, some e) := by
  unfold treeFrom pathNode
  rw [hst]

theorem isFortuneIndexFile_true (env : Env) (path : String)
    (hidx : isFortuneIndexFile env path = true) :
    env.FileExists path = true ∧
    ∃ version, env.LoadDataTableVersionFromPath path = .ok version ∧
      version.Version = env.DefaultVersion := by
  unfold isFortuneIndexFile at hidx
  cases hA : env.FileExists path
  · simp [hA] at hidx
  · simp only [hA, Bool.not_true, Bool.false_eq_true, if_false] at hidx
    cases hB : env.LoadDataTableVersionFromPath path with
    | error e => simp [hB] at hidx
    | ok version =>
      simp only [hB] at hidx
      refine ⟨rfl, version, rfl, ?_⟩
      by_contra hne
      simp [hne] at hidx

theorem fileNode_Indexed (env : Env) (s l : uint32) (path : String) (pct : float32)
    (parent : Ptr) (t : DataTable) (hc : checkFile env s l path = .ok t) :
    Indexed env (fileNode path pct parent t) := by
  obtain ⟨h1, h2, h3, -⟩ := checkFile_ok env s l path t hc
  obtain ⟨h4, h5⟩ := isFortuneIndexFile_true env _ h2
  exact ⟨h1, rfl, h4, h5, h3⟩

theorem mem_dirChildren_of (env : Env) (s l : uint32) (dirPath : String) (dir : Ptr)
    (fsNodes : List FileInfo) (node : FileInfo) (t : DataTable)
    (hn : node ∈ fsNodes) (hd : node.IsDir = false)
    (hc : checkFile env s l (env.Join dirPath node.Name) = .ok t) :
    fileNode (env.Join dirPath node.Name) 0 dir t ∈ dirChildren env s l dirPath dir fsNodes := by
  unfold dirChildren
  rw [List.mem_filterMap]
  exact ⟨node, hn, by simp [hd, hc]⟩

theorem loadedNodes_getElem (env : Env) (s l : uint32) (r : Ptr)
    (paths : List ProbabilityPath) (next : Nat) (n : FileSystemNodeDescriptor)
    (he : (treeFrom env s l r paths next n).2 = none) (i : Nat) (path : ProbabilityPath)
    (hi : paths[i]? = some path) :
    ∃ addr c, (loadedNodes env s l r paths next)[i]? = some c ∧
      pathNode env s l addr r path = .ok c := by
  induction paths generalizing next n i with
  | nil => simp at hi
  | cons p rest ih =>
    cases hp : pathNode env s l next r p with
    | error e => rw [treeFrom_cons_error _ _ _ _ _ _ _ _ _ hp] at he; cases he
    | ok c =>
      rw [treeFrom_cons_ok _ _ _ _ _ _ _ _ _ hp] at he
      have hl : loadedNodes env s l r (p :: rest) next
          = c :: loadedNodes env s l r rest (next + pathCells env p) := by
        rw [loadedNodes, hp]
      rw [hl]
      cases i with
      | zero =>
        simp only [List.getElem?_cons_zero, Option.some.injEq] at hi
        subst hi
        exact ⟨next, c, List.getElem?_cons_zero, hp⟩
      | succ j =>
        simp only [List.getElem?_cons_succ] at hi ⊢
        exact ih _ _ he j hi

theorem loadedNodes_mem (env : Env) (s l : uint32) (r : Ptr) (paths : List ProbabilityPath)
    (next : Nat) (c : FileSystemNodeDescriptor)
    (hm : c ∈ loadedNodes env s l r paths next) :
    ∃ addr path, path ∈ paths ∧ pathNode env s l addr r path = .ok c := by
  induction paths generalizing next with
  | nil => simp [loadedNodes] at hm
  | cons p rest ih =>
    unfold loadedNodes at hm
    cases hp : pathNode env s l next r p with
    | error e => rw [hp] at hm; simp at hm
    | ok c1 =>
      rw [hp] at hm
      simp only [List.mem_cons] at hm
      rcases hm with rfl | hm
      · exact ⟨next, p, List.mem_cons_self _ _, hp⟩
      · obtain ⟨addr, path, h1, h2⟩ := ih _ hm
        exact ⟨addr, path, List.mem_cons_of_mem _ h1, h2⟩

theorem validEntries_filter (env : Env) (s l : uint32) (dirPath : String)
    (fsNodes : List FileInfo) :
    validEntries env s l dirPath (fsNodes.filter fun node => !node.IsDir)
      = validEntries env s l dirPath fsNodes := by
  unfold validEntries
  rw [List.filter_filter]
  congr 1
  funext node
  cases node.IsDir <;> simp

/-- With the file present, its index of the supported version and decoded to `T`,
`loadFilePath` returns an error exactly when the length filter rejects `T`. -/
theorem loadFilePath_error_iff (fuel : Nat) (env : Env) (h : Heap) (p q : Ptr) (s l : uint32)
    (T : DataTable)
    (hfile : isFortuneFile env (h.read p).Path = true)
    (hidx : isFortuneIndexFile env ((h.read p).Path ++ ".dat") = true)
    (hT : env.LoadDataTableFromPath ((h.read p).Path ++ ".dat") = .ok T) :
    (∃ h1 err, loadFilePath fuel env h p q s l = some (h1, some err)) ↔
      (T.LongestLength < l ∨ T.ShortestLength > s) := by
  have hck := checkFile_of_decoded env s l _ T hfile hidx hT
  constructor
  · rintro ⟨h1, err, he⟩
    by_contra hcond
    rw [if_neg hcond] at hck
    rw [loadFilePath_of_checkFile_ok _ _ _ _ _ _ _ _ hck] at he
    cases hp : populateFileAmounts fuel _ p T with
    | none => rw [hp] at he; cases he
    | some h4 => rw [hp] at he; cases he
  · intro hcond
    rw [if_pos hcond] at hck
    obtain ⟨h1, he, -⟩ := loadFilePath_of_checkFile_error env h p s l _ hck
    exact ⟨h1, lengthFilterError, he fuel q⟩

theorem forgetParentsAll_eq_map (cs : List FileSystemNodeDescriptor) :
    forgetParentsAll cs = cs.map forgetParents := by
  induction cs with
  | nil => rfl
  | cons c cs ih => rw [forgetParentsAll, ih, List.map_cons]

@[simp] theorem forgetParents_NumEntries (n : FileSystemNodeDescriptor) :
    (forgetParents n).NumEntries = n.NumEntries := by
  cases n; rfl

@[simp] theorem forgetParents_NumFiles (n : FileSystemNodeDescriptor) :
    (forgetParents n).NumFiles = n.NumFiles := by
  cases n; rfl

@[simp] theorem forgetParents_Children (n : FileSystemNodeDescriptor) :
    (forgetParents n).Children = n.Children.map forgetParents := by
  cases n
  simp only [forgetParents, forgetParentsAll_eq_map]

theorem forgetParents_attach (n c : FileSystemNodeDescriptor) :
    forgetParents (attach n c) = attach (forgetParents n) (forgetParents c) := by
  cases n
  cases c
  simp [attach, forgetParents, forgetParentsAll_eq_map]

theorem forgetParents_fileNode (path : String) (pct : float32) (p q : Ptr) (t : DataTable) :
    forgetParents (fileNode path pct p t) = forgetParents (fileNode path pct q t) := rfl

theorem forgetParents_dirChildren (env : Env) (s l : uint32) (dirPath : String) (a b : Ptr)
    (fsNodes : List FileInfo) :
    (dirChildren env s l dirPath a fsNodes).map forgetParents
      = (dirChildren env s l dirPath b fsNodes).map forgetParents := by
  have key : ∀ dir : Ptr, (dirChildren env s l dirPath dir fsNodes).map forgetParents
      = (validEntries env s l dirPath fsNodes).map (fun node =>
          match checkFile env s l (env.Join dirPath node.Name) with
          | .ok t => forgetParents (fileNode (env.Join dirPath node.Name) 0 0 t)
          | .error _ => forgetParents FileSystemNodeDescriptor.zero) := by
    intro dir
    apply dirChildren_map
    intro node t hc
    rw [hc]
    rfl
  rw [key a, key b]

theorem forgetParents_dirNode (env : Env) (s l : uint32) (path : String) (pct : float32)
    (a b p q : Ptr) (fsNodes : List FileInfo) :
    forgetParents (dirNode env s l path pct a p fsNodes)
      = forgetParents (dirNode env s l path pct b q fsNodes) := by
  rw [dirNode_eq, dirNode_eq]
  have h1 := forgetParents_dirChildren env s l path a b fsNodes
  have h2 : ((dirChildren env s l path a fsNodes).map forgetParents).map (·.NumFiles)
      = ((dirChildren env s l path b fsNodes).map forgetParents).map (·.NumFiles) := by
    rw [h1]
  have h3 : sumEntries ((dirChildren env s l path a fsNodes).map forgetParents) 0
      = sumEntries ((dirChildren env s l path b fsNodes).map forgetParents) 0 := by
    rw [h1]
  have hNF : ∀ cs : List FileSystemNodeDescriptor,
      (cs.map forgetParents).map (·.NumFiles) = cs.map (·.NumFiles) := by
    intro cs
    rw [List.map_map]
    exact List.map_congr_left (fun c _ => forgetParents_NumFiles c)
  have hNE : ∀ cs : List FileSystemNodeDescriptor,
      sumEntries (cs.map forgetParents) 0 = sumEntries cs 0 := by
    intro cs
    rw [sumEntries_eq _ 0 (by norm_num), sumEntries_eq _ 0 (by norm_num), List.map_map]
    congr 3
    exact List.map_congr_left (fun c _ => forgetParents_NumEntries c)
  rw [hNF, hNF] at h2
  rw [hNE, hNE] at h3
  simp only [forgetParents, freshNode, FileSystemNodeDescriptor.zero, forgetParentsAll_eq_map,
    h1, h2, h3]

theorem pathNode_forgetParents (env : Env) (s l : uint32) (a b p q : Ptr)
    (path : ProbabilityPath) :
    (∀ e, pathNode env s l a p path = .error e ↔ pathNode env s l b q path = .error e) ∧
    (∀ c d, pathNode env s l a p path = .ok c → pathNode env s l b q path = .ok d →
      forgetParents c = forgetParents d) ∧
    ((∃ c, pathNode env s l a p path = .ok c) ↔ (∃ d, pathNode env s l b q path = .ok d)) := by
  unfold pathNode
  cases env.Stat path.Path with
  | error e1 => simp
  | ok stat =>
    cases hd : stat.IsDir
    · simp only [hd, Bool.false_eq_true, if_false]
      cases checkFile env s l path.Path with
      | error e1 => simp
      | ok t =>
        refine ⟨by simp, ?_, by simp⟩
        intro c d hc hd2
        injection hc with hc
        injection hd2 with hd2
        rw [← hc, ← hd2]
        exact forgetParents_fileNode _ _ _ _ _
    · simp only [hd, if_true]
      cases env.ReadDir path.Path with
      | error e1 => simp
      | ok es =>
        refine ⟨by simp, ?_, by simp⟩
        intro c d hc hd2
        injection hc with hc
        injection hd2 with hd2
        rw [← hc, ← hd2]
        exact forgetParents_dirNode _ _ _ _ _ _ _ _ _ _

/-- The loop of `LoadPaths` run from two parents that agree up to `Parent` addresses, with
its variables at other addresses: the same error, and roots that agree up to `Parent`
addresses. -/
theorem treeFrom_forgetParents (env : Env) (s l : uint32) (p q : Ptr)
    (paths : List ProbabilityPath) (a b : Nat) (n m : FileSystemNodeDescriptor)
    (hnm : forgetParents n = forgetParents m) :
    (treeFrom env s l p paths a n).2 = (treeFrom env s l q paths b m).2 ∧
    forgetParents (treeFrom env s l p paths a n).1
      = forgetParents (treeFrom env s l q paths b m).1 := by
  induction paths generalizing a b n m with
  | nil => exact ⟨rfl, hnm⟩
  | cons path rest ih =>
    obtain ⟨h1, h2, h3⟩ := pathNode_forgetParents env s l a b p q path
    cases hp : pathNode env s l a p path with
    | error e =>
      rw [treeFrom_cons_error _ _ _ _ _ _ _ _ _ hp,
        treeFrom_cons_error _ _ _ _ _ _ _ _ _ ((h1 e).mp hp)]
      exact ⟨rfl, hnm⟩
    | ok c =>
      obtain ⟨d, hd⟩ := h3.mp ⟨c, hp⟩
      rw [treeFrom_cons_ok _ _ _ _ _ _ _ _ _ hp, treeFrom_cons_ok _ _ _ _ _ _ _ _ _ hd]
      apply ih
      rw [forgetParents_attach, forgetParents_attach, hnm, h2 c d hp hd]

theorem loadedNodes_forgetParents (env : Env) (s l : uint32) (p q : Ptr)
    (paths : List ProbabilityPath) (a b : Nat) :
    (loadedNodes env s l p paths a).map forgetParents
      = (loadedNodes env s l q paths b).map forgetParents := by
  induction paths generalizing a b with
  | nil => rfl
  | cons path rest ih =>
    obtain ⟨h1, h2, h3⟩ := pathNode_forgetParents env s l a b p q path
    unfold loadedNodes
    cases hp : pathNode env s l a p path with
    | error e => rw [(h1 e).mp hp]
    | ok c =>
      obtain ⟨d, hd⟩ := h3.mp ⟨c, hp⟩
      rw [hd]
      simp only [List.map_cons]
      rw [h2 c d hp hd, ih]

theorem parentChain_length (h : Heap) (d : Nat) (p : Ptr) (ps : List Ptr)
    (hc : parentChain h d p = some ps) : ps.length = d + 1 := by
  induction d generalizing p ps with
  | zero =>
    rcases parentChain_cases h 0 p ps hc with ⟨-, -, rfl⟩ | ⟨e, q, tl, he, -⟩
    · rfl
    · cases he
  | succ d ih =>
    rcases parentChain_cases h (d + 1) p ps hc with ⟨he, -⟩ | ⟨e, q, tl, he, -, hr, rfl⟩
    · cases he
    · have hed : e = d := (Nat.succ.inj he).symm
      subst hed
      rw [List.length_cons, ih q tl hr]

theorem parentChain_depth_unique (h : Heap) (d e : Nat) (p : Ptr) (ps qs : List Ptr)
    (hd : parentChain h d p = some ps) (he : parentChain h e p = some qs) : d = e := by
  induction d generalizing e p ps qs with
  | zero =>
    rcases parentChain_cases h 0 p ps hd with ⟨-, hp, -⟩ | ⟨d1, q, tl, h0, -⟩
    · rcases parentChain_cases h e p qs he with ⟨he0, -⟩ | ⟨e1, q, tl, -, hq, -⟩
      · exact he0.symm
      · rw [hp] at hq; cases hq
    · cases h0
  | succ d ih =>
    rcases parentChain_cases h (d + 1) p ps hd with ⟨h0, -⟩ | ⟨d1, q, tl, hd1, hq, hr, -⟩
    · cases h0
    · have hdd : d1 = d := (Nat.succ.inj hd1).symm
      subst hdd
      rcases parentChain_cases h e p qs he with ⟨-, hp, -⟩ | ⟨e1, q1, tl1, he1, hq1, hr1, -⟩
      · rw [hp] at hq; cases hq
      · rw [hq] at hq1
        have hqq : q = q1 := Option.some.inj hq1
        subst hqq
        rw [he1, ih e1 q tl tl1 hr hr1]

theorem parentChain_mem_depth (h : Heap) (d : Nat) (p : Ptr) (ps : List Ptr)
    (hc : parentChain h d p = some ps) (x : Ptr) (hx : x ∈ ps) :
    ∃ e qs, e ≤ d ∧ parentChain h e x = some qs := by
  induction d generalizing p ps with
  | zero =>
    rcases parentChain_cases h 0 p ps hc with ⟨-, -, rfl⟩ | ⟨e, q, tl, he, -⟩
    · have hxp : x = p := by simpa using hx
      subst hxp
      exact ⟨0, [x], Nat.le_refl _, hc⟩
    · cases he
  | succ d ih =>
    rcases parentChain_cases h (d + 1) p ps hc with ⟨he, -⟩ | ⟨e, q, tl, he, -, hr, rfl⟩
    · cases he
    · have hed : e = d := (Nat.succ.inj he).symm
      subst hed
      rcases List.mem_cons.mp hx with hxp | hxt
      · subst hxp
        exact ⟨e + 1, x :: tl, Nat.le_refl _, hc⟩
      · obtain ⟨e1, qs, hle, hq⟩ := ih q tl hr hxt
        exact ⟨e1, qs, Nat.le_succ_of_le hle, hq⟩

/-- A chain of `Parent` pointers that reaches a parentless node visits no node twice. -/
theorem parentChain_nodup (h : Heap) (d : Nat) (p : Ptr) (ps : List Ptr)
    (hc : parentChain h d p = some ps) : ps.Nodup := by
  induction d generalizing p ps with
  | zero =>
    rcases parentChain_cases h 0 p ps hc with ⟨-, -, rfl⟩ | ⟨e, q, tl, he, -⟩
    · exact List.nodup_singleton _
    · cases he
  | succ d ih =>
    rcases parentChain_cases h (d + 1) p ps hc with ⟨he, -⟩ | ⟨e, q, tl, he, -, hr, rfl⟩
    · cases he
    · have hed : e = d := (Nat.succ.inj he).symm
      subst hed
      refine List.nodup_cons.mpr ⟨fun hm => ?_, ih q tl hr⟩
      obtain ⟨e1, qs, hle, hq⟩ := parentChain_mem_depth h e q tl hr p hm
      have := parentChain_depth_unique h (e + 1) e1 p _ _ hc hq
      omega

/-- With fuel for at most `d` iterations the walk along a chain of `d + 1` nodes does not
end. -/
theorem populateFileAmounts_short (h : Heap) (d : Nat) (p : Ptr) (ps : List Ptr)
    (t : DataTable) (fuel : Nat) (hc : parentChain h d p = some ps) (hf : fuel ≤ d) :
    populateFileAmounts fuel h p t = none := by
  induction d generalizing h p ps fuel with
  | zero =>
    have h0 : fuel = 0 := Nat.le_zero.mp hf
    subst h0
    rfl
  | succ d ih =>
    cases fuel with
    | zero => rfl
    | succ k =>
      rcases parentChain_cases h (d + 1) p ps hc with ⟨he, -⟩ | ⟨e, q, tl, he, hq, hr, rfl⟩
      · cases he
      · have hed : e = d := (Nat.succ.inj he).symm
        subst hed
        rw [populateFileAmounts_step _ _ _ q _ hq]
        have hcong : parentChain (h.write p (addAmounts t.NumberOfStrings.val 1 (h.read p))) e q
            = some tl := by
          rw [parentChain_congr h _ _ e q, hr]
          intro x
          by_cases hx : x = p
          · subst hx; simp
          · simp [hx]
        exact ih _ q tl k hcong (Nat.le_of_succ_le_succ hf)

/-- Updating the counts of pairwise distinct nodes one after the other updates each of them
once and leaves the other nodes as they were. -/
theorem foldl_addAmounts_read (e : Nat) (k : Int) (ps : List Ptr) (hn : ps.Nodup) (h : Heap) :
    (ps.foldl (fun g y => g.write y (addAmounts e k (g.read y))) h).next = h.next ∧
    (∀ x ∈ ps, (ps.foldl (fun g y => g.write y (addAmounts e k (g.read y))) h).read x
      = addAmounts e k (h.read x)) ∧
    (∀ x, x ∉ ps → (ps.foldl (fun g y => g.write y (addAmounts e k (g.read y))) h).read x
      = h.read x) := by
  induction ps generalizing h with
  | nil => exact ⟨rfl, fun x hx => absurd hx (List.not_mem_nil _), fun _ _ => rfl⟩
  | cons y ys ih =>
    obtain ⟨hy, hys⟩ := List.nodup_cons.mp hn
    obtain ⟨i1, i2, i3⟩ := ih hys (h.write y (addAmounts e k (h.read y)))
    simp only [List.foldl_cons]
    refine ⟨i1, ?_, ?_⟩
    · intro x hx
      rcases List.mem_cons.mp hx with hxy | hxt
      · subst hxy
        rw [i3 x hy, Heap.read_write_same]
      · have hne : x ≠ y := fun hxy => hy (hxy ▸ hxt)
        rw [i2 x hxt, Heap.read_write_ne _ _ hne]
    · intro x hx
      have hne : x ≠ y := fun hxy => hx (hxy ▸ List.mem_cons_self _ _)
      have hnt : x ∉ ys := fun hm => hx (List.mem_cons_of_mem _ hm)
      rw [i3 x hnt, Heap.read_write_ne _ _ hne]

/-- A kept file never ends its walk in one iteration: `loadFilePath` has given the file a
parent before it calls `populateFileAmounts`. -/
theorem loadFilePath_fuel_one (env : Env) (h : Heap) (p q : Ptr) (s l : uint32) (t : DataTable)
    (hc : checkFile env s l (h.read p).Path = .ok t) :
    loadFilePath 1 env h p q s l = none := by
  rw [loadFilePath_of_checkFile_ok _ _ _ _ _ _ _ _ hc,
    populateFileAmounts_step 0 _ p q t (by simp)]
  rfl

/-- A kept file under a parent whose chain has `d + 1` nodes: with fuel for at most `d + 1`
iterations the walk, which starts at the file, does not end. -/
theorem loadFilePath_short (fuel : Nat) (env : Env) (h : Heap) (p q : Ptr) (s l : uint32)
    (t : DataTable) (d : Nat) (ps : List Ptr)
    (hc : checkFile env s l (h.read p).Path = .ok t)
    (hchain : parentChain h d q = some ps) (hp : p ∉ ps) (hfuel : fuel ≤ d + 1) :
    loadFilePath fuel env h p q s l = none := by
  rw [loadFilePath_of_checkFile_ok _ _ _ _ _ _ _ _ hc]
  generalize hv : ({ h.read p with
      IndexPath := (h.read p).Path ++ ".dat", Table := t, Parent := some q } :
      FileSystemNodeDescriptor) = v
  have hvP : v.Parent = some q := by rw [← hv]
  have hch : parentChain (h.write p v) (d + 1) p = some (p :: ps) := by
    rw [parentChain_succ_some _ _ _ q (by rw [Heap.read_write_same, hvP]),
      parentChain_write h p v d q ps hchain hp]
    rfl
  rw [populateFileAmounts_short _ _ _ _ t fuel hch hfuel]
  rfl

theorem map_NumEntries_of_forgetParents (cs ds : List FileSystemNodeDescriptor)
    (h : cs.map forgetParents = ds.map forgetParents) :
    cs.map (·.NumEntries) = ds.map (·.NumEntries) := by
  have key : ∀ xs : List FileSystemNodeDescriptor,
      (xs.map forgetParents).map (·.NumEntries) = xs.map (·.NumEntries) := by
    intro xs
    rw [List.map_map]
    exact List.map_congr_left (fun c _ => forgetParents_NumEntries c)
  rw [← key cs, ← key ds, h]

theorem map_NumFiles_of_forgetParents (cs ds : List FileSystemNodeDescriptor)
    (h : cs.map forgetParents = ds.map forgetParents) :
    cs.map (·.NumFiles) = ds.map (·.NumFiles) := by
  have key : ∀ xs : List FileSystemNodeDescriptor,
      (xs.map forgetParents).map (·.NumFiles) = xs.map (·.NumFiles) := by
    intro xs
    rw [List.map_map]
    exact List.map_congr_left (fun c _ => forgetParents_NumFiles c)
  rw [← key cs, ← key ds, h]

/-- The error `loadFilePath` returns is the one the checks produce. -/
theorem checkFile_error_of_loadFilePath (fuel : Nat) (env : Env) (h h1 : Heap) (p q : Ptr)
    (s l : uint32) (e : Error) (hret : loadFilePath fuel env h p q s l = some (h1, some e)) :
    checkFile env s l (h.read p).Path = .error e := by
  cases hc : checkFile env s l (h.read p).Path with
  | ok t =>
    rw [loadFilePath_of_checkFile_ok _ _ _ _ _ _ _ _ hc] at hret
    cases hp : populateFileAmounts fuel _ p t with
    | none => rw [hp] at hret; cases hret
    | some h4 => rw [hp] at hret; cases hret
  | error e1 =>
    obtain ⟨h2, he, -⟩ := loadFilePath_of_checkFile_error env h p s l e1 hc
    rw [he fuel q] at hret
    have h3 : some e1 = some e := congrArg Prod.snd (Option.some.inj hret)
    rw [Option.some.inj h3]

/-- The loop of `LoadPaths` stops at the first path whose `loadPath` fails, with the error of
that path and the root as the earlier paths left it. -/
theorem treeFrom_first_failure (env : Env) (s l : uint32) (earlier later : List ProbabilityPath)
    (path : ProbabilityPath) (e : Error)
    (hearlier : ∀ p ∈ earlier, pathLoads env s l p = true)
    (hfail : ∀ addr, pathNode env s l addr 0 path = .error e) :
    (treeFrom env s l 0 (earlier ++ path :: later) 1 rootNode).2 = some e ∧
    (treeFrom env s l 0 (earlier ++ path :: later) 1 rootNode).1.Children.length
      = earlier.length := by
  have herr : (treeFrom env s l 0 earlier 1 rootNode).2 = none :=
    (treeFrom_error_none_iff env s l 0 earlier 1 rootNode).mpr hearlier
  have hpre : treeFrom env s l 0 earlier 1 rootNode
      = ((treeFrom env s l 0 earlier 1 rootNode).1, none) := Prod.ext rfl herr
  rw [treeFrom_append_ok _ _ _ _ _ _ _ _ _ hpre, treeFrom_cons_error _ _ _ _ _ _ _ _ _ (hfail _)]
  refine ⟨rfl, ?_⟩
  rw [root_eq]
  exact loadedNodes_length _ _ _ _ _ _ _ herr

/-! ## The properties of the specification, C1 to C19 -/

/-- C1: when `LoadPaths` returns a nil error, the root has one child per requested path, its
`NumEntries` is the sum of its children's `NumEntries` as the `uint64` field holds it (the sum
modulo `2^64`, hence the sum itself whenever that is below `2^64`), its `NumFiles` is the sum
of their `NumFiles`, and the same holds for the node of every requested directory (an empty
child list gives 0). -/
theorem C1_counts_are_sums_over_children (fuel : Nat) (env : Env)
    (paths : List ProbabilityPath) (shorterThan longerThan : uint32)
    (root : FileSystemNodeDescriptor)
    (hload : LoadPaths fuel env paths shorterThan longerThan = some (root, none)) :
    root.NumEntries = (root.Children.map (·.NumEntries)).sum % 2 ^ 64 ∧
    ((root.Children.map (·.NumEntries)).sum < 2 ^ 64 →
      root.NumEntries = (root.Children.map (·.NumEntries)).sum) ∧
    root.NumFiles = (root.Children.map (·.NumFiles)).sum ∧
    root.Children.length = paths.length ∧
    ∀ pc ∈ paths.zip root.Children, ∀ stat, env.Stat pc.1.Path = .ok stat → stat.IsDir = true →
      pc.2.NumEntries = (pc.2.Children.map (·.NumEntries)).sum % 2 ^ 64 ∧
      ((pc.2.Children.map (·.NumEntries)).sum < 2 ^ 64 →
        pc.2.NumEntries = (pc.2.Children.map (·.NumEntries)).sum) ∧
      pc.2.NumFiles = (pc.2.Children.map (·.NumFiles)).sum := by
  have hx := LoadPaths_some fuel env paths shorterThan longerThan _ hload
  have hroot : root = (treeFrom env shorterThan longerThan 0 paths 1 rootNode).1 := by
    rw [← hx]
  have herr : (treeFrom env shorterThan longerThan 0 paths 1 rootNode).2 = none := by
    rw [← hx]
  rw [root_eq] at hroot
  subst hroot
  have hmod : ∀ cs : List FileSystemNodeDescriptor,
      sumEntries cs 0 = (cs.map (·.NumEntries)).sum % 2 ^ 64 := by
    intro cs
    rw [sumEntries_eq _ 0 (by norm_num), Nat.zero_add]
  refine ⟨hmod _, fun hlt => ?_, rfl, loadedNodes_length _ _ _ _ _ _ _ herr, ?_⟩
  · show sumEntries _ 0 = _
    rw [hmod, Nat.mod_eq_of_lt hlt]
  · intro pc hm stat hst hd
    obtain ⟨addr, hp⟩ := loadedNodes_zip _ _ _ _ _ _ pc hm
    rcases pathNode_cases _ _ _ _ _ _ _ hp with ⟨st, t, hst2, hd2, -, -⟩ | ⟨st, es, -, -, -, hc⟩
    · rw [hst] at hst2
      injection hst2 with hst2
      rw [← hst2, hd] at hd2
      cases hd2
    · rw [hc, dirNode_eq]
      refine ⟨hmod _, fun hlt => ?_, rfl⟩
      show sumEntries _ 0 = _
      rw [hmod, Nat.mod_eq_of_lt hlt]

/-- The scenario of the specification as an instance of C1. -/
theorem C1_counts_are_sums_over_children_witness :
    LoadPaths 3 scenarioEnv scenarioPaths 100 0 = some (scenarioRoot, none) ∧
    scenarioRoot.NumEntries = (scenarioRoot.Children.map (·.NumEntries)).sum % 2 ^ 64 ∧
    (scenarioRoot.Children.map (·.NumEntries)).sum < 2 ^ 64 ∧
    scenarioRoot.NumEntries = (scenarioRoot.Children.map (·.NumEntries)).sum ∧
    scenarioRoot.NumFiles = (scenarioRoot.Children.map (·.NumFiles)).sum ∧
    scenarioRoot.Children.length = scenarioPaths.length ∧
    scenarioEnv.Stat "A" = .ok ⟨"A", true⟩ ∧
    scenarioA.NumEntries = (scenarioA.Children.map (·.NumEntries)).sum % 2 ^ 64 ∧
    scenarioA.NumFiles = (scenarioA.Children.map (·.NumFiles)).sum :=
  ⟨by rfl,
    (C1_counts_are_sums_over_children 3 scenarioEnv scenarioPaths 100 0 scenarioRoot
      (by rfl)).1,
    by decide,
    (C1_counts_are_sums_over_children 3 scenarioEnv scenarioPaths 100 0 scenarioRoot
      (by rfl)).2.1 (by decide),
    (C1_counts_are_sums_over_children 3 scenarioEnv scenarioPaths 100 0 scenarioRoot
      (by rfl)).2.2.1,
    (C1_counts_are_sums_over_children 3 scenarioEnv scenarioPaths 100 0 scenarioRoot
      (by rfl)).2.2.2.1,
    by rfl,
    ((C1_counts_are_sums_over_children 3 scenarioEnv scenarioPaths 100 0 scenarioRoot
      (by rfl)).2.2.2.2 (⟨"A", 0⟩, scenarioA) (List.mem_cons_self _ _) ⟨"A", true⟩
      (by rfl) (by rfl)).1,
    ((C1_counts_are_sums_over_children 3 scenarioEnv scenarioPaths 100 0 scenarioRoot
      (by rfl)).2.2.2.2 (⟨"A", 0⟩, scenarioA) (List.mem_cons_self _ _) ⟨"A", true⟩
      (by rfl) (by rfl)).2.2⟩

/-- C2: in every tree `LoadPaths` returns (with or without an error), the node of a requested
file, and every child of the node of a requested directory, has `NumFiles = 1`, `NumEntries`
equal to its own `Table.NumberOfStrings`, and no children; the children of the root are the
nodes of the first requested paths, in order. -/
theorem C2_file_nodes_count_themselves (fuel : Nat) (env : Env)
    (paths : List ProbabilityPath) (shorterThan longerThan : uint32)
    (root : FileSystemNodeDescriptor) (err : Option Error)
    (hload : LoadPaths fuel env paths shorterThan longerThan = some (root, err)) :
    root.Children.length ≤ paths.length ∧
    ∀ pc ∈ paths.zip root.Children, ∀ stat, env.Stat pc.1.Path = .ok stat →
      (stat.IsDir = false →
        pc.2.NumFiles = 1 ∧ pc.2.NumEntries = pc.2.Table.NumberOfStrings.val ∧
          pc.2.Children = []) ∧
      (stat.IsDir = true → ∀ c ∈ pc.2.Children,
        c.NumFiles = 1 ∧ c.NumEntries = c.Table.NumberOfStrings.val ∧ c.Children = []) := by
  refine ⟨children_length_le _ _ _ _ _ _ _ hload, ?_⟩
  intro pc hm stat hst
  rcases child_cases _ _ _ _ _ _ _ hload pc hm with
    ⟨st, t, h1, h2, -, h4⟩ | ⟨st, es, addr, h1, h2, -, h4⟩
  · rw [hst] at h1
    injection h1 with h1
    subst h1
    refine ⟨fun _ => ?_, fun hd => ?_⟩
    · rw [h4]
      exact ⟨rfl, rfl, rfl⟩
    · rw [hd] at h2
      cases h2
  · rw [hst] at h1
    injection h1 with h1
    subst h1
    refine ⟨fun hd => ?_, fun _ c hc => ?_⟩
    · rw [hd] at h2
      cases h2
    · rw [h4, dirNode_eq] at hc
      obtain ⟨node, t, -, -, -, hc2⟩ := mem_dirChildren _ _ _ _ _ _ _ hc
      rw [hc2]
      exact ⟨rfl, rfl, rfl⟩

/-- The scenario of the specification as an instance of C2: the file `b` and the child `A/a1`
of the directory `A`. -/
theorem C2_file_nodes_count_themselves_witness :
    LoadPaths 3 scenarioEnv scenarioPaths 100 0 = some (scenarioRoot, none) ∧
    scenarioRoot.Children.length ≤ scenarioPaths.length ∧
    scenarioEnv.Stat "b" = .ok ⟨"b", false⟩ ∧
    (scenarioB.NumFiles = 1 ∧ scenarioB.NumEntries = scenarioB.Table.NumberOfStrings.val ∧
      scenarioB.Children = []) ∧
    scenarioEnv.Stat "A" = .ok ⟨"A", true⟩ ∧
    (scenarioA1.NumFiles = 1 ∧ scenarioA1.NumEntries = scenarioA1.Table.NumberOfStrings.val ∧
      scenarioA1.Children = []) :=
  ⟨by rfl,
    (C2_file_nodes_count_themselves 3 scenarioEnv scenarioPaths 100 0 scenarioRoot none
      (by rfl)).1,
    by rfl,
    ((C2_file_nodes_count_themselves 3 scenarioEnv scenarioPaths 100 0 scenarioRoot none
      (by rfl)).2 (⟨"b", 0⟩, scenarioB) (List.mem_cons_of_mem _ (List.mem_cons_self _ _))
      ⟨"b", false⟩ (by rfl)).1 (by rfl),
    by rfl,
    ((C2_file_nodes_count_themselves 3 scenarioEnv scenarioPaths 100 0 scenarioRoot none
      (by rfl)).2 (⟨"A", 0⟩, scenarioA) (List.mem_cons_self _ _)
      ⟨"A", true⟩ (by rfl)).2 (by rfl) scenarioA1 (List.mem_cons_self _ _)⟩

/-- C3 (as amended): for a file that exists and has an index of the supported version that
decodes to `T`, `loadFilePath` returns an error, leaving the children of every node as they
were, exactly when `T.LongestLength < longerThan` or `T.ShortestLength > shorterThan`. -/
theorem C3_rejected_iff_thresholds (fuel : Nat) (env : Env) (h : Heap)
    (fsDescriptor parent : Ptr) (shorterThan longerThan : uint32) (T : DataTable)
    (hfile : isFortuneFile env (h.read fsDescriptor).Path = true)
    (hidx : isFortuneIndexFile env ((h.read fsDescriptor).Path ++ ".dat") = true)
    (hT : env.LoadDataTableFromPath ((h.read fsDescriptor).Path ++ ".dat") = .ok T) :
    (∃ h1 err, loadFilePath fuel env h fsDescriptor parent shorterThan longerThan
        = some (h1, some err) ∧ ∀ x, (h1.read x).Children = (h.read x).Children) ↔
      (T.LongestLength < longerThan ∨ T.ShortestLength > shorterThan) := by
  have hck := checkFile_of_decoded env shorterThan longerThan _ T hfile hidx hT
  constructor
  · rintro ⟨h1, err, he, -⟩
    by_contra hcond
    rw [if_neg hcond] at hck
    rw [loadFilePath_of_checkFile_ok _ _ _ _ _ _ _ _ hck] at he
    cases hp : populateFileAmounts fuel _ fsDescriptor T with
    | none => rw [hp] at he; cases he
    | some h4 => rw [hp] at he; cases he
  · intro hcond
    rw [if_pos hcond] at hck
    obtain ⟨h1, he, -, hfr, hself⟩ := loadFilePath_of_checkFile_error env h fsDescriptor
      shorterThan longerThan _ hck
    refine ⟨h1, lengthFilterError, he fuel parent, fun x => ?_⟩
    by_cases hx : x = fsDescriptor
    · subst hx
      rcases hself with e1 | e1 <;> rw [e1]
    · rw [hfr x hx]

/-- C3 (counterexample): the file `b` of the scenario exists, has an index of the supported
version that decodes to a table with lengths 5 to 20, and `LongestLength < shorterThan` holds
for `shorterThan = 100`, `longerThan = 0`; yet `loadFilePath` returns a nil error and appends
the node of `b` to the root. -/
theorem C3_counterexample :
    isFortuneFile scenarioEnv (scenarioHeapB.read 1).Path = true ∧
    isFortuneIndexFile scenarioEnv ((scenarioHeapB.read 1).Path ++ ".dat") = true ∧
    scenarioEnv.LoadDataTableFromPath ((scenarioHeapB.read 1).Path ++ ".dat")
      = .ok scenarioTableB ∧
    (scenarioTableB.LongestLength < (100 : uint32) ∨
      scenarioTableB.ShortestLength > (0 : uint32)) ∧
    (loadFilePath 2 scenarioEnv scenarioHeapB 1 0 100 0).map
      (fun x => (x.2, (x.1.read 0).Children.map (·.Path))) = some (none, ["b"]) := by
  refine ⟨by rfl, by rfl, by rfl, Or.inl (by decide), by rfl⟩

/-- The file `b` of the scenario with `shorterThan = 3`, `longerThan = 0` as an instance of the
amended C3. -/
theorem C3_rejected_iff_thresholds_witness :
    isFortuneFile scenarioEnv (scenarioHeapB.read 1).Path = true ∧
    isFortuneIndexFile scenarioEnv ((scenarioHeapB.read 1).Path ++ ".dat") = true ∧
    scenarioEnv.LoadDataTableFromPath ((scenarioHeapB.read 1).Path ++ ".dat")
      = .ok scenarioTableB ∧
    ((∃ h1 err, loadFilePath 2 scenarioEnv scenarioHeapB 1 0 3 0 = some (h1, some err) ∧
        ∀ x, (h1.read x).Children = (scenarioHeapB.read x).Children) ↔
      (scenarioTableB.LongestLength < (0 : uint32) ∨
        scenarioTableB.ShortestLength > (3 : uint32))) :=
  ⟨by rfl, by rfl, by rfl,
    C3_rejected_iff_thresholds 2 scenarioEnv scenarioHeapB 1 0 3 0 scenarioTableB
      (by rfl) (by rfl) (by rfl)⟩

/-- C4: for a file that exists and has an index of the supported version that decodes to `T`,
`loadFilePath` returns the length-filter error exactly when
`T.LongestLength < longerThan || T.ShortestLength > shorterThan`; and (the parent's chain of
ancestors ending after `d` steps, with fuel for the `d + 2` iterations of the walk) it returns
a nil error, having appended the node of the file to the parent, exactly when
`T.LongestLength >= longerThan` and `T.ShortestLength <= shorterThan`. -/
theorem C4_length_filter_comparison (fuel : Nat) (env : Env) (h : Heap)
    (fsDescriptor parent : Ptr) (shorterThan longerThan : uint32) (T : DataTable)
    (d : Nat) (ps : List Ptr)
    (hfile : isFortuneFile env (h.read fsDescriptor).Path = true)
    (hidx : isFortuneIndexFile env ((h.read fsDescriptor).Path ++ ".dat") = true)
    (hT : env.LoadDataTableFromPath ((h.read fsDescriptor).Path ++ ".dat") = .ok T)
    (hchain : parentChain h d parent = some ps) (hfresh : fsDescriptor ∉ ps)
    (hfuel : d + 2 ≤ fuel) :
    ((∃ h1, loadFilePath fuel env h fsDescriptor parent shorterThan longerThan
        = some (h1, some (Error.New "file do not honor the length filter"))) ↔
      (T.LongestLength < longerThan ∨ T.ShortestLength > shorterThan)) ∧
    ((∃ h1 c, loadFilePath fuel env h fsDescriptor parent shorterThan longerThan
          = some (h1, none) ∧
        (h1.read parent).Children = (h.read parent).Children ++ [c] ∧
        c.Path = (h.read fsDescriptor).Path ∧ c.Table = T) ↔
      (T.LongestLength ≥ longerThan ∧ T.ShortestLength ≤ shorterThan)) := by
  have hck := checkFile_of_decoded env shorterThan longerThan _ T hfile hidx hT
  by_cases hcond : T.LongestLength < longerThan ∨ T.ShortestLength > shorterThan
  · rw [if_pos hcond] at hck
    obtain ⟨h1, he, -⟩ := loadFilePath_of_checkFile_error env h fsDescriptor
      shorterThan longerThan _ hck
    refine ⟨⟨fun _ => hcond, fun _ => ⟨h1, he fuel parent⟩⟩, ⟨?_, ?_⟩⟩
    · rintro ⟨h2, c, he2, -⟩
      rw [he fuel parent] at he2
      cases he2
    · rintro ⟨g1, g2⟩
      rcases hcond with hc | hc
      · exact absurd hc (not_lt.mpr g1)
      · exact absurd hc (not_lt.mpr g2)
  · rw [if_neg hcond] at hck
    obtain ⟨h1, c, he, hch, hpath, -, htab⟩ := loadFilePath_kept fuel env h fsDescriptor parent
      shorterThan longerThan T d ps hck hchain hfresh hfuel
    refine ⟨⟨?_, fun hc => absurd hc hcond⟩, ⟨fun _ => ?_, fun _ => ⟨h1, c, he, hch, hpath, htab⟩⟩⟩
    · rintro ⟨h2, he2⟩
      rw [he] at he2
      cases he2
    · rw [not_or, not_lt, not_lt] at hcond
      exact hcond

/-- The file `b` of the scenario under the root, with `shorterThan = 100`, `longerThan = 0`, as
an instance of C4. -/
theorem C4_length_filter_comparison_witness :
    isFortuneFile scenarioEnv (scenarioHeapB.read 1).Path = true ∧
    isFortuneIndexFile scenarioEnv ((scenarioHeapB.read 1).Path ++ ".dat") = true ∧
    scenarioEnv.LoadDataTableFromPath ((scenarioHeapB.read 1).Path ++ ".dat")
      = .ok scenarioTableB ∧
    parentChain scenarioHeapB 0 0 = some [0] ∧ 1 ∉ [0] ∧ 0 + 2 ≤ 2 ∧
    ((∃ h1, loadFilePath 2 scenarioEnv scenarioHeapB 1 0 100 0
        = some (h1, some (Error.New "file do not honor the length filter"))) ↔
      (scenarioTableB.LongestLength < (0 : uint32) ∨
        scenarioTableB.ShortestLength > (100 : uint32))) ∧
    ((∃ h1 c, loadFilePath 2 scenarioEnv scenarioHeapB 1 0 100 0 = some (h1, none) ∧
        (h1.read 0).Children = (scenarioHeapB.read 0).Children ++ [c] ∧
        c.Path = (scenarioHeapB.read 1).Path ∧ c.Table = scenarioTableB) ↔
      (scenarioTableB.LongestLength ≥ (0 : uint32) ∧
        scenarioTableB.ShortestLength ≤ (100 : uint32))) :=
  ⟨by rfl, by rfl, by rfl, by rfl, by decide, by decide,
    C4_length_filter_comparison 2 scenarioEnv scenarioHeapB 1 0 100 0 scenarioTableB 0 [0]
      (by rfl) (by rfl) (by rfl) (by rfl) (by decide) (by decide)⟩

/-- C5: when `LoadPaths` returns a nil error, the root's `NumFiles` is the number of file
nodes of the returned tree and its `NumEntries` is the sum of their `Table.NumberOfStrings`
as the `uint64` field holds it (the sum modulo `2^64`, hence the sum itself whenever that is
below `2^64`); and in the scenario of the specification (directory `A` with valid
`a1` of 3 entries and `a2` without index, file `b` of 5 entries, `shorterThan = 100`,
`longerThan = 0`) `LoadPaths` returns a nil error, the root has exactly the two children `A`
and `b`, `A` has the single child `A/a1`, and the root has `NumEntries = 8`, `NumFiles = 2`. -/
theorem C5_root_totals_and_scenario :
    (∀ (fuel : Nat) (env : Env) (paths : List ProbabilityPath)
      (shorterThan longerThan : uint32) (root : FileSystemNodeDescriptor),
      LoadPaths fuel env paths shorterThan longerThan = some (root, none) →
        root.NumFiles = ((fileNodesOf env paths root).length : Int) ∧
        root.NumEntries =
          ((fileNodesOf env paths root).map (·.Table.NumberOfStrings.val)).sum % 2 ^ 64 ∧
        (((fileNodesOf env paths root).map (·.Table.NumberOfStrings.val)).sum < 2 ^ 64 →
          root.NumEntries =
            ((fileNodesOf env paths root).map (·.Table.NumberOfStrings.val)).sum)) ∧
    (∀ fuel : Nat, 3 ≤ fuel →
      ∃ root a b a1, LoadPaths fuel scenarioEnv scenarioPaths 100 0 = some (root, none) ∧
        root.Children = [a, b] ∧ a.Path = "A" ∧ b.Path = "b" ∧
        a.Children = [a1] ∧ a1.Path = "A/a1" ∧ b.Children = [] ∧
        root.NumEntries = 8 ∧ root.NumFiles = 2) := by
  constructor
  · intro fuel env paths s l root hload
    suffices hmain : root.NumFiles = ((fileNodesOf env paths root).length : Int) ∧
        root.NumEntries =
          ((fileNodesOf env paths root).map (·.Table.NumberOfStrings.val)).sum % 2 ^ 64 from
      ⟨hmain.1, hmain.2, fun hlt => by rw [hmain.2, Nat.mod_eq_of_lt hlt]⟩
    have hcases := child_cases fuel env paths s l root none hload
    have hlen := children_length_le fuel env paths s l root none hload
    have hx := LoadPaths_some fuel env paths s l _ hload
    have hroot : root = (treeFrom env s l 0 paths 1 rootNode).1 := by rw [← hx]
    have hNF : root.NumFiles = (root.Children.map (·.NumFiles)).sum := by
      rw [hroot, root_eq]
    have hNE : root.NumEntries = (root.Children.map (·.NumEntries)).sum % 2 ^ 64 := by
      rw [hroot, root_eq]
      show sumEntries _ 0 = _
      rw [sumEntries_eq _ 0 (by norm_num), Nat.zero_add]
    have hsnd : root.Children = (paths.zip root.Children).map Prod.snd :=
      (List.map_snd_zip _ _ hlen).symm
    rw [hNF, hNE]
    unfold fileNodesOf
    rw [length_flatMap_int, sum_map_flatMap]
    generalize paths.zip root.Children = L at hcases hsnd
    rw [hsnd, List.map_map, List.map_map]
    constructor
    · congr 1
      apply List.map_congr_left
      intro pc hm
      rcases hcases pc hm with ⟨st, t, h1, h2, -, h4⟩ | ⟨st, es, addr, h1, h2, -, h4⟩
      · simp only [Function.comp, h1, h2, Bool.false_eq_true, if_false, List.length_singleton]
        rw [h4]
        rfl
      · simp only [Function.comp, h1, h2, if_true]
        rw [h4, dirNode_eq]
        exact dirChildren_NumFiles _ _ _ _ _ _
    · apply sum_map_mod_congr
      intro pc hm
      rcases hcases pc hm with ⟨st, t, h1, h2, -, h4⟩ | ⟨st, es, addr, h1, h2, -, h4⟩
      · simp only [Function.comp, h1, h2, Bool.false_eq_true, if_false, List.map_cons,
          List.map_nil, List.sum_cons, List.sum_nil, Nat.add_zero]
        rw [h4]
        rfl
      · simp only [Function.comp, h1, h2, if_true]
        rw [h4, dirNode_eq]
        show sumEntries _ 0 % _ = _
        rw [sumEntries_eq _ 0 (by norm_num), Nat.zero_add, Nat.mod_mod, dirChildren_NumEntries]
  · intro fuel hfuel
    refine ⟨scenarioRoot, scenarioA, scenarioB, scenarioA1, ?_, rfl, rfl, rfl, rfl, rfl, rfl,
      rfl, rfl⟩
    rw [LoadPaths_of_fuel fuel hfuel]
    rfl

/-- The scenario of the specification as an instance of both parts of C5. -/
theorem C5_root_totals_and_scenario_witness :
    LoadPaths 3 scenarioEnv scenarioPaths 100 0 = some (scenarioRoot, none) ∧
    scenarioRoot.NumFiles = ((fileNodesOf scenarioEnv scenarioPaths scenarioRoot).length : Int) ∧
    scenarioRoot.NumEntries =
      ((fileNodesOf scenarioEnv scenarioPaths scenarioRoot).map
        (·.Table.NumberOfStrings.val)).sum % 2 ^ 64 ∧
    ((fileNodesOf scenarioEnv scenarioPaths scenarioRoot).map
        (·.Table.NumberOfStrings.val)).sum < 2 ^ 64 ∧
    scenarioRoot.NumEntries =
      ((fileNodesOf scenarioEnv scenarioPaths scenarioRoot).map
        (·.Table.NumberOfStrings.val)).sum ∧
    3 ≤ 3 ∧
    ∃ root a b a1, LoadPaths 3 scenarioEnv scenarioPaths 100 0 = some (root, none) ∧
      root.Children = [a, b] ∧ a.Path = "A" ∧ b.Path = "b" ∧
      a.Children = [a1] ∧ a1.Path = "A/a1" ∧ b.Children = [] ∧
      root.NumEntries = 8 ∧ root.NumFiles = 2 :=
  ⟨by rfl,
    (C5_root_totals_and_scenario.1 3 scenarioEnv scenarioPaths 100 0 scenarioRoot (by rfl)).1,
    (C5_root_totals_and_scenario.1 3 scenarioEnv scenarioPaths 100 0 scenarioRoot (by rfl)).2.1,
    by decide,
    (C5_root_totals_and_scenario.1 3 scenarioEnv scenarioPaths 100 0 scenarioRoot
      (by rfl)).2.2 (by decide),
    by decide, C5_root_totals_and_scenario.2 3 (by decide)⟩

/-- C6: in every tree `LoadPaths` returns, the node of a requested directory whose enumeration
succeeded has one child per enumerated entry that is not a directory and passes every check of
`loadFilePath`, in enumeration order, with `Path = filepath.Join(directory path, entry name)`
and the table decoded for that entry; so with `N` such entries it has exactly `N` children and
`NumFiles = N`. When the returned error is nil every requested path has its node. -/
theorem C6_directory_children (fuel : Nat) (env : Env) (paths : List ProbabilityPath)
    (shorterThan longerThan : uint32) (root : FileSystemNodeDescriptor) (err : Option Error)
    (hload : LoadPaths fuel env paths shorterThan longerThan = some (root, err)) :
    (err = none → root.Children.length = paths.length) ∧
    ∀ pc ∈ paths.zip root.Children, ∀ stat fsNodes,
      env.Stat pc.1.Path = .ok stat → stat.IsDir = true →
      env.ReadDir pc.1.Path = .ok fsNodes →
        pc.2.Children.map (·.Path)
          = (validEntries env shorterThan longerThan pc.1.Path fsNodes).map
              (fun node => env.Join pc.1.Path node.Name) ∧
        pc.2.Children.map (fun c => Except.ok c.Table)
          = (validEntries env shorterThan longerThan pc.1.Path fsNodes).map
              (fun node => checkFile env shorterThan longerThan (env.Join pc.1.Path node.Name)) ∧
        pc.2.Children.length
          = (validEntries env shorterThan longerThan pc.1.Path fsNodes).length ∧
        pc.2.NumFiles
          = ((validEntries env shorterThan longerThan pc.1.Path fsNodes).length : Int) := by
  constructor
  · intro herr
    subst herr
    have hx := LoadPaths_some fuel env paths shorterThan longerThan _ hload
    have hroot : root = (treeFrom env shorterThan longerThan 0 paths 1 rootNode).1 := by
      rw [← hx]
    have herr : (treeFrom env shorterThan longerThan 0 paths 1 rootNode).2 = none := by
      rw [← hx]
    rw [hroot, root_eq]
    exact loadedNodes_length _ _ _ _ _ _ _ herr
  · intro pc hm stat fsNodes hst hd hrd
    rcases child_cases _ _ _ _ _ _ _ hload pc hm with
      ⟨st, t, h1, h2, -, -⟩ | ⟨st, es, addr, -, -, h3, h4⟩
    · rw [hst] at h1
      injection h1 with h1
      rw [← h1, hd] at h2
      cases h2
    · rw [hrd] at h3
      injection h3 with h3
      subst h3
      have hch : pc.2.Children
          = dirChildren env shorterThan longerThan pc.1.Path addr fsNodes := by
        rw [h4, dirNode_eq]
      have hp := dirChildren_map env shorterThan longerThan pc.1.Path addr (·.Path)
        (fun node => env.Join pc.1.Path node.Name) (fun _ _ _ => rfl) fsNodes
      have ht := dirChildren_map env shorterThan longerThan pc.1.Path addr
        (fun c => (Except.ok c.Table : Except Error DataTable))
        (fun node => checkFile env shorterThan longerThan (env.Join pc.1.Path node.Name))
        (fun _ _ hc => hc.symm) fsNodes
      have hl : (dirChildren env shorterThan longerThan pc.1.Path addr fsNodes).length
          = (validEntries env shorterThan longerThan pc.1.Path fsNodes).length := by
        have := congrArg List.length hp
        simpa using this
      refine ⟨by rw [hch]; exact hp, by rw [hch]; exact ht, by rw [hch]; exact hl, ?_⟩
      rw [h4, dirNode_eq]
      show ((dirChildren env shorterThan longerThan pc.1.Path addr fsNodes).map
        (·.NumFiles)).sum = _
      rw [dirChildren_NumFiles, hl]

/-- The directory `A` of the scenario as an instance of C6: of its entries `a1` and `a2` only
`a1` is valid. -/
theorem C6_directory_children_witness :
    LoadPaths 3 scenarioEnv scenarioPaths 100 0 = some (scenarioRoot, none) ∧
    scenarioRoot.Children.length = scenarioPaths.length ∧
    scenarioEnv.Stat "A" = .ok ⟨"A", true⟩ ∧
    scenarioEnv.ReadDir "A" = .ok [⟨"a1", false⟩, ⟨"a2", false⟩] ∧
    validEntries scenarioEnv 100 0 "A" [⟨"a1", false⟩, ⟨"a2", false⟩] = [⟨"a1", false⟩] ∧
    scenarioA.Children.map (·.Path)
      = (validEntries scenarioEnv 100 0 "A" [⟨"a1", false⟩, ⟨"a2", false⟩]).map
          (fun node => scenarioEnv.Join "A" node.Name) ∧
    scenarioA.Children.map (fun c => Except.ok c.Table)
      = (validEntries scenarioEnv 100 0 "A" [⟨"a1", false⟩, ⟨"a2", false⟩]).map
          (fun node => checkFile scenarioEnv 100 0 (scenarioEnv.Join "A" node.Name)) ∧
    scenarioA.Children.length
      = (validEntries scenarioEnv 100 0 "A" [⟨"a1", false⟩, ⟨"a2", false⟩]).length ∧
    scenarioA.NumFiles
      = ((validEntries scenarioEnv 100 0 "A" [⟨"a1", false⟩, ⟨"a2", false⟩]).length : Int) :=
  ⟨by rfl,
    (C6_directory_children 3 scenarioEnv scenarioPaths 100 0 scenarioRoot none (by rfl)).1 rfl,
    by rfl, by rfl, by rfl,
    (C6_directory_children 3 scenarioEnv scenarioPaths 100 0 scenarioRoot none (by rfl)).2
      (⟨"A", 0⟩, scenarioA) (List.mem_cons_self _ _) ⟨"A", true⟩
      [⟨"a1", false⟩, ⟨"a2", false⟩] (by rfl) (by rfl) (by rfl)⟩

/-- C7 (counterexample): both requested paths exist (`os.Stat` succeeds, neither is a
directory), yet `LoadPaths` returns the error of the first file, which has no index, and the
root has no child: the valid file `b` after it was not loaded. The comment in
`isFortuneIndexFile` ("if the file has not an associated fortune index file it should be
ignored") is what `loadDirPath` does with the entries of a directory, where the error of
`loadFilePath` is dropped (`_ = loadFilePath(...)`, "files that are invalid will be ignored");
for a requested path `loadPath` tests that error and returns it, and the comment on
`ProbabilityPath` asks for fortune files "with a .dat file present". -/
theorem C7_counterexample :
    scenarioEnv.Stat "A/a2" = .ok ⟨"a2", false⟩ ∧ scenarioEnv.Stat "b" = .ok ⟨"b", false⟩ ∧
    (LoadPaths 3 scenarioEnv unindexedFirst 100 0).map
        (fun x => (x.2, x.1.Children.map (·.Path)))
      = some (some (Error.New "file is not a valid fortune index file"), []) ∧
    (LoadPaths 3 scenarioEnv [⟨"b", 0⟩] 100 0).map
        (fun x => (x.2, x.1.Children.map (·.Path))) = some (none, ["b"]) := by
  refine ⟨by rfl, by rfl, by rfl, by rfl⟩

/-- C7 (as amended): `LoadPaths` returns, and its error is nil exactly when every requested
path exists (`os.Stat` succeeds), every requested directory can be enumerated, and every
requested file passes all checks of `loadFilePath`; the root then has one child per requested
path. Otherwise the error of the first requested path that fails is returned unchanged: the
error of `os.Stat`, the error of `ioutil.ReadDir` for a directory, or the error `loadFilePath`
returns for a requested file; the root then has one child per earlier path and none for that
path or a later one. Whether a requested directory loads does not depend on its entries. -/
theorem C7_first_failing_path_is_fatal (fuel : Nat) (hfuel : 3 ≤ fuel) (env : Env)
    (paths : List ProbabilityPath) (shorterThan longerThan : uint32) :
    ∃ root err, LoadPaths fuel env paths shorterThan longerThan = some (root, err) ∧
      (err = none ↔ ∀ p ∈ paths, pathLoads env shorterThan longerThan p = true) ∧
      (err = none → root.Children.length = paths.length) ∧
      ∀ (earlier later : List ProbabilityPath) (path : ProbabilityPath),
        paths = earlier ++ path :: later →
        (∀ p ∈ earlier, pathLoads env shorterThan longerThan p = true) →
        (∀ e, env.Stat path.Path = .error e →
          err = some e ∧ root.Children.length = earlier.length) ∧
        (∀ stat e, env.Stat path.Path = .ok stat → stat.IsDir = true →
          env.ReadDir path.Path = .error e →
          err = some e ∧ root.Children.length = earlier.length) ∧
        (∀ stat e (fuel1 : Nat) (h h1 : Heap) (fsDescriptor parent : Ptr),
          env.Stat path.Path = .ok stat → stat.IsDir = false →
          (h.read fsDescriptor).Path = path.Path →
          loadFilePath fuel1 env h fsDescriptor parent shorterThan longerThan
            = some (h1, some e) →
          err = some e ∧ root.Children.length = earlier.length) := by
  refine ⟨_, _, LoadPaths_of_fuel fuel hfuel env paths shorterThan longerThan, ?_, ?_, ?_⟩
  · exact treeFrom_error_none_iff _ _ _ _ _ _ _
  · intro herr
    rw [root_eq]
    exact loadedNodes_length _ _ _ _ _ _ _ herr
  · intro earlier later path hsplit hearlier
    subst hsplit
    refine ⟨?_, ?_, ?_⟩
    · intro e hst
      apply treeFrom_first_failure env shorterThan longerThan earlier later path e hearlier
      intro addr
      unfold pathNode
      rw [hst]
    · intro stat e hst hd hrd
      apply treeFrom_first_failure env shorterThan longerThan earlier later path e hearlier
      intro addr
      unfold pathNode
      simp only [hst, hd, if_true, hrd]
    · intro stat e fuel1 h h1 p q hst hd hpath hret
      have hc := checkFile_error_of_loadFilePath fuel1 env h h1 p q shorterThan longerThan e hret
      rw [hpath] at hc
      apply treeFrom_first_failure env shorterThan longerThan earlier later path e hearlier
      intro addr
      unfold pathNode
      simp only [hst, hd, Bool.false_eq_true, if_false, hc]

/-- The paths `b`, `A/a2`, `A` in the filesystem of the scenario as an instance of the amended
C7: `b` loads, the requested file `A/a2` has no index, and `LoadPaths` returns the error
`loadFilePath` returns for `A/a2`, with the one child `b`; `A` is not loaded. -/
theorem C7_first_failing_path_is_fatal_witness :
    3 ≤ 3 ∧
    [(⟨"b", 0⟩ : ProbabilityPath), ⟨"A/a2", 0⟩, ⟨"A", 0⟩]
      = [⟨"b", 0⟩] ++ ⟨"A/a2", 0⟩ :: [⟨"A", 0⟩] ∧
    (∀ p ∈ [(⟨"b", 0⟩ : ProbabilityPath)], pathLoads scenarioEnv 100 0 p = true) ∧
    scenarioEnv.Stat "A/a2" = .ok ⟨"a2", false⟩ ∧
    (scenarioHeapA2.read 2).Path = "A/a2" ∧
    loadFilePath 2 scenarioEnv scenarioHeapA2 2 0 100 0
      = some (scenarioHeapA2, some (Error.New "file is not a valid fortune index file")) ∧
    LoadPaths 3 scenarioEnv [⟨"b", 0⟩, ⟨"A/a2", 0⟩, ⟨"A", 0⟩] 100 0
      = some (scenarioRootB, some (Error.New "file is not a valid fortune index file")) ∧
    ∃ root err, LoadPaths 3 scenarioEnv [⟨"b", 0⟩, ⟨"A/a2", 0⟩, ⟨"A", 0⟩] 100 0
        = some (root, err) ∧
      ¬ (err = none) ∧
      err = some (Error.New "file is not a valid fortune index file") ∧
      root.Children.length = [(⟨"b", 0⟩ : ProbabilityPath)].length := by
  have hb : ∀ p ∈ [(⟨"b", 0⟩ : ProbabilityPath)], pathLoads scenarioEnv 100 0 p = true := by
    intro p hp
    rw [List.mem_singleton] at hp
    rw [hp]
    rfl
  obtain ⟨root, err, hload, hnil, -, hfirst⟩ :=
    C7_first_failing_path_is_fatal 3 (by decide) scenarioEnv
      [⟨"b", 0⟩, ⟨"A/a2", 0⟩, ⟨"A", 0⟩] 100 0
  have hfile := (hfirst [⟨"b", 0⟩] [⟨"A", 0⟩] ⟨"A/a2", 0⟩ rfl hb).2.2 ⟨"a2", false⟩
    (Error.New "file is not a valid fortune index file") 2 scenarioHeapA2 scenarioHeapA2 2 0
    (by rfl) (by rfl) (by rfl) (by rfl)
  refine ⟨by decide, by rfl, hb, by rfl, by rfl, by rfl, by rfl, root, err, hload, ?_,
    hfile.1, hfile.2⟩
  intro hnone
  rw [hfile.1] at hnone
  cases hnone

/-- C8: if `LoadPaths` on the paths before `paths[k]` returns a nil error and `os.Stat` fails
with error `e` for `paths[k]`, then `LoadPaths` on the whole list returns exactly `e`, with the
root it returns for the earlier paths alone, whatever the paths after `paths[k]` are; the root
has one child per earlier path and none for `paths[k]` or a later path. -/
theorem C8_stat_error_returned_verbatim (fuel : Nat) (hfuel : 3 ≤ fuel) (env : Env)
    (earlier later : List ProbabilityPath) (path : ProbabilityPath)
    (shorterThan longerThan : uint32) (root : FileSystemNodeDescriptor) (e : Error)
    (hearlier : LoadPaths fuel env earlier shorterThan longerThan = some (root, none))
    (hstat : env.Stat path.Path = .error e) :
    LoadPaths fuel env (earlier ++ path :: later) shorterThan longerThan
      = some (root, some e) ∧
    LoadPaths fuel env (earlier ++ path :: later) shorterThan longerThan
      = LoadPaths fuel env (earlier ++ [path]) shorterThan longerThan ∧
    root.Children.length = earlier.length := by
  have hx := LoadPaths_some fuel env earlier shorterThan longerThan _ hearlier
  have key : ∀ rest, LoadPaths fuel env (earlier ++ path :: rest) shorterThan longerThan
      = some (root, some e) := by
    intro rest
    rw [LoadPaths_of_fuel fuel hfuel, treeFrom_append_ok _ _ _ _ _ _ _ _ _ hx.symm,
      treeFrom_stat_error _ _ _ _ _ _ _ _ e hstat]
  refine ⟨key later, by rw [key later, key []], ?_⟩
  have hroot : root = (treeFrom env shorterThan longerThan 0 earlier 1 rootNode).1 := by
    rw [← hx]
  have herr : (treeFrom env shorterThan longerThan 0 earlier 1 rootNode).2 = none := by
    rw [← hx]
  rw [hroot, root_eq]
  exact loadedNodes_length _ _ _ _ _ _ _ herr

/-- The paths `b`, `missing`, `A` in the filesystem of the scenario as an instance of C8. -/
theorem C8_stat_error_returned_verbatim_witness :
    3 ≤ 3 ∧
    LoadPaths 3 scenarioEnv [⟨"b", 0⟩] 100 0 = some (scenarioRootB, none) ∧
    scenarioEnv.Stat "missing" = .error (Error.foreign 2) ∧
    LoadPaths 3 scenarioEnv ([⟨"b", 0⟩] ++ ⟨"missing", 0⟩ :: [⟨"A", 0⟩]) 100 0
      = some (scenarioRootB, some (Error.foreign 2)) ∧
    LoadPaths 3 scenarioEnv ([⟨"b", 0⟩] ++ ⟨"missing", 0⟩ :: [⟨"A", 0⟩]) 100 0
      = LoadPaths 3 scenarioEnv ([⟨"b", 0⟩] ++ [⟨"missing", 0⟩]) 100 0 ∧
    scenarioRootB.Children.length = [(⟨"b", 0⟩ : ProbabilityPath)].length :=
  ⟨by decide, by rfl, by rfl,
    C8_stat_error_returned_verbatim 3 (by decide) scenarioEnv [⟨"b", 0⟩] [⟨"A", 0⟩]
      ⟨"missing", 0⟩ 100 0 scenarioRootB (Error.foreign 2) (by rfl) (by rfl)⟩

/-- C9: in every tree `LoadPaths` returns, the node of a requested file and every child of the
node of a requested directory satisfies: its quotation file exists, its `IndexPath` is
`Path + ".dat"`, that index file exists, the version decoded from it is `pkg.DefaultVersion`,
and its `Table` is the table `pkg.LoadDataTableFromPath` decodes from `IndexPath`. -/
theorem C9_file_nodes_are_indexed (fuel : Nat) (env : Env) (paths : List ProbabilityPath)
    (shorterThan longerThan : uint32) (root : FileSystemNodeDescriptor) (err : Option Error)
    (hload : LoadPaths fuel env paths shorterThan longerThan = some (root, err)) :
    root.Children.length ≤ paths.length ∧
    ∀ pc ∈ paths.zip root.Children, ∀ stat, env.Stat pc.1.Path = .ok stat →
      (stat.IsDir = false → Indexed env pc.2) ∧
      (stat.IsDir = true → ∀ c ∈ pc.2.Children, Indexed env c) := by
  refine ⟨children_length_le _ _ _ _ _ _ _ hload, ?_⟩
  intro pc hm stat hst
  rcases child_cases _ _ _ _ _ _ _ hload pc hm with
    ⟨st, t, h1, h2, h3, h4⟩ | ⟨st, es, addr, h1, h2, -, h4⟩
  · rw [hst] at h1
    injection h1 with h1
    subst h1
    refine ⟨fun _ => ?_, fun hd => ?_⟩
    · rw [h4]
      exact fileNode_Indexed _ _ _ _ _ _ _ h3
    · rw [hd] at h2
      cases h2
  · rw [hst] at h1
    injection h1 with h1
    subst h1
    refine ⟨fun hd => ?_, fun _ c hc => ?_⟩
    · rw [hd] at h2
      cases h2
    · rw [h4, dirNode_eq] at hc
      obtain ⟨node, t, -, -, hk, hc2⟩ := mem_dirChildren _ _ _ _ _ _ _ hc
      rw [hc2]
      exact fileNode_Indexed _ _ _ _ _ _ _ hk

/-- The scenario of the specification as an instance of C9. -/
theorem C9_file_nodes_are_indexed_witness :
    LoadPaths 3 scenarioEnv scenarioPaths 100 0 = some (scenarioRoot, none) ∧
    scenarioRoot.Children.length ≤ scenarioPaths.length ∧
    scenarioEnv.Stat "b" = .ok ⟨"b", false⟩ ∧ Indexed scenarioEnv scenarioB ∧
    scenarioEnv.Stat "A" = .ok ⟨"A", true⟩ ∧ Indexed scenarioEnv scenarioA1 :=
  ⟨by rfl,
    (C9_file_nodes_are_indexed 3 scenarioEnv scenarioPaths 100 0 scenarioRoot none
      (by rfl)).1,
    by rfl,
    ((C9_file_nodes_are_indexed 3 scenarioEnv scenarioPaths 100 0 scenarioRoot none
      (by rfl)).2 (⟨"b", 0⟩, scenarioB) (List.mem_cons_of_mem _ (List.mem_cons_self _ _))
      ⟨"b", false⟩ (by rfl)).1 (by rfl),
    by rfl,
    ((C9_file_nodes_are_indexed 3 scenarioEnv scenarioPaths 100 0 scenarioRoot none
      (by rfl)).2 (⟨"A", 0⟩, scenarioA) (List.mem_cons_self _ _)
      ⟨"A", true⟩ (by rfl)).2 (by rfl) scenarioA1 (List.mem_cons_self _ _)⟩

/-- C10: whenever `loadFilePath` returns an error, every descriptor variable other than the
one passed as `fsDescriptor` holds the value it held before the call, and no variable at all
has its `Children`, `NumEntries` or `NumFiles` changed: the parent and all its ancestors are as
they were. -/
theorem C10_rejected_file_leaves_no_trace (fuel : Nat) (env : Env) (h h1 : Heap)
    (fsDescriptor parent : Ptr) (shorterThan longerThan : uint32) (err : Error)
    (hret : loadFilePath fuel env h fsDescriptor parent shorterThan longerThan
      = some (h1, some err)) :
    (∀ x, x ≠ fsDescriptor → h1.read x = h.read x) ∧
    (∀ x, (h1.read x).Children = (h.read x).Children ∧
      (h1.read x).NumEntries = (h.read x).NumEntries ∧
      (h1.read x).NumFiles = (h.read x).NumFiles) ∧
    h1.next = h.next := by
  cases hc : checkFile env shorterThan longerThan (h.read fsDescriptor).Path with
  | ok t =>
    rw [loadFilePath_of_checkFile_ok _ _ _ _ _ _ _ _ hc] at hret
    cases hp : populateFileAmounts fuel _ fsDescriptor t with
    | none => rw [hp] at hret; cases hret
    | some h4 => rw [hp] at hret; cases hret
  | error e =>
    obtain ⟨h2, he, hn, hfr, hself⟩ := loadFilePath_of_checkFile_error env h fsDescriptor
      shorterThan longerThan e hc
    rw [he fuel parent] at hret
    have h12 : h2 = h1 := congrArg Prod.fst (Option.some.inj hret)
    subst h12
    refine ⟨hfr, fun x => ?_, hn⟩
    by_cases hx : x = fsDescriptor
    · subst hx
      rcases hself with e1 | e1 <;> rw [e1] <;> exact ⟨rfl, rfl, rfl⟩
    · rw [hfr x hx]
      exact ⟨rfl, rfl, rfl⟩

/-- The file `b` of the scenario rejected by the length filter (`shorterThan = 3`) as an
instance of C10. -/
theorem C10_rejected_file_leaves_no_trace_witness :
    loadFilePath 2 scenarioEnv scenarioHeapB 1 0 3 0
      = some (scenarioHeapBRejected,
          some (Error.New "file do not honor the length filter")) ∧
    (∀ x, x ≠ 1 → scenarioHeapBRejected.read x = scenarioHeapB.read x) ∧
    (∀ x, (scenarioHeapBRejected.read x).Children = (scenarioHeapB.read x).Children ∧
      (scenarioHeapBRejected.read x).NumEntries = (scenarioHeapB.read x).NumEntries ∧
      (scenarioHeapBRejected.read x).NumFiles = (scenarioHeapB.read x).NumFiles) ∧
    scenarioHeapBRejected.next = scenarioHeapB.next :=
  ⟨by rfl,
    C10_rejected_file_leaves_no_trace 2 scenarioEnv scenarioHeapB scenarioHeapBRejected 1 0 3 0
      (Error.New "file do not honor the length filter") (by rfl)⟩

/-- C11: for a requested directory that exists and whose enumeration succeeds, `loadPath`
(called, as by `LoadPaths`, with a parentless parent and fuel for three loop iterations)
returns a nil error whatever the entries are, and has appended the directory's node, whose
children are the nodes of all valid entries in enumeration order: every entry that is not a
directory and passes the checks has its node, wherever invalid entries stand in the
enumeration. -/
theorem C11_entry_failures_not_surfaced (fuel : Nat) (hfuel : 3 ≤ fuel) (env : Env) (h : Heap)
    (path : ProbabilityPath) (parent : Ptr) (shorterThan longerThan : uint32)
    (stat : FileInfo) (fsNodes : List FileInfo)
    (hparent : parent < h.next) (hroot : (h.read parent).Parent = none)
    (hcount : (h.read parent).NumEntries < 2 ^ 64)
    (hstat : env.Stat path.Path = .ok stat) (hdir : stat.IsDir = true)
    (hread : env.ReadDir path.Path = .ok fsNodes) :
    ∃ h1 d, loadPath fuel env h path parent shorterThan longerThan = some (h1, none) ∧
      (h1.read parent).Children = (h.read parent).Children ++ [d] ∧
      d.Path = path.Path ∧
      d.Children.map (·.Path)
        = (validEntries env shorterThan longerThan path.Path fsNodes).map
            (fun node => env.Join path.Path node.Name) ∧
      ∀ node ∈ fsNodes, node.IsDir = false → ∀ t,
        checkFile env shorterThan longerThan (env.Join path.Path node.Name) = .ok t →
        ∃ c ∈ d.Children, c.Path = env.Join path.Path node.Name ∧ c.Table = t := by
  obtain ⟨k, rfl⟩ := Nat.exists_eq_add_of_le hfuel
  rw [Nat.add_comm]
  obtain ⟨h1, e1, -, r1⟩ := loadPath_spec k env h path parent shorterThan longerThan
    hparent hroot hcount
  have hp : pathNode env shorterThan longerThan h.next parent path
      = .ok (dirNode env shorterThan longerThan path.Path path.Percentage h.next parent
          fsNodes) := by
    unfold pathNode
    simp only [hstat, hdir, if_true, hread]
  rw [hp] at e1 r1
  refine ⟨h1, _, e1, by rw [r1]; rfl, by rw [dirNode_eq]; rfl, ?_, ?_⟩
  · rw [dirNode_eq]
    exact dirChildren_map env shorterThan longerThan path.Path h.next (·.Path)
      (fun node => env.Join path.Path node.Name) (fun _ _ _ => rfl) fsNodes
  · intro node hn hd t hc
    refine ⟨fileNode (env.Join path.Path node.Name) 0 h.next t, ?_, rfl, rfl⟩
    rw [dirNode_eq]
    exact mem_dirChildren_of env shorterThan longerThan path.Path h.next fsNodes node t hn hd hc

/-- The directory `A` of the scenario, loaded into the initial heap, as an instance of C11:
its invalid entry `a2` raises no error. -/
theorem C11_entry_failures_not_surfaced_witness :
    3 ≤ 3 ∧ 0 < initialHeap.next ∧ (initialHeap.read 0).Parent = none ∧
    (initialHeap.read 0).NumEntries < 2 ^ 64 ∧
    scenarioEnv.Stat "A" = .ok ⟨"A", true⟩ ∧
    scenarioEnv.ReadDir "A" = .ok [⟨"a1", false⟩, ⟨"a2", false⟩] ∧
    ∃ h1 d, loadPath 3 scenarioEnv initialHeap ⟨"A", 0⟩ 0 100 0 = some (h1, none) ∧
      (h1.read 0).Children = (initialHeap.read 0).Children ++ [d] ∧
      d.Path = "A" ∧
      d.Children.map (·.Path)
        = (validEntries scenarioEnv 100 0 "A" [⟨"a1", false⟩, ⟨"a2", false⟩]).map
            (fun node => scenarioEnv.Join "A" node.Name) ∧
      ∀ node ∈ [(⟨"a1", false⟩ : FileInfo), ⟨"a2", false⟩], node.IsDir = false → ∀ t,
        checkFile scenarioEnv 100 0 (scenarioEnv.Join "A" node.Name) = .ok t →
        ∃ c ∈ d.Children, c.Path = scenarioEnv.Join "A" node.Name ∧ c.Table = t :=
  ⟨by decide, by decide, by rfl, by decide, by rfl, by rfl,
    C11_entry_failures_not_surfaced 3 (by decide) scenarioEnv initialHeap ⟨"A", 0⟩ 0 100 0
      ⟨"A", true⟩ [⟨"a1", false⟩, ⟨"a2", false⟩] (by decide) (by rfl) (by decide)
      (by rfl) (by rfl) (by rfl)⟩

/-- C12: when `LoadPaths` returns a nil error, the root has exactly `len(paths)` children and
the `i`-th child has the `Path` and the `Percent` (the same `float32` value) of `paths[i]`; if
`paths[i]` is a directory none of whose enumerated entries is valid, that child has no
children, `NumEntries = 0` and `NumFiles = 0`. -/
theorem C12_one_child_per_path (fuel : Nat) (env : Env) (paths : List ProbabilityPath)
    (shorterThan longerThan : uint32) (root : FileSystemNodeDescriptor)
    (hload : LoadPaths fuel env paths shorterThan longerThan = some (root, none)) :
    root.Children.length = paths.length ∧
    ∀ (i : Nat) (path : ProbabilityPath), paths[i]? = some path →
      ∃ c : FileSystemNodeDescriptor,
        root.Children[i]? = some c ∧ c.Path = path.Path ∧ c.Percent = path.Percentage ∧
        ∀ stat fsNodes, env.Stat path.Path = .ok stat → stat.IsDir = true →
          env.ReadDir path.Path = .ok fsNodes →
          validEntries env shorterThan longerThan path.Path fsNodes = [] →
          c.Children = [] ∧ c.NumEntries = 0 ∧ c.NumFiles = 0 := by
  have hx := LoadPaths_some fuel env paths shorterThan longerThan _ hload
  have hroot : root = (treeFrom env shorterThan longerThan 0 paths 1 rootNode).1 := by
    rw [← hx]
  have herr : (treeFrom env shorterThan longerThan 0 paths 1 rootNode).2 = none := by
    rw [← hx]
  rw [root_eq] at hroot
  subst hroot
  refine ⟨loadedNodes_length _ _ _ _ _ _ _ herr, ?_⟩
  intro i path hi
  obtain ⟨addr, c, hc, hp⟩ := loadedNodes_getElem _ _ _ _ _ _ _ herr i path hi
  refine ⟨c, hc, ?_⟩
  rcases pathNode_cases _ _ _ _ _ _ _ hp with ⟨st, t, h1, h2, -, h4⟩ | ⟨st, es, h1, h2, h3, h4⟩
  · refine ⟨by rw [h4]; rfl, by rw [h4]; rfl, ?_⟩
    intro stat fsNodes hst hd
    rw [hst] at h1
    injection h1 with h1
    rw [← h1, hd] at h2
    cases h2
  · refine ⟨by rw [h4, dirNode_eq]; rfl, by rw [h4, dirNode_eq]; rfl, ?_⟩
    intro stat fsNodes hst hd hrd hvalid
    rw [hrd] at h3
    injection h3 with h3
    subst h3
    have hl := dirChildren_map env shorterThan longerThan path.Path addr (·.Path)
      (fun node => env.Join path.Path node.Name) (fun _ _ _ => rfl) fsNodes
    rw [hvalid, List.map_nil, List.map_eq_nil_iff] at hl
    rw [h4, dirNode_eq, hl]
    exact ⟨rfl, rfl, rfl⟩

/-- The directory `A` of the scenario with `shorterThan = 0`, under which neither of its
entries is valid, as an instance of C12. -/
theorem C12_one_child_per_path_witness :
    LoadPaths 3 scenarioEnv [⟨"A", 0⟩] 0 0 = some (scenarioRootAEmpty, none) ∧
    scenarioRootAEmpty.Children.length = [(⟨"A", 0⟩ : ProbabilityPath)].length ∧
    [(⟨"A", 0⟩ : ProbabilityPath)][0]? = some ⟨"A", 0⟩ ∧
    scenarioRootAEmpty.Children[0]? = some scenarioAEmpty ∧
    scenarioAEmpty.Path = "A" ∧ scenarioAEmpty.Percent = 0 ∧
    scenarioEnv.Stat "A" = .ok ⟨"A", true⟩ ∧
    scenarioEnv.ReadDir "A" = .ok [⟨"a1", false⟩, ⟨"a2", false⟩] ∧
    validEntries scenarioEnv 0 0 "A" [⟨"a1", false⟩, ⟨"a2", false⟩] = [] ∧
    scenarioAEmpty.Children = [] ∧ scenarioAEmpty.NumEntries = 0 ∧
    scenarioAEmpty.NumFiles = 0 := by
  obtain ⟨c, hc, hp, hq, hz⟩ :=
    (C12_one_child_per_path 3 scenarioEnv [⟨"A", 0⟩] 0 0 scenarioRootAEmpty (by rfl)).2
      0 ⟨"A", 0⟩ (by rfl)
  have hc1 : some scenarioAEmpty = some c := hc
  have hc2 : c = scenarioAEmpty := (Option.some.inj hc1).symm
  subst hc2
  exact ⟨by rfl,
    (C12_one_child_per_path 3 scenarioEnv [⟨"A", 0⟩] 0 0 scenarioRootAEmpty (by rfl)).1,
    by rfl, by rfl, hp, hq, by rfl, by rfl, by rfl,
    hz ⟨"A", true⟩ [⟨"a1", false⟩, ⟨"a2", false⟩] (by rfl) (by rfl) (by rfl) (by rfl)⟩

/-- C13: an enumerated entry that is a directory is skipped by the loop of `loadDirPath`
without touching any descriptor, so the node of a requested directory has the children and
the `NumFiles` it would have with the sub-directories removed from the enumeration; and in
every tree `LoadPaths` returns no grandchild of the root has children (height at most 2):
every child of the root is the node of a requested file, without children, or the node of a
requested directory, all of whose children are file nodes without children. -/
theorem C13_subdirectories_ignored :
    (∀ (fuel : Nat) (env : Env) (fsDescriptor : Ptr) (shorterThan longerThan : uint32)
      (node : FileInfo) (rest : List FileInfo) (h : Heap), node.IsDir = true →
      loadDirEntries fuel env fsDescriptor shorterThan longerThan (node :: rest) h
        = loadDirEntries fuel env fsDescriptor shorterThan longerThan rest h) ∧
    (∀ (fuel : Nat) (env : Env) (paths : List ProbabilityPath)
      (shorterThan longerThan : uint32) (root : FileSystemNodeDescriptor)
      (err : Option Error),
      LoadPaths fuel env paths shorterThan longerThan = some (root, err) →
        (∀ c ∈ root.Children, ∀ g ∈ c.Children, g.Children = []) ∧
        root.Children.length ≤ paths.length ∧
        ∀ pc ∈ paths.zip root.Children,
          (∃ stat, env.Stat pc.1.Path = .ok stat ∧ stat.IsDir = false ∧
            pc.2.IndexPath = pc.2.Path ++ ".dat" ∧ pc.2.Children = []) ∨
          (∃ stat fsNodes, env.Stat pc.1.Path = .ok stat ∧ stat.IsDir = true ∧
            env.ReadDir pc.1.Path = .ok fsNodes ∧ pc.2.IndexPath = "" ∧
            (∀ g ∈ pc.2.Children, g.IndexPath = g.Path ++ ".dat" ∧ g.Children = []) ∧
            pc.2.Children.map (·.Path)
              = (validEntries env shorterThan longerThan pc.1.Path
                  (fsNodes.filter fun node => !node.IsDir)).map
                  (fun node => env.Join pc.1.Path node.Name) ∧
            pc.2.NumFiles
              = ((validEntries env shorterThan longerThan pc.1.Path
                  (fsNodes.filter fun node => !node.IsDir)).length : Int))) := by
  constructor
  · intro fuel env p s l node rest h hd
    rw [loadDirEntries]
    simp only [hd, Bool.not_true, Bool.false_eq_true, if_false]
  · intro fuel env paths s l root err hload
    refine ⟨?_, children_length_le _ _ _ _ _ _ _ hload, ?_⟩
    · intro c hc g hg
      have hx := LoadPaths_some fuel env paths s l _ hload
      have hroot : root = (treeFrom env s l 0 paths 1 rootNode).1 := by rw [← hx]
      rw [root_eq] at hroot
      subst hroot
      obtain ⟨addr, path, -, hp⟩ := loadedNodes_mem _ _ _ _ _ _ c hc
      rcases pathNode_cases _ _ _ _ _ _ _ hp with ⟨st, t, -, -, -, h4⟩ | ⟨st, es, -, -, -, h4⟩
      · rw [h4] at hg
        simp [fileNode, FileSystemNodeDescriptor.zero] at hg
      · rw [h4, dirNode_eq] at hg
        obtain ⟨node, t, -, -, -, hg2⟩ := mem_dirChildren _ _ _ _ _ _ _ hg
        rw [hg2]
        rfl
    · intro pc hm
      rcases child_cases _ _ _ _ _ _ _ hload pc hm with
        ⟨st, t, h1, h2, -, h4⟩ | ⟨st, es, addr, h1, h2, h3, h4⟩
      · exact Or.inl ⟨st, h1, h2, by rw [h4]; rfl, by rw [h4]; rfl⟩
      · refine Or.inr ⟨st, es, h1, h2, h3, by rw [h4, dirNode_eq]; rfl, ?_, ?_, ?_⟩
        · intro g hg
          rw [h4, dirNode_eq] at hg
          obtain ⟨node, t, -, -, -, hg2⟩ := mem_dirChildren _ _ _ _ _ _ _ hg
          rw [hg2]
          exact ⟨rfl, rfl⟩
        · rw [validEntries_filter, h4, dirNode_eq]
          exact dirChildren_map env s l pc.1.Path addr (·.Path)
            (fun node => env.Join pc.1.Path node.Name) (fun _ _ _ => rfl) es
        · rw [validEntries_filter, h4, dirNode_eq]
          show ((dirChildren env s l pc.1.Path addr es).map (·.NumFiles)).sum = _
          rw [dirChildren_NumFiles]
          have hl := congrArg List.length (dirChildren_map env s l pc.1.Path addr (·.Path)
            (fun node => env.Join pc.1.Path node.Name) (fun _ _ _ => rfl) es)
          simp only [List.length_map] at hl
          rw [hl]

/-- The sub-directory `sub` of `D` as an instance of C13. -/
theorem C13_subdirectories_ignored_witness :
    (⟨"sub", true⟩ : FileInfo).IsDir = true ∧
    loadDirEntries 3 nestedEnv 1 100 0 [⟨"sub", true⟩, ⟨"f", false⟩] nestedHeap
      = loadDirEntries 3 nestedEnv 1 100 0 [⟨"f", false⟩] nestedHeap ∧
    LoadPaths 3 nestedEnv [⟨"D", 0⟩] 100 0 = some (nestedRoot, none) ∧
    (∀ c ∈ nestedRoot.Children, ∀ g ∈ c.Children, g.Children = []) ∧
    nestedRoot.Children.length ≤ [(⟨"D", 0⟩ : ProbabilityPath)].length ∧
    nestedRoot.Children.map (·.Path) = ["D"] ∧
    nestedD.Children.map (·.Path) = ["D/f"] :=
  ⟨by rfl,
    C13_subdirectories_ignored.1 3 nestedEnv 1 100 0 ⟨"sub", true⟩ [⟨"f", false⟩] nestedHeap
      (by rfl),
    by rfl,
    (C13_subdirectories_ignored.2 3 nestedEnv [⟨"D", 0⟩] 100 0 nestedRoot none (by rfl)).1,
    (C13_subdirectories_ignored.2 3 nestedEnv [⟨"D", 0⟩] 100 0 nestedRoot none (by rfl)).2.1,
    by rfl, by rfl⟩

/-- C14 (counterexample): with `shorterThan = 0` and `longerThan = 0` the file `b` of the
scenario, which exists and has an index of the supported version that decodes (lengths 5 to
20), is rejected by the length filter. -/
theorem C14_counterexample :
    isFortuneFile scenarioEnv (scenarioHeapB.read 1).Path = true ∧
    isFortuneIndexFile scenarioEnv ((scenarioHeapB.read 1).Path ++ ".dat") = true ∧
    scenarioEnv.LoadDataTableFromPath ((scenarioHeapB.read 1).Path ++ ".dat")
      = .ok scenarioTableB ∧
    (loadFilePath 2 scenarioEnv scenarioHeapB 1 0 0 0).map
        (fun x => (x.2, (x.1.read 0).Children.map (·.Path)))
      = some (some (Error.New "file do not honor the length filter"), []) ∧
    (LoadPaths 3 scenarioEnv [⟨"b", 0⟩] 0 0).map (fun x => (x.2, x.1.Children.map (·.Path)))
      = some (some (Error.New "file do not honor the length filter"), []) := by
  refine ⟨by rfl, by rfl, by rfl, by rfl, by rfl⟩

/-- C14 (as amended): for a file that exists and has an index of the supported version that
decodes to `T`: with `longerThan = 0` the longest quotation length plays no role, the file is
rejected exactly when `T.ShortestLength > shorterThan`; `shorterThan = 0` does not disable the
other side, so with `shorterThan = 0` and `longerThan = 0` the file is rejected exactly when
`T.ShortestLength > 0`. -/
theorem C14_zero_thresholds (fuel : Nat) (env : Env) (h : Heap)
    (fsDescriptor parent : Ptr) (shorterThan : uint32) (T : DataTable)
    (hfile : isFortuneFile env (h.read fsDescriptor).Path = true)
    (hidx : isFortuneIndexFile env ((h.read fsDescriptor).Path ++ ".dat") = true)
    (hT : env.LoadDataTableFromPath ((h.read fsDescriptor).Path ++ ".dat") = .ok T) :
    ((∃ h1 err, loadFilePath fuel env h fsDescriptor parent shorterThan 0
        = some (h1, some err)) ↔ T.ShortestLength > shorterThan) ∧
    ((∃ h1 err, loadFilePath fuel env h fsDescriptor parent 0 0
        = some (h1, some err)) ↔ T.ShortestLength > 0) := by
  have hzero : ¬ T.LongestLength < (0 : uint32) := Fin.not_lt_zero _
  constructor
  · rw [loadFilePath_error_iff fuel env h fsDescriptor parent shorterThan 0 T hfile hidx hT]
    exact ⟨fun hc => hc.resolve_left hzero, Or.inr⟩
  · rw [loadFilePath_error_iff fuel env h fsDescriptor parent 0 0 T hfile hidx hT]
    exact ⟨fun hc => hc.resolve_left hzero, Or.inr⟩

/-- The file `b` of the scenario as an instance of the amended C14. -/
theorem C14_zero_thresholds_witness :
    isFortuneFile scenarioEnv (scenarioHeapB.read 1).Path = true ∧
    isFortuneIndexFile scenarioEnv ((scenarioHeapB.read 1).Path ++ ".dat") = true ∧
    scenarioEnv.LoadDataTableFromPath ((scenarioHeapB.read 1).Path ++ ".dat")
      = .ok scenarioTableB ∧
    ((∃ h1 err, loadFilePath 2 scenarioEnv scenarioHeapB 1 0 100 0 = some (h1, some err)) ↔
      scenarioTableB.ShortestLength > (100 : uint32)) ∧
    ((∃ h1 err, loadFilePath 2 scenarioEnv scenarioHeapB 1 0 0 0 = some (h1, some err)) ↔
      scenarioTableB.ShortestLength > (0 : uint32)) :=
  ⟨by rfl, by rfl, by rfl,
    C14_zero_thresholds 2 scenarioEnv scenarioHeapB 1 0 100 scenarioTableB
      (by rfl) (by rfl) (by rfl)⟩

/-- C15: `LoadPaths` returns for every input (with fuel for three loop iterations), and
whatever it returns, with or without an error, is a root with `Percent = 100`, empty `Path`,
nil `Parent`, empty `IndexPath` and the zero `Table`. -/
theorem C15_root_fields :
    (∀ (fuel : Nat) (env : Env) (paths : List ProbabilityPath)
      (shorterThan longerThan : uint32), 3 ≤ fuel →
      ∃ root err, LoadPaths fuel env paths shorterThan longerThan = some (root, err)) ∧
    (∀ (fuel : Nat) (env : Env) (paths : List ProbabilityPath)
      (shorterThan longerThan : uint32) (root : FileSystemNodeDescriptor)
      (err : Option Error),
      LoadPaths fuel env paths shorterThan longerThan = some (root, err) →
        root.Percent = float32_100 ∧ root.Path = "" ∧ root.Parent = none ∧
        root.IndexPath = "" ∧ root.Table = DataTable.zero) := by
  constructor
  · intro fuel env paths s l hfuel
    exact ⟨_, _, LoadPaths_of_fuel fuel hfuel env paths s l⟩
  · intro fuel env paths s l root err hload
    have hx := LoadPaths_some fuel env paths s l _ hload
    have hroot : root = (treeFrom env s l 0 paths 1 rootNode).1 := by rw [← hx]
    rw [root_eq] at hroot
    subst hroot
    exact ⟨rfl, rfl, rfl, rfl, rfl⟩

/-- The scenario of the specification, and a load that fails on a missing path, as instances
of C15. -/
theorem C15_root_fields_witness :
    3 ≤ 3 ∧
    (∃ root err, LoadPaths 3 scenarioEnv scenarioPaths 100 0 = some (root, err)) ∧
    LoadPaths 3 scenarioEnv [⟨"b", 0⟩, ⟨"missing", 0⟩] 100 0
      = some (scenarioRootB, some (Error.foreign 2)) ∧
    (scenarioRootB.Percent = float32_100 ∧ scenarioRootB.Path = "" ∧
      scenarioRootB.Parent = none ∧ scenarioRootB.IndexPath = "" ∧
      scenarioRootB.Table = DataTable.zero) :=
  ⟨by decide, C15_root_fields.1 3 scenarioEnv scenarioPaths 100 0 (by decide), by rfl,
    C15_root_fields.2 3 scenarioEnv [⟨"b", 0⟩, ⟨"missing", 0⟩] 100 0 scenarioRootB
      (some (Error.foreign 2)) (by rfl)⟩

/-- C16: what `LoadPaths` returns does not depend on anything but its arguments and the
filesystem: any two calls that return (whatever their fuel) return the same error and the
same tree; and when the two calls have their variables at other addresses (the loop run in
any two heaps whose root variables hold the initial root), they return the same error and
trees that differ at most in `Parent` addresses: same shape, paths, percents, tables and
counts. -/
theorem C16_load_is_deterministic :
    (∀ (fuel1 fuel2 : Nat) (env : Env) (paths : List ProbabilityPath)
      (shorterThan longerThan : uint32) (x1 x2 : FileSystemNodeDescriptor × Option Error),
      LoadPaths fuel1 env paths shorterThan longerThan = some x1 →
      LoadPaths fuel2 env paths shorterThan longerThan = some x2 → x1 = x2) ∧
    (∀ (fuel1 fuel2 : Nat) (env : Env) (paths : List ProbabilityPath)
      (shorterThan longerThan : uint32) (h1 h2 : Heap) (root1 root2 : Ptr),
      3 ≤ fuel1 → 3 ≤ fuel2 →
      root1 < h1.next → h1.read root1 = rootNode →
      root2 < h2.next → h2.read root2 = rootNode →
      ∃ g1 g2 err,
        loadPathsFrom fuel1 env root1 shorterThan longerThan paths h1 = some (g1, err) ∧
        loadPathsFrom fuel2 env root2 shorterThan longerThan paths h2 = some (g2, err) ∧
        forgetParents (g1.read root1) = forgetParents (g2.read root2)) := by
  constructor
  · intro fuel1 fuel2 env paths s l x1 x2 e1 e2
    rw [LoadPaths_some _ _ _ _ _ _ e1, LoadPaths_some _ _ _ _ _ _ e2]
  · intro fuel1 fuel2 env paths s l h1 h2 r1 r2 hf1 hf2 hr1 hv1 hr2 hv2
    obtain ⟨k1, rfl⟩ := Nat.exists_eq_add_of_le hf1
    obtain ⟨k2, rfl⟩ := Nat.exists_eq_add_of_le hf2
    rw [Nat.add_comm 3 k1, Nat.add_comm 3 k2]
    have hz : rootNode.NumEntries < 2 ^ 64 := by
      show (0 : Nat) < 2 ^ 64
      norm_num
    obtain ⟨g1, e1, v1⟩ := loadPathsFrom_spec k1 env r1 s l paths h1 hr1
      (by rw [hv1]; rfl) (by rw [hv1]; exact hz)
    obtain ⟨g2, e2, v2⟩ := loadPathsFrom_spec k2 env r2 s l paths h2 hr2
      (by rw [hv2]; rfl) (by rw [hv2]; exact hz)
    rw [hv1] at e1 v1
    rw [hv2] at e2 v2
    obtain ⟨t1, t2⟩ := treeFrom_forgetParents env s l r1 r2 paths h1.next h2.next
      rootNode rootNode rfl
    refine ⟨g1, g2, _, e1, ?_, ?_⟩
    · rw [e2, t1]
    · rw [v1, v2, t2]

/-- The scenario of the specification, loaded twice, as an instance of C16: with fuel 3 and
with fuel 5, and with the root variable at address 0 and at address 2. -/
theorem C16_load_is_deterministic_witness :
    LoadPaths 3 scenarioEnv scenarioPaths 100 0 = some (scenarioRoot, none) ∧
    LoadPaths 5 scenarioEnv scenarioPaths 100 0 = some (scenarioRoot, none) ∧
    ((scenarioRoot, none) : FileSystemNodeDescriptor × Option Error) = (scenarioRoot, none) ∧
    3 ≤ 3 ∧ 3 ≤ 5 ∧
    0 < initialHeap.next ∧ initialHeap.read 0 = rootNode ∧
    2 < shiftedHeap.next ∧ shiftedHeap.read 2 = rootNode ∧
    ∃ g1 g2 err,
      loadPathsFrom 3 scenarioEnv 0 100 0 scenarioPaths initialHeap = some (g1, err) ∧
      loadPathsFrom 5 scenarioEnv 2 100 0 scenarioPaths shiftedHeap = some (g2, err) ∧
      forgetParents (g1.read 0) = forgetParents (g2.read 2) :=
  ⟨by rfl, by rfl,
    C16_load_is_deterministic.1 3 5 scenarioEnv scenarioPaths 100 0 (scenarioRoot, none)
      (scenarioRoot, none) (by rfl) (by rfl),
    by decide, by decide, by decide, by rfl, by decide, by rfl,
    C16_load_is_deterministic.2 3 5 scenarioEnv scenarioPaths 100 0 initialHeap shiftedHeap
      0 2 (by decide) (by decide) (by decide) (by rfl) (by decide) (by rfl)⟩

/-- C17: if `LoadPaths` on the paths before `paths[k]` returns a nil error and `loadPath`
fails on `paths[k]` with error `e` (`LoadPaths` on the paths up to `paths[k]` returns `e`),
then `LoadPaths` on the whole list returns `e` together with exactly the tree the successful
call on the earlier paths returns: same children, same subtrees, same `NumEntries` and
`NumFiles`; it has one child per earlier path, none for `paths[k]` or a later path. -/
theorem C17_partial_tree_is_load_of_earlier (fuel : Nat) (hfuel : 3 ≤ fuel) (env : Env)
    (earlier later : List ProbabilityPath) (path : ProbabilityPath)
    (shorterThan longerThan : uint32) (root rootFailed : FileSystemNodeDescriptor) (e : Error)
    (hearlier : LoadPaths fuel env earlier shorterThan longerThan = some (root, none))
    (hfail : LoadPaths fuel env (earlier ++ [path]) shorterThan longerThan
      = some (rootFailed, some e)) :
    LoadPaths fuel env (earlier ++ path :: later) shorterThan longerThan
      = some (root, some e) ∧
    rootFailed = root ∧
    root.Children.length = earlier.length := by
  have hx := (LoadPaths_some fuel env earlier shorterThan longerThan _ hearlier).symm
  have hy := (LoadPaths_some fuel env _ shorterThan longerThan _ hfail).symm
  rw [treeFrom_append_ok _ _ _ _ _ _ _ _ _ hx] at hy
  have hlen : root.Children.length = earlier.length := by
    have hroot : root = (treeFrom env shorterThan longerThan 0 earlier 1 rootNode).1 := by
      rw [hx]
    have herr : (treeFrom env shorterThan longerThan 0 earlier 1 rootNode).2 = none := by
      rw [hx]
    rw [hroot, root_eq]
    exact loadedNodes_length _ _ _ _ _ _ _ herr
  cases hp : pathNode env shorterThan longerThan (1 + pathsCells env earlier) 0 path with
  | ok c =>
    rw [treeFrom_cons_ok _ _ _ _ _ _ _ _ _ hp] at hy
    simp [treeFrom] at hy
  | error e1 =>
    rw [treeFrom_cons_error _ _ _ _ _ _ _ _ _ hp] at hy
    have h1 : root = rootFailed := congrArg Prod.fst hy
    have h2 : some e1 = some e := congrArg Prod.snd hy
    have h3 : e1 = e := Option.some.inj h2
    subst h3
    refine ⟨?_, h1.symm, hlen⟩
    rw [LoadPaths_of_fuel fuel hfuel, treeFrom_append_ok _ _ _ _ _ _ _ _ _ hx,
      treeFrom_cons_error _ _ _ _ _ _ _ _ _ hp]

/-- The paths `b`, `A/a2`, `A` in the filesystem of the scenario as an instance of C17: the
load fails on the file `A/a2`, which has no index. -/
theorem C17_partial_tree_is_load_of_earlier_witness :
    3 ≤ 3 ∧
    LoadPaths 3 scenarioEnv [⟨"b", 0⟩] 100 0 = some (scenarioRootB, none) ∧
    LoadPaths 3 scenarioEnv ([⟨"b", 0⟩] ++ [⟨"A/a2", 0⟩]) 100 0
      = some (scenarioRootB, some (Error.New "file is not a valid fortune index file")) ∧
    LoadPaths 3 scenarioEnv ([⟨"b", 0⟩] ++ ⟨"A/a2", 0⟩ :: [⟨"A", 0⟩]) 100 0
      = some (scenarioRootB, some (Error.New "file is not a valid fortune index file")) ∧
    scenarioRootB = scenarioRootB ∧
    scenarioRootB.Children.length = [(⟨"b", 0⟩ : ProbabilityPath)].length :=
  ⟨by decide, by rfl, by rfl,
    C17_partial_tree_is_load_of_earlier 3 (by decide) scenarioEnv [⟨"b", 0⟩] [⟨"A", 0⟩]
      ⟨"A/a2", 0⟩ 100 0 scenarioRootB scenarioRootB
      (Error.New "file is not a valid fortune index file") (by rfl) (by rfl)⟩

/-- C18: if following `Parent` from a node reaches a parentless node after `d` steps (the
chain then has `d + 1` pairwise distinct nodes), `populateFileAmounts` ends after exactly
`d + 1` iterations (not within `d`, and within any fuel of at least `d + 1`); it has then
added `table.NumberOfStrings` to `NumEntries` (in `uint64`) of each node of the chain, once,
changed no field of these nodes other than `NumEntries` and `NumFiles`, and changed no other
node; and it has added 1 to the `NumFiles` of each node of the chain whose `NumFiles` was
below the largest `int` (where `NumFiles++` does not wrap), which then is at most the largest
`int`. In `LoadPaths`: every walk
has `d ≥ 1` (with fuel 1 a kept file never returns) and `d ≤ 2` (with fuel 3 `LoadPaths`
always returns); for a requested file `d = 1` (fuel 2 suffices), for a file of a requested
directory `d = 2` (fuel 2 does not suffice, fuel 3 does). -/
theorem C18_walk_to_the_root :
    (∀ (h : Heap) (d : Nat) (current : Ptr) (chain : List Ptr) (table : DataTable),
      parentChain h d current = some chain →
        chain.length = d + 1 ∧ chain.Nodup ∧
        (∀ fuel, fuel ≤ d → populateFileAmounts fuel h current table = none) ∧
        ∃ h1, (∀ fuel, d + 1 ≤ fuel → populateFileAmounts fuel h current table = some h1) ∧
          h1.next = h.next ∧
          (∀ x ∈ chain,
            { h1.read x with NumFiles := (h.read x).NumFiles } =
              { h.read x with
                NumEntries := ((h.read x).NumEntries + table.NumberOfStrings.val) % 2 ^ 64 } ∧
            ((h.read x).NumFiles < maxInt →
              (h1.read x).NumFiles = (h.read x).NumFiles + 1 ∧
              (h1.read x).NumFiles ≤ maxInt)) ∧
          (∀ x, x ∉ chain → h1.read x = h.read x)) ∧
    (∀ (env : Env) (h : Heap) (fsDescriptor parent : Ptr) (shorterThan longerThan : uint32)
      (table : DataTable),
      checkFile env shorterThan longerThan (h.read fsDescriptor).Path = .ok table →
        loadFilePath 1 env h fsDescriptor parent shorterThan longerThan = none) ∧
    (∀ (env : Env) (paths : List ProbabilityPath) (shorterThan longerThan : uint32),
      ∃ x, LoadPaths 3 env paths shorterThan longerThan = some x) ∧
    (∀ (env : Env) (h : Heap) (fsDescriptor root : Ptr) (shorterThan longerThan : uint32)
      (table : DataTable),
      checkFile env shorterThan longerThan (h.read fsDescriptor).Path = .ok table →
      fsDescriptor ≠ root → (h.read root).Parent = none →
        ∃ h1, loadFilePath 2 env h fsDescriptor root shorterThan longerThan
          = some (h1, none)) ∧
    (∀ (env : Env) (h : Heap) (child dir root : Ptr) (shorterThan longerThan : uint32)
      (table : DataTable),
      checkFile env shorterThan longerThan (h.read child).Path = .ok table →
      child ≠ dir → child ≠ root →
      (h.read dir).Parent = some root → (h.read root).Parent = none →
        loadFilePath 2 env h child dir shorterThan longerThan = none ∧
        ∃ h1, loadFilePath 3 env h child dir shorterThan longerThan = some (h1, none)) := by
  refine ⟨?_, ?_, ?_, ?_, ?_⟩
  · intro h d p ps t hc
    have hn := parentChain_nodup h d p ps hc
    obtain ⟨f1, f2, f3⟩ := foldl_addAmounts_read t.NumberOfStrings.val 1 ps hn h
    refine ⟨parentChain_length h d p ps hc, hn,
      fun fuel hf => populateFileAmounts_short h d p ps t fuel hc hf,
      _, fun fuel hf => ?_, f1, fun x hx => ⟨?_, fun hmax => ⟨?_, ?_⟩⟩, f3⟩
    · obtain ⟨k, rfl⟩ := Nat.exists_eq_add_of_le hf
      exact populateFileAmounts_chain h d p ps t k hc
    · rw [f2 x hx]
      rfl
    · rw [f2 x hx]
      rfl
    · rw [f2 x hx]
      show (h.read x).NumFiles + 1 ≤ maxInt
      exact Int.add_one_le_of_lt hmax
  · intro env h p q s l t hc
    exact loadFilePath_fuel_one env h p q s l t hc
  · intro env paths s l
    exact ⟨_, LoadPaths_of_fuel 3 (Nat.le_refl _) env paths s l⟩
  · intro env h p r s l t hc hpr hr
    obtain ⟨h1, c, he, -⟩ := loadFilePath_kept 2 env h p r s l t 0 [r] hc
      (parentChain_zero_none h r hr) (by simpa using hpr) (Nat.le_refl _)
    exact ⟨h1, he⟩
  · intro env h c p r s l t hc hcp hcr hp hr
    have hch : parentChain h 1 p = some [p, r] := by
      rw [parentChain_succ_some h 0 p r hp, parentChain_zero_none h r hr]
      rfl
    have hnot : c ∉ [p, r] := by
      simp only [List.mem_cons, List.mem_singleton, not_or, List.not_mem_nil, or_false]
      exact ⟨hcp, hcr⟩
    refine ⟨loadFilePath_short 2 env h c p s l t 1 [p, r] hc hch hnot (Nat.le_refl _), ?_⟩
    obtain ⟨h1, c1, he, -⟩ := loadFilePath_kept 3 env h c p s l t 1 [p, r] hc hch hnot
      (Nat.le_refl _)
    exact ⟨h1, he⟩

/-- The walk from `D/f` through `D` to the root, and the calls of `loadFilePath` for `b` and
for `D/f`, as instances of C18. -/
theorem C18_walk_to_the_root_witness :
    parentChain nestedHeapF 2 2 = some [2, 1, 0] ∧
    ([2, 1, 0] : List Ptr).length = 2 + 1 ∧ ([2, 1, 0] : List Ptr).Nodup ∧
    (∀ fuel, fuel ≤ 2 → populateFileAmounts fuel nestedHeapF 2 ⟨7, 30, 4⟩ = none) ∧
    (∃ h1, (∀ fuel, 2 + 1 ≤ fuel →
        populateFileAmounts fuel nestedHeapF 2 ⟨7, 30, 4⟩ = some h1) ∧
      h1.next = nestedHeapF.next ∧
      (∀ x ∈ ([2, 1, 0] : List Ptr),
        { h1.read x with NumFiles := (nestedHeapF.read x).NumFiles } =
          { nestedHeapF.read x with
            NumEntries := ((nestedHeapF.read x).NumEntries
              + (⟨7, 30, 4⟩ : DataTable).NumberOfStrings.val) % 2 ^ 64 } ∧
        ((nestedHeapF.read x).NumFiles < maxInt →
          (h1.read x).NumFiles = (nestedHeapF.read x).NumFiles + 1 ∧
          (h1.read x).NumFiles ≤ maxInt)) ∧
      (∀ x, x ∉ ([2, 1, 0] : List Ptr) → h1.read x = nestedHeapF.read x)) ∧
    (nestedHeapF.read 1).NumFiles < maxInt ∧
    (∃ h1, populateFileAmounts 3 nestedHeapF 2 ⟨7, 30, 4⟩ = some h1 ∧
      (h1.read 1).NumFiles = (nestedHeapF.read 1).NumFiles + 1 ∧
      (h1.read 1).NumFiles ≤ maxInt) ∧
    checkFile scenarioEnv 100 0 (scenarioHeapB.read 1).Path = .ok scenarioTableB ∧
    loadFilePath 1 scenarioEnv scenarioHeapB 1 0 100 0 = none ∧
    (1 : Ptr) ≠ 0 ∧ (scenarioHeapB.read 0).Parent = none ∧
    (∃ h1, loadFilePath 2 scenarioEnv scenarioHeapB 1 0 100 0 = some (h1, none)) ∧
    checkFile nestedEnv 100 0 (nestedHeapF.read 2).Path = .ok ⟨7, 30, 4⟩ ∧
    (2 : Ptr) ≠ 1 ∧ (2 : Ptr) ≠ 0 ∧
    (nestedHeapF.read 1).Parent = some 0 ∧ (nestedHeapF.read 0).Parent = none ∧
    loadFilePath 2 nestedEnv nestedHeapF 2 1 100 0 = none ∧
    (∃ h1, loadFilePath 3 nestedEnv nestedHeapF 2 1 100 0 = some (h1, none)) :=
  ⟨by rfl,
    (C18_walk_to_the_root.1 nestedHeapF 2 2 [2, 1, 0] ⟨7, 30, 4⟩ (by rfl)).1,
    (C18_walk_to_the_root.1 nestedHeapF 2 2 [2, 1, 0] ⟨7, 30, 4⟩ (by rfl)).2.1,
    (C18_walk_to_the_root.1 nestedHeapF 2 2 [2, 1, 0] ⟨7, 30, 4⟩ (by rfl)).2.2.1,
    (C18_walk_to_the_root.1 nestedHeapF 2 2 [2, 1, 0] ⟨7, 30, 4⟩ (by rfl)).2.2.2,
    by decide,
    (by
      obtain ⟨-, -, -, h1, hrun, -, hchain, -⟩ :=
        C18_walk_to_the_root.1 nestedHeapF 2 2 [2, 1, 0] ⟨7, 30, 4⟩ (by rfl)
      exact ⟨h1, hrun 3 (by decide),
        (hchain 1 (List.mem_cons_of_mem _ (List.mem_cons_self _ _))).2 (by decide)⟩),
    by rfl,
    C18_walk_to_the_root.2.1 scenarioEnv scenarioHeapB 1 0 100 0 scenarioTableB (by rfl),
    by decide, by rfl,
    C18_walk_to_the_root.2.2.2.1 scenarioEnv scenarioHeapB 1 0 100 0 scenarioTableB (by rfl)
      (by decide) (by rfl),
    by rfl, by decide, by decide, by rfl, by rfl,
    (C18_walk_to_the_root.2.2.2.2 nestedEnv nestedHeapF 2 1 0 100 0 ⟨7, 30, 4⟩ (by rfl)
      (by decide) (by decide) (by rfl) (by rfl)).1,
    (C18_walk_to_the_root.2.2.2.2 nestedEnv nestedHeapF 2 1 0 100 0 ⟨7, 30, 4⟩ (by rfl)
      (by decide) (by decide) (by rfl) (by rfl)).2⟩

/-- C19: if `LoadPaths` returns a nil error on `p` and on `q`, it returns a nil error on
`p ++ q`; the children of its root are the children of the first root (the very same nodes)
followed by nodes that agree with the children of the second root in everything but `Parent`
addresses (same subtrees, same order); its `NumFiles` is the sum of the two roots' `NumFiles`
and its `NumEntries` the sum of their `NumEntries` as the `uint64` field holds it (the sum
modulo `2^64`, hence the sum itself whenever that is below `2^64`). -/
theorem C19_load_of_concatenation (fuel : Nat) (hfuel : 3 ≤ fuel) (env : Env)
    (p q : List ProbabilityPath) (shorterThan longerThan : uint32)
    (rootP rootQ : FileSystemNodeDescriptor)
    (hp : LoadPaths fuel env p shorterThan longerThan = some (rootP, none))
    (hq : LoadPaths fuel env q shorterThan longerThan = some (rootQ, none)) :
    ∃ root, LoadPaths fuel env (p ++ q) shorterThan longerThan = some (root, none) ∧
      root.Children.take p.length = rootP.Children ∧
      root.Children.map forgetParents
        = (rootP.Children ++ rootQ.Children).map forgetParents ∧
      root.NumEntries = (rootP.NumEntries + rootQ.NumEntries) % 2 ^ 64 ∧
      (rootP.NumEntries + rootQ.NumEntries < 2 ^ 64 →
        root.NumEntries = rootP.NumEntries + rootQ.NumEntries) ∧
      root.NumFiles = rootP.NumFiles + rootQ.NumFiles := by
  have hx := (LoadPaths_some fuel env p shorterThan longerThan _ hp).symm
  have hy := (LoadPaths_some fuel env q shorterThan longerThan _ hq).symm
  have hrp : rootP = (treeFrom env shorterThan longerThan 0 p 1 rootNode).1 := by rw [hx]
  have hrq : rootQ = (treeFrom env shorterThan longerThan 0 q 1 rootNode).1 := by rw [hy]
  have hqe : (treeFrom env shorterThan longerThan 0 q 1 rootNode).2 = none := by rw [hy]
  have hpe : (treeFrom env shorterThan longerThan 0 p 1 rootNode).2 = none := by rw [hx]
  have hplen := loadedNodes_length _ _ _ _ _ _ _ hpe
  rw [root_eq] at hrp hrq
  generalize hcp : loadedNodes env shorterThan longerThan 0 p 1 = cp at hrp hplen
  generalize hcq : loadedNodes env shorterThan longerThan 0 q 1 = cq at hrq
  have hpNE : rootP.NumEntries = sumEntries cp 0 := by rw [hrp]
  have hpNF : rootP.NumFiles = (cp.map (·.NumFiles)).sum := by rw [hrp]
  have hpC : rootP.Children = cp := by rw [hrp]
  have hqNE : rootQ.NumEntries = sumEntries cq 0 := by rw [hrq]
  have hqNF : rootQ.NumFiles = (cq.map (·.NumFiles)).sum := by rw [hrq]
  have hqC : rootQ.Children = cq := by rw [hrq]
  -- the second half of the loop, run after the first
  have herr2 : (treeFrom env shorterThan longerThan 0 q (1 + pathsCells env p) rootP).2
      = none := by
    rw [treeFrom_error_none_iff]
    exact (treeFrom_error_none_iff env shorterThan longerThan 0 q 1 rootNode).mp hqe
  generalize hcq2 : loadedNodes env shorterThan longerThan 0 q (1 + pathsCells env p) = cq2
  have hforget : cq2.map forgetParents = cq.map forgetParents := by
    rw [← hcq2, ← hcq]
    exact loadedNodes_forgetParents _ _ _ _ _ _ _ _
  have hroot : (treeFrom env shorterThan longerThan 0 (p ++ q) 1 rootNode)
      = (cq2.foldl attach rootP, none) := by
    rw [treeFrom_append_ok _ _ _ _ _ _ _ _ _ hx]
    apply Prod.ext
    · rw [treeFrom_fst, hcq2]
    · exact herr2
  have hlt : rootP.NumEntries < 2 ^ 64 := by
    rw [hpNE]
    exact sumEntries_lt _ _ (by norm_num)
  have hNE : (cq2.foldl attach rootP).NumEntries
      = (rootP.NumEntries + rootQ.NumEntries) % 2 ^ 64 := by
    rw [foldl_attach_eq]
    show sumEntries cq2 rootP.NumEntries = _
    rw [sumEntries_eq _ _ hlt, hqNE, sumEntries_eq cq 0 (by norm_num), Nat.zero_add,
      Nat.add_mod_mod, map_NumEntries_of_forgetParents cq2 cq hforget]
  refine ⟨cq2.foldl attach rootP, ?_, ?_, ?_, hNE, fun hsmall => ?_, ?_⟩
  · rw [LoadPaths_of_fuel fuel hfuel, hroot]
  · rw [foldl_attach_eq]
    show (rootP.Children ++ cq2).take p.length = _
    rw [hpC, ← hplen, List.take_left']
    rfl
  · rw [foldl_attach_eq]
    show (rootP.Children ++ cq2).map forgetParents = _
    rw [List.map_append, List.map_append, hforget, hqC]
  · rw [hNE, Nat.mod_eq_of_lt hsmall]
  · rw [foldl_attach_eq]
    show rootP.NumFiles + (cq2.map (·.NumFiles)).sum = _
    rw [hqNF, map_NumFiles_of_forgetParents cq2 cq hforget]

/-- The paths `b` and `A` of the scenario, loaded apart and together, as an instance of
C19. -/
theorem C19_load_of_concatenation_witness :
    3 ≤ 3 ∧
    LoadPaths 3 scenarioEnv [⟨"b", 0⟩] 100 0 = some (scenarioRootB, none) ∧
    LoadPaths 3 scenarioEnv [⟨"A", 0⟩] 100 0 = some (scenarioRootA, none) ∧
    LoadPaths 3 scenarioEnv ([⟨"b", 0⟩] ++ [⟨"A", 0⟩]) 100 0 = some (scenarioRootBA, none) ∧
    ∃ root, LoadPaths 3 scenarioEnv ([⟨"b", 0⟩] ++ [⟨"A", 0⟩]) 100 0 = some (root, none) ∧
      root.Children.take [(⟨"b", 0⟩ : ProbabilityPath)].length = scenarioRootB.Children ∧
      root.Children.map forgetParents
        = (scenarioRootB.Children ++ scenarioRootA.Children).map forgetParents ∧
      root.NumEntries = (scenarioRootB.NumEntries + scenarioRootA.NumEntries) % 2 ^ 64 ∧
      (scenarioRootB.NumEntries + scenarioRootA.NumEntries < 2 ^ 64 →
        root.NumEntries = scenarioRootB.NumEntries + scenarioRootA.NumEntries) ∧
      root.NumFiles = scenarioRootB.NumFiles + scenarioRootA.NumFiles :=
  ⟨by decide, by rfl, by rfl, by rfl,
    C19_load_of_concatenation 3 (by decide) scenarioEnv [⟨"b", 0⟩] [⟨"A", 0⟩] 100 0
      scenarioRootB scenarioRootA (by rfl) (by rfl)⟩

end Fortune
